import Mathlib

/-!
# Shape-specialised compilation cache

A shallow embedding of `torch/csrc/jit/tensorexpr/authoring.cpp`: the packed
`SpecializationKey`, the alias analysis and key builder of `CompileCache3`,
the compilation cache itself, and the arity / dimensionality dispatchers
`CompileCache2` and `CompileCache`.

Conventions of the embedding.

* `std::array` and C arrays are lists; a read at index `i` is `getD i _`, a
  write is `List.set`.
* `int64_t` sizes and strides are `Int`.  A product of two of them is an `int64_t`
  again: it wraps modulo `2 ^ 64` (two's complement), which is what the compiled
  comparison sees; `int64` gives the 64-bit value of an integer.  `uint16_t`
  arithmetic is reduced modulo `2 ^ 16`.
* `for` loops over an index range are folds over `List.range`; loops with `break`
  are recursions over the list of indices.
* Code that can throw returns `Except String _`.
-/

namespace Authoring

deriving instance DecidableEq for Except

/-! ## The array runtime -/

/-- Option counts of the three enumerations consulted by `pack_flags`.  They are
declared in ATen headers that are not part of these sources, so they are taken
as parameters:
`scalarTypes` is `at::ScalarType::NumOptions`, `layouts` is
`at::Layout::NumOptions`, `deviceTypes` is
`at::DeviceType::COMPILE_TIME_MAX_DEVICE_TYPES`. -/
structure EnumCounts where
  scalarTypes : Nat
  layouts : Nat
  deviceTypes : Nat
deriving DecidableEq, Repr

/-- Metadata of an `at::Tensor` as far as the dispatch path reads it.  `storage`
identifies the storage the tensor is backed by; `dtype`, `device` and `layout`
are the enumeration values as integers. -/
structure Tensor where
  sizes : List Int
  strides : List Int
  dtype : Nat
  device : Nat
  layout : Nat
  requires_grad : Bool
  storage : Nat
  storage_offset : Int
  data_ptr : Nat
deriving DecidableEq, Repr, Inhabited

/-- `at::Tensor::ndimension()`. -/
def Tensor.ndimension (v : Tensor) : Nat := v.sizes.length

/-- Modelled from the spec: `at::Tensor::is_alias_of` belongs to the array runtime,
which is not part of these sources; two arrays alias when they share storage. -/
def Tensor.is_alias_of (a b : Tensor) : Bool := a.storage == b.storage

/-- Modelled from the spec: `at::Tensor::is_set_to` belongs to the array runtime,
which is not part of these sources; strict alias means same storage, sizes,
strides and offset. -/
def Tensor.is_set_to (a b : Tensor) : Bool :=
  a.storage == b.storage && a.storage_offset == b.storage_offset &&
    a.sizes == b.sizes && a.strides == b.strides

/-! ## SpecializationKey -/

/-- `DimFlags::SIZE_MISSING` (line 33). -/
def SIZE_MISSING : Nat := 1 <<< 0
/-- `DimFlags::SIZE_ONE` (line 34): extent `== 1`. -/
def SIZE_ONE : Nat := 1 <<< 1
/-- `DimFlags::SIZE_OTHER` (line 35). -/
def SIZE_OTHER : Nat := 1 <<< 2
/-- `DimFlags::STRIDE_ZERO` (line 37): stride `== 0`. -/
def STRIDE_ZERO : Nat := 1 <<< 3
/-- `DimFlags::STRIDE_ONE` (line 38): stride `== 1`. -/
def STRIDE_ONE : Nat := 1 <<< 4
/-- `DimFlags::STRIDE_CONTIGUOUS` (line 39). -/
def STRIDE_CONTIGUOUS : Nat := 1 <<< 5
/-- `DimFlags::STRIDE_TRANSPOSED_CONTIGUOUS` (line 40). -/
def STRIDE_TRANSPOSED_CONTIGUOUS : Nat := 1 <<< 6
/-- `DimFlags::STRIDE_AS_ARG` (line 41). -/
def STRIDE_AS_ARG : Nat := 1 <<< 7

/-- The packed record `SpecializationKey<MAX_DIMS>`: `uint16_t flags_`,
`int8_t alias_group_`, `uint8_t dimflags_[MAX_DIMS]`. -/
structure SpecializationKey where
  flags_ : Nat
  alias_group_ : Int
  dimflags_ : List Nat
deriving DecidableEq, Repr, Inhabited

/-- `SpecializationKey::pack_flags` (lines 45-65).  The `constexpr uint16_t`
strides `S0 .. S4` and the returned sum are reduced modulo `2 ^ 16`. -/
def pack_flags (E : EnumCounts) (v : Tensor) (is_out : Bool) : Nat :=
  let S0 : Nat := 1
  let S1 : Nat := (S0 * 2) % 65536
  let S2 : Nat := (S1 * 2) % 65536
  let S3 : Nat := (S2 * E.scalarTypes) % 65536
  let S4 : Nat := (S3 * E.layouts) % 65536
  (S0 * is_out.toNat + S1 * v.requires_grad.toNat + S2 * (v.dtype % 65536) +
    S3 * (v.layout % 65536) + S4 * (v.device % 65536)) % 65536

/-- The value an `int64_t` holds for the integer `x`: the representative of `x`
modulo `2 ^ 64` in the range `-2 ^ 63 .. 2 ^ 63 - 1`.  It is the identity on that
range. -/
def int64 (x : Int) : Int :=
  (x + 9223372036854775808) % 18446744073709551616 - 9223372036854775808

/-- Body of the first loop of `init_dimflags` (lines 72-84): the flag byte of
dimension `dim`.  The two sides of the comparisons of lines 79 and 81 are `int64_t`
values: `strides[dim]`, on which `int64` is the identity, and a product of two
`int64_t`, which wraps modulo `2 ^ 64`. -/
def init_dimflags.flag (sizes strides : List Int) (dim : Nat) : Nat :=
  let flag : Nat := if sizes.getD dim 0 = 1 then SIZE_ONE else SIZE_OTHER
  if strides.getD dim 0 = 0 then
    flag ||| STRIDE_ZERO
  else if strides.getD dim 0 = 1 then
    flag ||| STRIDE_ONE
  else if dim + 1 < sizes.length ∧
      int64 (strides.getD dim 0) =
        int64 (strides.getD (dim + 1) 0 * sizes.getD (dim + 1) 0) then
    flag ||| STRIDE_CONTIGUOUS
  else if dim > 0 ∧
      int64 (strides.getD dim 0) =
        int64 (strides.getD (dim - 1) 0 * sizes.getD (dim - 1) 0) then
    flag ||| STRIDE_TRANSPOSED_CONTIGUOUS
  else
    flag ||| STRIDE_AS_ARG

/-- One iteration of the first loop of `init_dimflags`: `dimflags_[out_idx++] = flag`. -/
def init_dimflags.step (sizes strides : List Int) (s : List Nat × Nat) (dim : Nat) :
    List Nat × Nat :=
  (s.1.set s.2 (init_dimflags.flag sizes strides dim), s.2 + 1)

/-- One iteration of the padding loop of `init_dimflags`:
`dimflags_[out_idx++] = SIZE_MISSING | STRIDE_ZERO`. -/
def init_dimflags.pad (s : List Nat × Nat) : List Nat × Nat :=
  (s.1.set s.2 (SIZE_MISSING ||| STRIDE_ZERO), s.2 + 1)

/-- The two loops of `SpecializationKey::init_dimflags` (lines 68-90), returning
`dimflags_` and the final value of `out_idx`.  The array starts zeroed (it is
uninitialised in the source; every slot is written when `ndims <= MAX_DIMS`).  The
`while (out_idx < MAX_DIMS)` loop runs `MAX_DIMS - out_idx` times.  Every write is
at an index below the final `out_idx`. -/
def init_dimflags.loops (MAX_DIMS : Nat) (sizes strides : List Int) (ndims : Nat) :
    List Nat × Nat :=
  let s := (List.range ndims).foldl (init_dimflags.step sizes strides)
    (List.replicate MAX_DIMS 0, 0)
  (List.range (MAX_DIMS - s.2)).foldl (fun s _ => init_dimflags.pad s) s

/-- `SpecializationKey::init_dimflags` (lines 68-90): the resulting `dimflags_`. -/
def init_dimflags (MAX_DIMS : Nat) (sizes strides : List Int) (ndims : Nat) : List Nat :=
  (init_dimflags.loops MAX_DIMS sizes strides ndims).1

/-- Constructor `SpecializationKey(v, alias_group, is_out)` (lines 95-98). -/
def SpecializationKey.new (E : EnumCounts) (MAX_DIMS : Nat) (v : Tensor) (alias_group : Int)
    (is_out : Bool) : SpecializationKey :=
  { flags_ := pack_flags E v is_out
    alias_group_ := alias_group
    dimflags_ := init_dimflags MAX_DIMS v.sizes v.strides v.ndimension }

/-- The packed byte image of a key: `flags_` (two bytes, low byte first),
`alias_group_` (one byte, two's complement), then the `dimflags_` bytes. -/
def SpecializationKey.bytes (k : SpecializationKey) : List Nat :=
  [k.flags_ % 256, k.flags_ / 256 % 256, (k.alias_group_ % 256).toNat] ++ k.dimflags_

/-- `memcmp(p, q, n)`: the difference of the first pair of differing bytes among
the first `n`, or `0`. -/
def memcmp : List Nat → List Nat → Nat → Int
  | _, _, 0 => 0
  | p, q, n + 1 =>
    if p.headD 0 = q.headD 0 then memcmp p.tail q.tail n
    else (p.headD 0 : Int) - (q.headD 0 : Int)

/-- `SpecializationKey::cmp` (lines 100-105): `memcmp` over
`sizeof(flags_) + sizeof(alias_group_) + sizeof(dimflags_)` bytes. -/
def SpecializationKey.cmp (MAX_DIMS : Nat) (k other : SpecializationKey) : Int :=
  memcmp k.bytes other.bytes (2 + 1 + MAX_DIMS)

/-- Loop of `SpecializationKey::shape` (lines 109-117) over the remaining indices. -/
def SpecializationKey.shape.loop (dimflags_ : List Nat) : List Nat → List String → List String
  | [], result => result
  | i :: rest, result =>
    if dimflags_.getD i 0 &&& SIZE_MISSING > 0 then result
    else if dimflags_.getD i 0 &&& SIZE_ONE > 0 then
      SpecializationKey.shape.loop dimflags_ rest (result ++ ["one"])
    else
      SpecializationKey.shape.loop dimflags_ rest (result ++ ["other"])

/-- `SpecializationKey::shape` (lines 107-119). -/
def SpecializationKey.shape (MAX_DIMS : Nat) (k : SpecializationKey) : List String :=
  SpecializationKey.shape.loop k.dimflags_ (List.range MAX_DIMS) []

/-- Loop of `SpecializationKey::stride` (lines 122-138) over the remaining indices. -/
def SpecializationKey.stride.loop (dimflags_ : List Nat) :
    List Nat → List String → Except String (List String)
  | [], result => .ok result
  | i :: rest, result =>
    if dimflags_.getD i 0 &&& SIZE_MISSING > 0 then .ok result
    else if dimflags_.getD i 0 &&& STRIDE_ZERO > 0 then
      SpecializationKey.stride.loop dimflags_ rest (result ++ ["zero"])
    else if dimflags_.getD i 0 &&& STRIDE_ONE > 0 then
      SpecializationKey.stride.loop dimflags_ rest (result ++ ["one"])
    else if dimflags_.getD i 0 &&& STRIDE_CONTIGUOUS > 0 then
      SpecializationKey.stride.loop dimflags_ rest (result ++ ["contiguous"])
    else if dimflags_.getD i 0 &&& STRIDE_TRANSPOSED_CONTIGUOUS > 0 then
      SpecializationKey.stride.loop dimflags_ rest (result ++ ["transposed_contiguous"])
    else if dimflags_.getD i 0 &&& STRIDE_AS_ARG > 0 then
      SpecializationKey.stride.loop dimflags_ rest (result ++ ["as_arg"])
    else .error "??"

/-- `SpecializationKey::stride` (lines 120-140). -/
def SpecializationKey.stride (MAX_DIMS : Nat) (k : SpecializationKey) :
    Except String (List String) :=
  SpecializationKey.stride.loop k.dimflags_ (List.range MAX_DIMS) []

/-- The named tuple built by `to_python`:
`alias_group, ndim, dtype, device, layout, requires_grad, out, shape, stride`. -/
structure Description where
  alias_group : Int
  ndim : Nat
  dtype : Nat
  device : Nat
  layout : Nat
  requires_grad : Bool
  out : Bool
  shape : List String
  stride : List String
deriving DecidableEq, Repr

/-- `SpecializationKey::to_python` (lines 142-159). -/
def SpecializationKey.to_python (MAX_DIMS : Nat) (k : SpecializationKey) (example_ : Tensor) :
    Except String Description :=
  match k.stride MAX_DIMS with
  | .error e => .error e
  | .ok st =>
    .ok { alias_group := k.alias_group_
          ndim := example_.ndimension
          dtype := example_.dtype
          device := example_.device
          layout := example_.layout
          requires_grad := example_.requires_grad
          out := decide (k.flags_ % 2 ≠ 0)
          shape := k.shape MAX_DIMS
          stride := st }

/-! ## Key tuples and their order -/

/-- Loop of `CmpLess::operator()` (lines 186-192) over the remaining indices. -/
def CmpLess.loop (MAX_DIMS : Nat) (left right : List SpecializationKey) : List Nat → Bool
  | [] => false
  | i :: rest =>
    let c := (left.getD i default).cmp MAX_DIMS (right.getD i default)
    if c < 0 then true
    else if c > 0 then false
    else CmpLess.loop MAX_DIMS left right rest

/-- `CmpLess::operator()` (lines 183-195) on key tuples `std::array<ArgKey, NARGS>`. -/
def CmpLess (MAX_DIMS : Nat) (left right : List SpecializationKey) : Bool :=
  CmpLess.loop MAX_DIMS left right (List.range left.length)

/-- Key equivalence as `std::map` sees it: neither key is less than the other. -/
def keyEquiv (MAX_DIMS : Nat) (a b : List SpecializationKey) : Bool :=
  !CmpLess MAX_DIMS a b && !CmpLess MAX_DIMS b a

/-! ## Alias analysis and key builder (CompileCache3) -/

/-- `CompileCache3::aliasing_check` (lines 259-271).  The two predicates of the array
runtime are parameters. -/
def aliasing_check {α : Type} (is_alias_of is_set_to : α → α → Bool) (a b : α) : Int :=
  if is_alias_of a b then
    if is_set_to a b then 1 else -1
  else 0

/-- Body of the inner loop of `compute_alias_groups` (lines 282-288); the state is
`(alias_groups, current_id)`. -/
def compute_alias_groups.inner {α : Type} [Inhabited α] (is_alias_of is_set_to : α → α → Bool)
    (args : List α) (i : Nat) (s : List Int × Int) (j : Nat) : List Int × Int :=
  let alias_type := aliasing_check is_alias_of is_set_to (args.getD i default) (args.getD j default)
  if alias_type ≠ 0 then
    let current_id := if s.1.getD i 0 = 0 then s.2 + 1 else s.2
    ((s.1.set i current_id).set j (current_id * alias_type), current_id)
  else s

/-- Body of the outer loop of `compute_alias_groups` (lines 280-290). -/
def compute_alias_groups.outer {α : Type} [Inhabited α] (is_alias_of is_set_to : α → α → Bool)
    (args : List α) (s : List Int × Int) (i : Nat) : List Int × Int :=
  if s.1.getD i 0 = 0 then
    (List.range' (i + 1) (args.length - (i + 1))).foldl
      (compute_alias_groups.inner is_alias_of is_set_to args i) s
  else s

/-- `CompileCache3::compute_alias_groups` (lines 273-293) with `NARGS = args.length`.
The `int8_t` ids are integers: `current_id` never exceeds `NARGS / 2`, so nothing
wraps for the arities 1..4 that are instantiated. -/
def compute_alias_groups {α : Type} [Inhabited α] (is_alias_of is_set_to : α → α → Bool)
    (args : List α) : List Int :=
  let alias_groups := (List.range args.length).foldl (fun g i => g.set i 0)
    (List.replicate args.length 0)
  ((List.range args.length).foldl
    (compute_alias_groups.outer is_alias_of is_set_to args) (alias_groups, 0)).1

/-- `CompileCache3::compute_cache_key` (lines 295-306) with `NARGS = args.length`. -/
def compute_cache_key (E : EnumCounts) (MAX_DIMS : Nat) (args : List Tensor) (has_out : Bool) :
    List SpecializationKey :=
  let alias_groups := compute_alias_groups Tensor.is_alias_of Tensor.is_set_to args
  let key := (List.range (args.length - 1)).foldl
    (fun key i => key.set i
      (SpecializationKey.new E MAX_DIMS (args.getD i default) (alias_groups.getD i 0) false))
    (List.replicate args.length default)
  let i := args.length - 1
  if i < args.length then
    key.set i (SpecializationKey.new E MAX_DIMS (args.getD i default) (alias_groups.getD i 0) has_out)
  else key

/-! ## Compiled entries -/

/-- A method call made by the compiler callback on the `CompileResultProxy`
(lines 433-451). -/
inductive ProxyCall where
  | set_code (cg : Nat)
  | set_shape_from (indices : List (Int × Int))
  | set_options_from (index : Int)
  | add_shape_check (indices : Int × Int × Int × Int)
deriving DecidableEq, Repr

/-- `CompileCache3::CompileResultImpl` (lines 205-239).  `cg_` is `none` until
`set_code` is called; Python objects are identified by a number. -/
structure CompileResultImpl where
  cg_ : Option Nat
  shape_from_ : List (Int × Int)
  shape_checks_ : List (Int × Int × Int × Int)
  options_from_ : Int
  objects_ : List Nat
deriving DecidableEq, Repr

/-- `new CompileResultImpl()`. -/
def CompileResultImpl.new : CompileResultImpl :=
  { cg_ := none, shape_from_ := [], shape_checks_ := [], options_from_ := 0, objects_ := [] }

/-- The four setters of `CompileResultImpl` (lines 207-221), selected by the proxy
call.  The `assert` of `set_shape_from` does not take part: it names
`indices.shape()`, which `std::vector` does not have, so the file only builds with
assertions compiled out. -/
def CompileResultImpl.configure (self : CompileResultImpl) : ProxyCall → CompileResultImpl
  | .set_code cg => { self with objects_ := self.objects_ ++ [cg], cg_ := some cg }
  | .set_shape_from indices => { self with shape_from_ := indices }
  | .set_options_from index => { self with options_from_ := index }
  | .add_shape_check indices => { self with shape_checks_ := self.shape_checks_ ++ [indices] }

/-! ## The cache -/

/-- The sorted map `std::map<Key, CompileResultImpl*, CmpLess>` as an association
list; the position of an entry is not observable through `find` and `emplace`. -/
abbrev Map := List (List SpecializationKey × CompileResultImpl)

/-- `std::map::find`: the entry whose key is equivalent to `key`. -/
def Map.find (MAX_DIMS : Nat) (m : Map) (key : List SpecializationKey) :
    Option CompileResultImpl :=
  (List.find? (fun e => keyEquiv MAX_DIMS e.1 key) m).map Prod.snd

/-- `std::map::emplace`: inserts unless an equivalent key is present. -/
def Map.emplace (MAX_DIMS : Nat) (m : Map) (key : List SpecializationKey)
    (cr : CompileResultImpl) : Map :=
  match Map.find MAX_DIMS m key with
  | some _ => m
  | none => m ++ [(key, cr)]

/-- The compiler callback `compile_fn_`: a Python callable with its own state `σ`.
Given the description list it either raises, or returns after a sequence of calls
on the proxy. -/
abbrev CompileFn (σ : Type) := σ → List Description → σ × Except String (List ProxyCall)

/-- State of one `CompileCache3` together with the Python side: the map `cache_`,
the state `py` of the callback, and the log `compiled` of the keys for which the
callback has been invoked (oldest first). -/
structure CompileCache3 (σ : Type) where
  cache_ : Map
  py : σ
  compiled : List (List SpecializationKey)

/-- The loop of lines 250-252: `spec.push_back(key[i].to_python(example[i]))`. -/
def cached_compile.spec (MAX_DIMS : Nat) (key : List SpecializationKey) (example_ : List Tensor) :
    List Nat → List Description → Except String (List Description)
  | [], spec => .ok spec
  | i :: rest, spec =>
    match (key.getD i default).to_python MAX_DIMS (example_.getD i default) with
    | .error e => .error e
    | .ok d => cached_compile.spec MAX_DIMS key example_ rest (spec ++ [d])

/-- `CompileCache3::cached_compile` (lines 242-257).  The whole body runs under
the mutex, so it is one atomic step of the cache. -/
def cached_compile {σ : Type} (MAX_DIMS : Nat) (compile_fn_ : CompileFn σ) (self : CompileCache3 σ)
    (key : List SpecializationKey) (example_ : List Tensor) :
    Except String CompileResultImpl × CompileCache3 σ :=
  match Map.find MAX_DIMS self.cache_ key with
  | some item => (.ok item, self)
  | none =>
    let cr := CompileResultImpl.new
    match cached_compile.spec MAX_DIMS key example_ (List.range key.length) [] with
    | .error e => (.error e, self)
    | .ok spec =>
      match compile_fn_ self.py spec with
      | (py, .error e) =>
        (.error e, { self with py := py, compiled := self.compiled ++ [key] })
      | (py, .ok calls) =>
        let cr := calls.foldl CompileResultImpl.configure cr
        (.ok cr, { cache_ := Map.emplace MAX_DIMS self.cache_ key cr
                   py := py
                   compiled := self.compiled ++ [key] })

/-- A sequence of `cached_compile` calls on one cache; the mutex serialises them.
Returns the result of every call, in order, and the final state. -/
def CompileCache3.run {σ : Type} (MAX_DIMS : Nat) (compile_fn_ : CompileFn σ) :
    CompileCache3 σ → List (List SpecializationKey × List Tensor) →
      List (Except String CompileResultImpl) × CompileCache3 σ
  | self, [] => ([], self)
  | self, call :: rest =>
    ((cached_compile MAX_DIMS compile_fn_ self call.1 call.2).1 ::
        (CompileCache3.run MAX_DIMS compile_fn_
          (cached_compile MAX_DIMS compile_fn_ self call.1 call.2).2 rest).1,
      (CompileCache3.run MAX_DIMS compile_fn_
        (cached_compile MAX_DIMS compile_fn_ self call.1 call.2).2 rest).2)

/-! ## Dispatchers -/

/-- The tail call `cacheD.call(args, has_out)` on the `CompileCache3<NARGS, MAX_DIMS>`
member selected by the dispatchers. -/
structure Route where
  NARGS : Nat
  MAX_DIMS : Nat
  args : List Tensor
  has_out : Bool
deriving DecidableEq, Repr

/-- `CompileCache2<NARGS>::call` (lines 340-353) with `NARGS = args.length`. -/
def CompileCache2.call (args : List Tensor) (has_out : Bool) : Except String Route :=
  let ndims := args.foldl (fun ndims item => max item.ndimension ndims) 0
  if ndims ≤ 2 then
    .ok { NARGS := args.length, MAX_DIMS := 2, args := args, has_out := has_out }
  else if ndims ≤ 4 then
    .ok { NARGS := args.length, MAX_DIMS := 4, args := args, has_out := has_out }
  else if ndims ≤ 8 then
    .ok { NARGS := args.length, MAX_DIMS := 8, args := args, has_out := has_out }
  else .error "TODO: handle more dims"

/-- The expression `args[i].cast<at::Tensor>()` on the positional tuple: Python raises
when the index is outside the tuple. -/
def tupleItem (args : List Tensor) (i : Int) : Except String Tensor :=
  if i < 0 then .error "IndexError: tuple index out of range"
  else
    match args[i.toNat]? with
    | some v => .ok v
    | none => .error "IndexError: tuple index out of range"

/-- The expression `kwargs["out"].cast<at::Tensor>()`: Python raises when the key is
absent. -/
def kwargsOut (kwargs : List (String × Tensor)) : Except String Tensor :=
  match kwargs.lookup "out" with
  | some v => .ok v
  | none => .error "KeyError: out"

/-- Lines 374-382 of `CompileCache::call`: the choice of `last_arg`. -/
def CompileCache.last_arg (args : List Tensor) (kwargs : List (String × Tensor)) :
    Except String Tensor :=
  let num_args : Int := args.length
  let num_kwargs : Int := kwargs.length
  if num_kwargs = 1 then kwargsOut kwargs
  else if num_kwargs > 1 then .error "expected at most 1 kwarg"
  else tupleItem args (num_args - 1)

/-- `CompileCache::call` (lines 369-415).  `kwargs` is the keyword dictionary as a
list of distinct names with their values. -/
def CompileCache.call (args : List Tensor) (kwargs : List (String × Tensor)) :
    Except String Route :=
  let num_args : Int := args.length
  let num_kwargs : Int := kwargs.length
  let has_out : Bool := num_kwargs == 1
  match CompileCache.last_arg args kwargs with
  | .error e => .error e
  | .ok last_arg =>
    if num_args + num_kwargs = 1 then
      CompileCache2.call [last_arg] has_out
    else if num_args + num_kwargs = 2 then
      match tupleItem args 0 with
      | .error e => .error e
      | .ok a0 => CompileCache2.call [a0, last_arg] has_out
    else if num_args + num_kwargs = 3 then
      match tupleItem args 0 with
      | .error e => .error e
      | .ok a0 =>
        match tupleItem args 1 with
        | .error e => .error e
        | .ok a1 => CompileCache2.call [a0, a1, last_arg] has_out
    else if num_args + num_kwargs = 4 then
      match tupleItem args 0 with
      | .error e => .error e
      | .ok a0 =>
        match tupleItem args 1 with
        | .error e => .error e
        | .ok a1 =>
          match tupleItem args 2 with
          | .error e => .error e
          | .ok a2 => CompileCache2.call [a0, a1, a2, last_arg] has_out
    else .error "TODO: handle other arg counts"


/-! ## Classification tags -/

/-- The five stride categories of a populated dimension. -/
inductive StrideTag where
  | zero
  | one
  | contiguous
  | transposed_contiguous
  | as_arg
deriving DecidableEq, Repr

/-- The `DimFlags` bit of a stride category. -/
def StrideTag.bit : StrideTag → Nat
  | .zero => STRIDE_ZERO
  | .one => STRIDE_ONE
  | .contiguous => STRIDE_CONTIGUOUS
  | .transposed_contiguous => STRIDE_TRANSPOSED_CONTIGUOUS
  | .as_arg => STRIDE_AS_ARG

/-- The ordered first-match rule in the words of the specification, for dimension
`d` of a descriptor with `ndim` dimensions: zero, then one, then forward-contiguous
(`stride[d] == stride[d+1] * size[d+1]`), then transposed-contiguous
(`stride[d] == stride[d-1] * size[d-1]`), then runtime argument, the products being
products of integers. -/
def strideTagExact (sizes strides : List Int) (ndim d : Nat) : StrideTag :=
  if strides.getD d 0 = 0 then .zero
  else if strides.getD d 0 = 1 then .one
  else if d + 1 < ndim ∧ strides.getD d 0 = strides.getD (d + 1) 0 * sizes.getD (d + 1) 0 then
    .contiguous
  else if 0 < d ∧ strides.getD d 0 = strides.getD (d - 1) 0 * sizes.getD (d - 1) 0 then
    .transposed_contiguous
  else .as_arg

/-- The same ordered first-match rule with the two products taken in 64-bit
arithmetic: the stride tag of dimension `d`, which is the category `stride()`
reports for the key. -/
def strideTag (sizes strides : List Int) (ndim d : Nat) : StrideTag :=
  if strides.getD d 0 = 0 then .zero
  else if strides.getD d 0 = 1 then .one
  else if d + 1 < ndim ∧
      int64 (strides.getD d 0) = int64 (strides.getD (d + 1) 0 * sizes.getD (d + 1) 0) then
    .contiguous
  else if 0 < d ∧
      int64 (strides.getD d 0) = int64 (strides.getD (d - 1) 0 * sizes.getD (d - 1) 0) then
    .transposed_contiguous
  else .as_arg

/-- The entries of the descriptor that the rule consults at dimension `d`, and the
products it forms from them, are in the range of `int64_t`. -/
def ProductsFit (sizes strides : List Int) (ndim d : Nat) : Prop :=
  int64 (strides.getD d 0) = strides.getD d 0 ∧
  (d + 1 < ndim →
    int64 (strides.getD (d + 1) 0 * sizes.getD (d + 1) 0) =
      strides.getD (d + 1) 0 * sizes.getD (d + 1) 0) ∧
  (0 < d →
    int64 (strides.getD (d - 1) 0 * sizes.getD (d - 1) 0) =
      strides.getD (d - 1) 0 * sizes.getD (d - 1) 0)

instance (sizes strides : List Int) (ndim d : Nat) :
    Decidable (ProductsFit sizes strides ndim d) := by
  unfold ProductsFit; infer_instance

/-- The two size categories of a populated dimension. -/
inductive SizeTag where
  | one
  | other
deriving DecidableEq, Repr

/-- The `DimFlags` bit of a size category. -/
def SizeTag.bit : SizeTag → Nat
  | .one => SIZE_ONE
  | .other => SIZE_OTHER

/-- The size category the key builder gives dimension `d`: `one` for extent 1,
`other` for every other extent (line 72). -/
def sizeTag (sizes : List Int) (d : Nat) : SizeTag :=
  if sizes.getD d 0 = 1 then .one else .other

/-- The stride sub-field of a flag byte: the byte masked with the five stride bits. -/
def strideBits (flag : Nat) : Nat :=
  flag &&& (STRIDE_ZERO ||| STRIDE_ONE ||| STRIDE_CONTIGUOUS ||| STRIDE_TRANSPOSED_CONTIGUOUS |||
    STRIDE_AS_ARG)

/-- The size sub-field of a flag byte: the byte masked with the three size bits. -/
def sizeBits (flag : Nat) : Nat :=
  flag &&& (SIZE_MISSING ||| SIZE_ONE ||| SIZE_OTHER)

/-! ## Scenario data -/

/-- Enumeration counts used in the worked scenarios. -/
def scenarioCounts : EnumCounts := { scalarTypes := 18, layouts := 4, deviceTypes := 20 }

/-- Broadcast scenario, argument `a`: shape (4, 1), stride (1, 0). -/
def broadcastA : Tensor :=
  { sizes := [4, 1], strides := [1, 0], dtype := 6, device := 0, layout := 0,
    requires_grad := false, storage := 1, storage_offset := 0, data_ptr := 4096 }

/-- Broadcast scenario, argument `b`: shape (1, 8), stride (0, 1). -/
def broadcastB : Tensor :=
  { sizes := [1, 8], strides := [0, 1], dtype := 6, device := 0, layout := 0,
    requires_grad := false, storage := 2, storage_offset := 0, data_ptr := 8192 }

/-- Broadcast scenario, argument `out`: shape (4, 8), stride (8, 1). -/
def broadcastOut : Tensor :=
  { sizes := [4, 8], strides := [8, 1], dtype := 6, device := 0, layout := 0,
    requires_grad := false, storage := 3, storage_offset := 0, data_ptr := 12288 }

/-- Strict-alias scenario: a third array that shares no storage with the first two. -/
def distinctArray : Tensor :=
  { sizes := [4, 1], strides := [1, 0], dtype := 6, device := 0, layout := 0,
    requires_grad := false, storage := 7, storage_offset := 0, data_ptr := 20480 }

/-- Overlapping-alias scenario: a view of `broadcastOut` with different strides. -/
def stridedView : Tensor :=
  { sizes := [4, 4], strides := [8, 2], dtype := 6, device := 0, layout := 0,
    requires_grad := false, storage := 3, storage_offset := 0, data_ptr := 12288 }

/-- An array without elements, of shape (0, 2^32 + 1) and strides (2^32, 2^32): the
product `strides[1] * sizes[1]` is `2^64 + 2^32`, which does not fit in 64 bits. -/
def wrapView : Tensor :=
  { sizes := [0, 4294967297], strides := [4294967296, 4294967296], dtype := 6, device := 0,
    layout := 0, requires_grad := false, storage := 5, storage_offset := 0,
    data_ptr := 16384 }

/-- An array without elements, of shape (0, 5) and strides (2^32, 2^32). -/
def wrapView5 : Tensor :=
  { sizes := [0, 5], strides := [4294967296, 4294967296], dtype := 6, device := 0,
    layout := 0, requires_grad := false, storage := 6, storage_offset := 0,
    data_ptr := 24576 }

/-- Contiguous vector add scenario: a 1-D array of extent 1000 and stride 1 on the
given storage. -/
def vector1000 (storage : Nat) : Tensor :=
  { sizes := [1000], strides := [1], dtype := 6, device := 0, layout := 0,
    requires_grad := false, storage := storage, storage_offset := 0,
    data_ptr := 4096 * storage }

/-- A compiler callback that counts its invocations and hands out a fresh kernel
each time it is invoked. -/
def countingCompiler : CompileFn Nat :=
  fun n _ => (n + 1, .ok [.set_code (100 + n), .set_shape_from [(0, 0)]])

/-- A compiler callback that raises on its first invocation and compiles
afterwards. -/
def failingOnceCompiler : CompileFn Nat :=
  fun n _ => (n + 1, if n = 0 then .error "compilation failed"
    else .ok [.set_code (100 + n), .set_shape_from [(0, 0)]])

/-- The argument tuple of the contiguous vector add scenario. -/
def vectorAddArgs : List Tensor := [vector1000 1, vector1000 2, vector1000 3]

/-- The key tuple of the contiguous vector add scenario in the `MAX_DIMS = 2` bucket. -/
def vectorAddKey : List SpecializationKey :=
  compute_cache_key scenarioCounts 2 vectorAddArgs false

/-- Dimension-bucket scenario: an array with `n` dimensions of extent 2. -/
def arrayOfRank (n storage : Nat) : Tensor :=
  { sizes := List.replicate n 2, strides := List.replicate n 1, dtype := 6, device := 0,
    layout := 0, requires_grad := false, storage := storage, storage_offset := 0,
    data_ptr := 4096 * storage }

/-! ## Auxiliary notions for the alias analysis -/

/-- The inner loop body of `compute_alias_groups` for an arbitrary alias-kind
function `T` of the index `j` (the row `aliasing_check(args[i], args[j])`). -/
def innerStep (T : Nat → Int) (i : Nat) (s : List Int × Int) (j : Nat) : List Int × Int :=
  if T j ≠ 0 then
    ((s.1.set i (if s.1.getD i 0 = 0 then s.2 + 1 else s.2)).set j
      ((if s.1.getD i 0 = 0 then s.2 + 1 else s.2) * T j),
      (if s.1.getD i 0 = 0 then s.2 + 1 else s.2))
  else s

/-- The outer loop body of `compute_alias_groups` for an arbitrary alias-kind matrix
`T` and arity `n`. -/
def outerStep (T : Nat → Nat → Int) (n : Nat) (s : List Int × Int) (i : Nat) : List Int × Int :=
  if s.1.getD i 0 = 0 then
    (List.range' (i + 1) (n - (i + 1))).foldl (innerStep (T i) i) s
  else s

/-- Index `f` is the first member of its alias class: no earlier index aliases it. -/
def IsFirst (T : Nat → Nat → Int) (f : Nat) : Prop := ∀ k < f, T k f = 0

instance (T : Nat → Nat → Int) : DecidablePred (IsFirst T) :=
  fun f => by unfold IsFirst; infer_instance

/-- Index `f` has a later alias among the `n` arguments. -/
def HasLater (T : Nat → Nat → Int) (n f : Nat) : Prop := ∃ j < n, f < j ∧ T f j ≠ 0

instance (T : Nat → Nat → Int) (n : Nat) : DecidablePred (HasLater T n) :=
  fun f => by unfold HasLater; infer_instance

/-- Number of alias classes of two or more arguments whose first member is below `i`. -/
def classCount (T : Nat → Nat → Int) (n i : Nat) : Nat :=
  Nat.count (fun l => IsFirst T l ∧ HasLater T n l) i

/-- The alias-kind matrix of an argument tuple: entry `(i, j)` is
`aliasing_check(args[i], args[j])`. -/
def aliasMatrix {α : Type} [Inhabited α] (is_alias_of is_set_to : α → α → Bool) (args : List α)
    (i j : Nat) : Int :=
  aliasing_check is_alias_of is_set_to (args.getD i default) (args.getD j default)

/-- Invariant of the outer loop of `compute_alias_groups` before iteration `i`. -/
def AliasInv (T : Nat → Nat → Int) (n i : Nat) (s : List Int × Int) : Prop :=
  s.1.length = n ∧ s.2 = (classCount T n i : Int) ∧
  (∀ f < n, IsFirst T f →
    s.1.getD f 0 = if f < i ∧ HasLater T n f then (classCount T n (f + 1) : Int) else 0) ∧
  (∀ f m, IsFirst T f → f < m → m < n → T f m ≠ 0 →
    s.1.getD m 0 = if f < i then (classCount T n (f + 1) : Int) * T f m else 0)

/-- The hypothesis that `is_alias_of` is an equivalence relation on the arguments of
a tuple. -/
def AliasEquiv {α : Type} (is_alias_of : α → α → Bool) (args : List α) : Prop :=
  (∀ a ∈ args, is_alias_of a a = true) ∧
  (∀ a ∈ args, ∀ b ∈ args, is_alias_of a b = true → is_alias_of b a = true) ∧
  (∀ a ∈ args, ∀ b ∈ args, ∀ c ∈ args,
    is_alias_of a b = true → is_alias_of b c = true → is_alias_of a c = true)

/-- Two arguments carry the same non-zero group id up to sign: they lie in the same
block of the partition induced by `compute_alias_groups`. -/
def sameGroup (groups : List Int) (i j : Nat) : Prop :=
  |groups.getD i 0| = |groups.getD j 0| ∧ groups.getD i 0 ≠ 0

instance (groups : List Int) (i j : Nat) : Decidable (sameGroup groups i j) := by
  unfold sameGroup; infer_instance

/-! ## Notions used in the statement of key injectivity -/

/-- The packed strides of `pack_flags` do not wrap: `S5`, the product of `S2 = 4`
with the three option counts, is representable in `uint16_t` (the intent of the
`static_assert` "overflow check" of line 54). -/
def EnumCounts.fits (E : EnumCounts) : Prop :=
  4 * E.scalarTypes * E.layouts * E.deviceTypes < 65536

instance (E : EnumCounts) : Decidable E.fits := by
  unfold EnumCounts.fits; infer_instance

/-- The enumeration values of a tensor are below the option counts of their
enumerations. -/
def Tensor.enumsValid (E : EnumCounts) (v : Tensor) : Prop :=
  v.dtype < E.scalarTypes ∧ v.layout < E.layouts ∧ v.device < E.deviceTypes

instance (E : EnumCounts) (v : Tensor) : Decidable (v.enumsValid E) := by
  unfold Tensor.enumsValid; infer_instance

/-- The tag sequence of one argument of a tuple: dtype, layout, device type,
requires_grad, is_out, alias group, and the size and stride category of every
populated dimension. -/
structure ArgTags where
  dtype : Nat
  layout : Nat
  device : Nat
  requires_grad : Bool
  is_out : Bool
  alias_group : Int
  size_tags : List SizeTag
  stride_tags : List StrideTag
deriving DecidableEq, Repr

/-- The `is_out` argument with which `compute_cache_key` constructs the key of
argument `i` of `nargs`: `has_out` for the last argument, `false` before it
(lines 299-304). -/
def argIsOut (nargs i : Nat) (has_out : Bool) : Bool :=
  decide (i + 1 = nargs) && has_out

/-- The tags of argument `i` of a tuple.  The size and stride tags are the categories
of the populated dimensions, those that `shape()` and `stride()` report for the key
of the argument. -/
def argTags (args : List Tensor) (has_out : Bool) (i : Nat) : ArgTags :=
  { dtype := (args.getD i default).dtype
    layout := (args.getD i default).layout
    device := (args.getD i default).device
    requires_grad := (args.getD i default).requires_grad
    is_out := argIsOut args.length i has_out
    alias_group := (compute_alias_groups Tensor.is_alias_of Tensor.is_set_to args).getD i 0
    size_tags := (List.range (args.getD i default).ndimension).map
      (sizeTag (args.getD i default).sizes)
    stride_tags := (List.range (args.getD i default).ndimension).map
      (strideTag (args.getD i default).sizes (args.getD i default).strides
        (args.getD i default).ndimension) }

/-! ## Cache invariant -/

/-- Well-formedness of a `CompileCache3<NARGS, MAX_DIMS>` on which no compilation has
failed: the callback log lists the keys of the map, every key has arity `NARGS`, and
no two keys of the map are equivalent. -/
def CacheInv {σ : Type} (NARGS MAX_DIMS : Nat) (s : CompileCache3 σ) : Prop :=
  s.compiled = s.cache_.map Prod.fst ∧
  (∀ e ∈ s.cache_, e.1.length = NARGS) ∧
  s.cache_.Pairwise (fun a b => keyEquiv MAX_DIMS a.1 b.1 = false)

/-! ## Description of a packed 1-D argument -/

/-- The description `to_python` gives for a 1-D argument of extent other than 1 and
stride 1 with alias group 0 and the given `out` flag. -/
def vectorDescription (v : Tensor) (out : Bool) : Description :=
  { alias_group := 0, ndim := v.ndimension, dtype := v.dtype, device := v.device,
    layout := v.layout, requires_grad := v.requires_grad, out := out,
    shape := ["other"], stride := ["one"] }

/-! ## Invocation of a compiled entry -/

/-- Modelled from the spec: `at::Tensor::size(dim)` belongs to the array runtime,
which is not part of these sources; it is the extent of dimension `dim`.  A negative
`dim` counts from the end, and a `dim` that names no dimension raises. -/
def Tensor.size (v : Tensor) (dim : Int) : Except String Int :=
  if 0 ≤ dim ∧ dim < v.ndimension then .ok (v.sizes.getD dim.toNat 0)
  else if -(v.ndimension : Int) ≤ dim ∧ dim < 0 then
    .ok (v.sizes.getD (dim + v.ndimension).toNat 0)
  else .error "IndexError: Dimension out of range"

/-- An element of the `std::vector<void*>` handed to the kernel: the data pointer of
an argument, or the address `shapes + i` of slot `i` of the local buffer
`int64_t shapes[MAX_DIMS]`. -/
inductive RawPtr where
  | data (p : Nat)
  | shapes (i : Nat)
deriving DecidableEq, Repr

/-- The opaque kernel entry point `cg_->call_raw(call_args)`: given the code
generator object, the pointer list and the contents of the `shapes` buffer the
pointers refer to, it returns or raises. -/
abbrev CallRaw := Nat → List RawPtr → List Int → Except String Unit

/-- Loop of `CompileResultImpl::call` (lines 225-228) over the remaining indices; the
state is `(shapes, call_args)`.  An index outside `args` and a write past
`shapes[MAX_DIMS]` are undefined behaviour in the source and are errors here. -/
def CompileResultImpl.call.loop (MAX_DIMS : Nat) (shape_from_ : List (Int × Int))
    (args : List Tensor) :
    List Nat → List Int × List RawPtr → Except String (List Int × List RawPtr)
  | [], s => .ok s
  | i :: rest, s =>
    if (shape_from_.getD i (0, 0)).1 < 0 ∨ (args.length : Int) ≤ (shape_from_.getD i (0, 0)).1 then
      .error "undefined behaviour: index outside args"
    else
      match (args.getD (shape_from_.getD i (0, 0)).1.toNat default).size
          (shape_from_.getD i (0, 0)).2 with
      | .error e => .error e
      | .ok n =>
        if MAX_DIMS ≤ i then .error "undefined behaviour: write past shapes[MAX_DIMS]"
        else
          CompileResultImpl.call.loop MAX_DIMS shape_from_ args rest
            (s.1.set i n, s.2 ++ [RawPtr.shapes i])

/-- `CompileResultImpl::call` (lines 223-231).  The buffer `shapes` starts zeroed (it
is uninitialised in the source).  Calling through an unset `cg_` and reading
`args[2]` of a tuple of fewer than three arguments are undefined behaviour in the
source and are errors here. -/
def CompileResultImpl.call (MAX_DIMS : Nat) (call_raw : CallRaw) (self : CompileResultImpl)
    (args : List Tensor) (call_args : List RawPtr) : Except String Tensor :=
  match CompileResultImpl.call.loop MAX_DIMS self.shape_from_ args
      (List.range self.shape_from_.length) (List.replicate MAX_DIMS 0, call_args) with
  | .error e => .error e
  | .ok s =>
    match self.cg_ with
    | none => .error "undefined behaviour: cg_ is not set"
    | some cg =>
      match call_raw cg s.2 s.1 with
      | .error e => .error e
      | .ok _ =>
        match args[2]? with
        | some v => .ok v
        | none => .error "undefined behaviour: args[2] outside args"

/-- `CompileCache3::call` (lines 310-317): the data pointers, the key, the lookup and
the invocation of the entry. -/
def CompileCache3.call {σ : Type} (E : EnumCounts) (MAX_DIMS : Nat) (compile_fn_ : CompileFn σ)
    (call_raw : CallRaw) (self : CompileCache3 σ) (args : List Tensor) (has_out : Bool) :
    Except String Tensor × CompileCache3 σ :=
  let call_args := args.map (fun arg => RawPtr.data arg.data_ptr)
  let key := compute_cache_key E MAX_DIMS args has_out
  match (cached_compile MAX_DIMS compile_fn_ self key args).1 with
  | .error e => (.error e, (cached_compile MAX_DIMS compile_fn_ self key args).2)
  | .ok cr =>
    (cr.call MAX_DIMS call_raw args call_args,
      (cached_compile MAX_DIMS compile_fn_ self key args).2)

/-- A kernel that returns normally on every call. -/
def returningKernel : CallRaw := fun _ _ _ => .ok ()

/-! ## Auxiliary notions for the invocation -/

/-- The extent that iteration `i` of the loop of `CompileResultImpl::call` writes to
`shapes[i]`: `args[shape_from_[i].first].size(shape_from_[i].second)` (0 when
`size` raises). -/
def shapeValue (shape_from_ : List (Int × Int)) (args : List Tensor) (i : Nat) : Int :=
  match (args.getD (shape_from_.getD i (0, 0)).1.toNat default).size
      (shape_from_.getD i (0, 0)).2 with
  | .ok n => n
  | .error _ => 0

/-- Every pair `(a, d)` of `shape_from` names an argument of the tuple and a
dimension of that argument (a negative `d` counting from the end). -/
def ShapeFromValid (shape_from_ : List (Int × Int)) (args : List Tensor) : Prop :=
  ∀ p ∈ shape_from_, 0 ≤ p.1 ∧ p.1 < args.length ∧
    -((args.getD p.1.toNat default).ndimension : Int) ≤ p.2 ∧
    p.2 < (args.getD p.1.toNat default).ndimension

instance (shape_from_ : List (Int × Int)) (args : List Tensor) :
    Decidable (ShapeFromValid shape_from_ args) := by
  unfold ShapeFromValid; infer_instance

/-- The pointer list the kernel receives: the data pointers of the arguments in
order, then the addresses of the first `K` slots of `shapes`. -/
def kernelArgs (args : List Tensor) (K : Nat) : List RawPtr :=
  args.map (fun arg => RawPtr.data arg.data_ptr) ++ (List.range K).map RawPtr.shapes

/-- The contents of `shapes` when the kernel is called. -/
def kernelShapes (MAX_DIMS : Nat) (shape_from_ : List (Int × Int)) (args : List Tensor) :
    List Int :=
  (List.range shape_from_.length).map (shapeValue shape_from_ args) ++
    List.replicate (MAX_DIMS - shape_from_.length) 0

/-- A configured entry of the scenarios: kernel 7, shape parameters the extent of
dimension 0 of argument 0 and of dimension 1 of argument 2. -/
def scenarioEntry : CompileResultImpl :=
  { cg_ := some 7, shape_from_ := [(0, 0), (2, 1)], shape_checks_ := [],
    options_from_ := 0, objects_ := [7] }

/-! ## Re-parsing a description -/

/-- The tag string of a size category in the description. -/
def SizeTag.name : SizeTag → String
  | .one => "one"
  | .other => "other"

/-- The tag string of a stride category in the description. -/
def StrideTag.name : StrideTag → String
  | .zero => "zero"
  | .one => "one"
  | .contiguous => "contiguous"
  | .transposed_contiguous => "transposed_contiguous"
  | .as_arg => "as_arg"

/-- Re-encoding of a shape tag as a size bit. -/
def encodeShapeTag (tag : String) : Option Nat :=
  if tag = "one" then some SIZE_ONE
  else if tag = "other" then some SIZE_OTHER
  else none

/-- Re-encoding of a stride tag as a stride bit. -/
def encodeStrideTag (tag : String) : Option Nat :=
  if tag = "zero" then some STRIDE_ZERO
  else if tag = "one" then some STRIDE_ONE
  else if tag = "contiguous" then some STRIDE_CONTIGUOUS
  else if tag = "transposed_contiguous" then some STRIDE_TRANSPOSED_CONTIGUOUS
  else if tag = "as_arg" then some STRIDE_AS_ARG
  else none

/-- Re-encoding of the populated dimensions of a description: one flag byte per pair
of a shape tag and a stride tag; the two lists must have the same length. -/
def reencode.dims : List String → List String → Option (List Nat)
  | [], [] => some []
  | s :: ss, t :: ts =>
    match encodeShapeTag s, encodeStrideTag t, reencode.dims ss ts with
    | some a, some b, some fs => some ((a ||| b) :: fs)
    | _, _, _ => none
  | _, _ => none

/-- Re-encoding of the shape and stride lists of a description as a `dimflags_`
array of `MAX_DIMS` slots. -/
def reencode (MAX_DIMS : Nat) (shape stride : List String) : Option (List Nat) :=
  (reencode.dims shape stride).map
    (fun fs => fs ++ List.replicate (MAX_DIMS - fs.length) (SIZE_MISSING ||| STRIDE_ZERO))


/-! ## Notions used for the size bits, the key order and the shape parameters -/

/-- A 1-D array without elements: extent 0, stride 1 (what `torch.empty(0)` gives). -/
def emptyVector : Tensor :=
  { sizes := [0], strides := [1], dtype := 6, device := 0, layout := 0,
    requires_grad := false, storage := 9, storage_offset := 0, data_ptr := 36864 }

/-- The bits of the list `bits` that are set in a flag byte. -/
def setBits (flag : Nat) (bits : List Nat) : List Nat :=
  bits.filter (fun b => flag &&& b ≠ 0)

/-- The two size bits a populated dimension can carry. -/
def sizeBitList : List Nat := [SIZE_ONE, SIZE_OTHER]

/-- The five stride bits. -/
def strideBitList : List Nat :=
  [STRIDE_ZERO, STRIDE_ONE, STRIDE_CONTIGUOUS, STRIDE_TRANSPOSED_CONTIGUOUS, STRIDE_AS_ARG]

/-- The value ranges of the fields of a key: `flags_` is a `uint16_t`,
`alias_group_` an `int8_t`, and `dimflags_` an array of `MAX_DIMS` bytes. -/
def SpecializationKey.wf (MAX_DIMS : Nat) (k : SpecializationKey) : Prop :=
  k.flags_ < 65536 ∧ (-128 ≤ k.alias_group_ ∧ k.alias_group_ < 128) ∧
    k.dimflags_.length = MAX_DIMS

instance (MAX_DIMS : Nat) (k : SpecializationKey) : Decidable (k.wf MAX_DIMS) := by
  unfold SpecializationKey.wf; infer_instance

/-- Every per-argument `cmp` of two key tuples is 0. -/
def allCmpZero (MAX_DIMS : Nat) (a b : List SpecializationKey) : Prop :=
  ∀ i, i < a.length → (a.getD i default).cmp MAX_DIMS (b.getD i default) = 0

instance (MAX_DIMS : Nat) (a b : List SpecializationKey) :
    Decidable (allCmpZero MAX_DIMS a b) := by
  unfold allCmpZero; infer_instance

/-- The lexicographic order over the per-argument `cmp` results: the first argument
whose `cmp` is not 0 has a negative `cmp`. -/
def lexLess (MAX_DIMS : Nat) (a b : List SpecializationKey) : Prop :=
  ∃ i, i < a.length ∧
    (∀ j, j < i → (a.getD j default).cmp MAX_DIMS (b.getD j default) = 0) ∧
    (a.getD i default).cmp MAX_DIMS (b.getD i default) < 0

/-- A list of three shape parameters, one more than the `MAX_DIMS = 2` bucket holds. -/
def threeShapeParams : List (Int × Int) := [(0, 0), (0, 1), (1, 0)]

/-- A densely packed row-major descriptor: the trailing stride is 1 and every other
stride is the product of the next stride and the next extent. -/
def RowMajor (v : Tensor) : Prop :=
  v.strides.getD (v.ndimension - 1) 0 = 1 ∧
  ∀ d, d < v.ndimension - 1 →
    v.strides.getD d 0 = v.strides.getD (d + 1) 0 * v.sizes.getD (d + 1) 0

instance (v : Tensor) : Decidable (RowMajor v) := by
  unfold RowMajor; infer_instance

/-- A densely packed row-major array of shape (2, 3, 4). -/
def packedCube : Tensor :=
  { sizes := [2, 3, 4], strides := [12, 4, 1], dtype := 6, device := 0, layout := 0,
    requires_grad := false, storage := 11, storage_offset := 0, data_ptr := 45056 }

/-- A compiler callback that configures every entry with kernel 7 and the three
shape parameters of `threeShapeParams`. -/
def threeParamCompiler : CompileFn Nat :=
  fun n _ => (n + 1, .ok [.set_code 7, .set_shape_from threeShapeParams])
/-! # Theorems -/

/-! ## The fill loops of `init_dimflags` -/

/-- A loop that writes `g x` at consecutive slots starting at `k` replaces exactly
that segment of the array. -/
theorem fill_foldl {α : Type} (g : α → Nat) (dims : List α) :
    ∀ (l : List Nat) (k : Nat), k + dims.length ≤ l.length →
      dims.foldl (fun (s : List Nat × Nat) x => (s.1.set s.2 (g x), s.2 + 1)) (l, k) =
        (l.take k ++ dims.map g ++ l.drop (k + dims.length), k + dims.length) := by
  induction dims with
  | nil => intro l k _; simp
  | cons x xs ih =>
    intro l k h
    simp only [List.length_cons] at h
    have hk : k < l.length := by omega
    rw [List.foldl_cons, ih (l.set k (g x)) (k + 1) (by simp; omega)]
    have h1 : List.take (k + 1) (l.set k (g x)) = l.take k ++ [g x] := by
      rw [List.set_eq_take_append_cons_drop, if_pos hk, List.take_append_eq_append_take]
      simp [List.length_take, Nat.min_eq_left (Nat.le_of_lt hk)]
    have h2 : List.drop (k + 1 + xs.length) (l.set k (g x)) = l.drop (k + (xs.length + 1)) := by
      rw [List.drop_set_of_lt _ _ (by omega)]
      congr 1; omega
    rw [h1, h2]
    simp [Nat.add_assoc, Nat.add_comm 1]

/-- Closed form of the loops of `init_dimflags` when the dimensions fit: the flag
bytes of the populated dimensions followed by the padding byte, and `out_idx` ends
at `MAX_DIMS`. -/
theorem init_dimflags_loops_eq (MAX_DIMS : Nat) (sizes strides : List Int) (ndims : Nat)
    (h : ndims ≤ MAX_DIMS) :
    init_dimflags.loops MAX_DIMS sizes strides ndims =
      ((List.range ndims).map (init_dimflags.flag sizes strides) ++
        List.replicate (MAX_DIMS - ndims) (SIZE_MISSING ||| STRIDE_ZERO), MAX_DIMS) := by
  have e1 : init_dimflags.step sizes strides =
      fun (s : List Nat × Nat) x => (s.1.set s.2 (init_dimflags.flag sizes strides x), s.2 + 1) := rfl
  have e2 : (fun (s : List Nat × Nat) (_ : Nat) => init_dimflags.pad s) =
      fun (s : List Nat × Nat) x =>
        (s.1.set s.2 ((fun _ => SIZE_MISSING ||| STRIDE_ZERO) x), s.2 + 1) := rfl
  unfold init_dimflags.loops
  rw [e1, fill_foldl _ _ _ _ (by simp; omega)]
  simp only [List.length_range, Nat.zero_add, List.take_zero, List.nil_append]
  rw [e2, fill_foldl _ _ _ _ (by simp)]
  simp only [List.length_range, List.map_const', List.length_map]
  have h3 : ndims + (MAX_DIMS - ndims) = MAX_DIMS := by omega
  rw [h3, List.take_append_eq_append_take]
  simp [List.take_of_length_le, List.drop_append_eq_append_drop, h]

/-- Closed form of `init_dimflags` when the dimensions fit. -/
theorem init_dimflags_eq (MAX_DIMS : Nat) (sizes strides : List Int) (ndims : Nat)
    (h : ndims ≤ MAX_DIMS) :
    init_dimflags MAX_DIMS sizes strides ndims =
      (List.range ndims).map (init_dimflags.flag sizes strides) ++
        List.replicate (MAX_DIMS - ndims) (SIZE_MISSING ||| STRIDE_ZERO) := by
  unfold init_dimflags
  rw [init_dimflags_loops_eq _ _ _ _ h]

/-- Length of the `dimflags_` array. -/
theorem init_dimflags_length (MAX_DIMS : Nat) (sizes strides : List Int) (ndims : Nat)
    (h : ndims ≤ MAX_DIMS) :
    (init_dimflags MAX_DIMS sizes strides ndims).length = MAX_DIMS := by
  rw [init_dimflags_eq _ _ _ _ h]
  simp only [List.length_append, List.length_map, List.length_range, List.length_replicate]
  omega

/-- A populated slot holds the flag byte of its dimension. -/
theorem init_dimflags_getD_lt (MAX_DIMS : Nat) (sizes strides : List Int) (ndims d : Nat)
    (h : ndims ≤ MAX_DIMS) (hd : d < ndims) :
    (init_dimflags MAX_DIMS sizes strides ndims).getD d 0 = init_dimflags.flag sizes strides d := by
  rw [init_dimflags_eq _ _ _ _ h, List.getD_append _ _ _ _ (by simpa using hd)]
  simp [List.getD_eq_getElem?_getD, List.getElem?_range hd, hd]

/-- A slot past the populated dimensions holds the padding byte. -/
theorem init_dimflags_getD_ge (MAX_DIMS : Nat) (sizes strides : List Int) (ndims d : Nat)
    (h : ndims ≤ MAX_DIMS) (hd : ndims ≤ d) (hd2 : d < MAX_DIMS) :
    (init_dimflags MAX_DIMS sizes strides ndims).getD d 0 = SIZE_MISSING ||| STRIDE_ZERO := by
  rw [init_dimflags_eq _ _ _ _ h, List.getD_append_right _ _ _ _ (by simpa using hd)]
  simp only [List.getD_eq_getElem?_getD, List.getElem?_replicate, List.length_map,
    List.length_range]
  rw [if_pos (by omega)]
  rfl

/-- The stride sub-field of the flag byte is the bit of the first-match rule. -/
theorem flag_strideBits (sizes strides : List Int) (d : Nat) :
    strideBits (init_dimflags.flag sizes strides d) = (strideTag sizes strides sizes.length d).bit := by
  unfold init_dimflags.flag strideTag
  by_cases hs : sizes.getD d 0 = 1 <;> simp only [hs, if_true, if_false] <;>
    split_ifs <;> rfl

/-- The size sub-field of the flag byte is the bit of the size category. -/
theorem flag_sizeBits (sizes strides : List Int) (d : Nat) :
    sizeBits (init_dimflags.flag sizes strides d) = (sizeTag sizes d).bit := by
  unfold init_dimflags.flag sizeTag
  by_cases hs : sizes.getD d 0 = 1 <;> simp only [hs, if_true, if_false] <;>
    split_ifs <;> rfl

/-! ## C1 -/

/-- When the entries and products consulted at dimension `d` are in the range of
`int64_t`, the rule with 64-bit products is the rule with products of integers. -/
theorem strideTag_eq_exact (sizes strides : List Int) (ndim d : Nat)
    (h : ProductsFit sizes strides ndim d) :
    strideTag sizes strides ndim d = strideTagExact sizes strides ndim d := by
  obtain ⟨h0, h1, h2⟩ := h
  unfold strideTag strideTagExact
  rw [h0]
  by_cases hn : d + 1 < ndim
  · rw [h1 hn]
    by_cases hp : 0 < d
    · rw [h2 hp]
    · simp only [hp, false_and, if_false]
  · simp only [hn, false_and, if_false]
    by_cases hp : 0 < d
    · rw [h2 hp]
    · simp only [hp, false_and, if_false]

/-- C1 as stated fails at an array without elements of shape (0, 2^32 + 1) and
strides (2^32, 2^32) in the `MAX_DIMS = 2` bucket.  Dimension 0 is populated; its
stride 2^32 is neither 0 nor 1 and differs from the product
`stride[1] * size[1] = 2^64 + 2^32`, and dimension 0 has no predecessor, so the rule
as stated chooses `STRIDE_AS_ARG`; the key carries `STRIDE_CONTIGUOUS` in slot 0,
because the 64-bit product is 2^32.  The `dimflags_` array is
`[SIZE_OTHER | STRIDE_CONTIGUOUS, SIZE_OTHER | STRIDE_AS_ARG]`, that is `[36, 132]`. -/
theorem C1_stride_first_match_counterexample :
    wrapView.ndimension ≤ 2 ∧ 0 < wrapView.ndimension ∧
    wrapView.strides.getD 0 0 ≠ wrapView.strides.getD 1 0 * wrapView.sizes.getD 1 0 ∧
    strideTagExact wrapView.sizes wrapView.strides wrapView.ndimension 0 = StrideTag.as_arg ∧
    (SpecializationKey.new scenarioCounts 2 wrapView 0 false).dimflags_ = [36, 132] ∧
    strideBits ((SpecializationKey.new scenarioCounts 2 wrapView 0 false).dimflags_.getD 0 0) =
      STRIDE_CONTIGUOUS ∧
    strideBits ((SpecializationKey.new scenarioCounts 2 wrapView 0 false).dimflags_.getD 0 0) ≠
      (strideTagExact wrapView.sizes wrapView.strides wrapView.ndimension 0).bit := by
  decide

/-- C1, amended: for every descriptor with `ndim <= MAX_DIMS` and every populated
dimension `d`, the key built by the constructor carries in slot `d` exactly the
stride bit chosen by the ordered first-match rule (zero, one, forward-contiguous with
`d + 1 < ndim`, transposed-contiguous with `0 < d`, runtime argument) in which the
products `stride[d+1] * size[d+1]` and `stride[d-1] * size[d-1]` are taken in 64-bit
arithmetic, the neighbours being read from the descriptor's own sizes and strides;
and whenever the stride and the products consulted at `d` are in the range of
`int64_t`, that is the bit chosen by the rule with products of integers. -/
theorem C1_stride_first_match_amended (E : EnumCounts) (MAX_DIMS : Nat) (v : Tensor)
    (alias_group : Int) (is_out : Bool) (d : Nat) (hfit : v.ndimension ≤ MAX_DIMS)
    (hd : d < v.ndimension) :
    strideBits ((SpecializationKey.new E MAX_DIMS v alias_group is_out).dimflags_.getD d 0) =
      (strideTag v.sizes v.strides v.ndimension d).bit ∧
    (ProductsFit v.sizes v.strides v.ndimension d →
      strideBits ((SpecializationKey.new E MAX_DIMS v alias_group is_out).dimflags_.getD d 0) =
        (strideTagExact v.sizes v.strides v.ndimension d).bit) := by
  have h : strideBits
      ((SpecializationKey.new E MAX_DIMS v alias_group is_out).dimflags_.getD d 0) =
      (strideTag v.sizes v.strides v.ndimension d).bit := by
    show strideBits ((init_dimflags MAX_DIMS v.sizes v.strides v.ndimension).getD d 0) = _
    rw [init_dimflags_getD_lt _ _ _ _ _ hfit hd]
    exact flag_strideBits v.sizes v.strides d
  refine ⟨h, fun hp => ?_⟩
  rw [h, strideTag_eq_exact _ _ _ _ hp]

/-- C1, amended, at the broadcast scenario: dimension 0 of `out` (shape (4, 8),
stride (8, 1)) is forward-contiguous under the rule with products of integers, and
the three keys decode to the expected stride and shape tags. -/
theorem C1_stride_first_match_amended_witness :
    ProductsFit broadcastOut.sizes broadcastOut.strides broadcastOut.ndimension 0 ∧
    strideTagExact broadcastOut.sizes broadcastOut.strides broadcastOut.ndimension 0 =
      StrideTag.contiguous ∧
    strideBits ((SpecializationKey.new scenarioCounts 2 broadcastOut 0 true).dimflags_.getD 0 0) =
      (strideTagExact broadcastOut.sizes broadcastOut.strides broadcastOut.ndimension 0).bit ∧
    (SpecializationKey.new scenarioCounts 2 broadcastA 0 false).stride 2 = .ok ["one", "zero"] ∧
    (SpecializationKey.new scenarioCounts 2 broadcastB 0 false).stride 2 = .ok ["zero", "one"] ∧
    (SpecializationKey.new scenarioCounts 2 broadcastOut 0 true).stride 2 =
      .ok ["contiguous", "one"] ∧
    (SpecializationKey.new scenarioCounts 2 broadcastA 0 false).shape 2 = ["other", "one"] ∧
    (SpecializationKey.new scenarioCounts 2 broadcastB 0 false).shape 2 = ["one", "other"] ∧
    (SpecializationKey.new scenarioCounts 2 broadcastOut 0 true).shape 2 = ["other", "other"] :=
  ⟨by decide, by decide,
    (C1_stride_first_match_amended scenarioCounts 2 broadcastOut 0 true 0 (by decide)
      (by decide)).2 (by decide),
    by decide, by decide, by decide, by decide, by decide, by decide⟩

/-! ## The loops of `compute_alias_groups` -/

/-- Reading a slot after a write. -/
theorem getD_set_int (l : List Int) (i m : Nat) (a : Int) :
    (l.set i a).getD m 0 = if i = m ∧ i < l.length then a else l.getD m 0 := by
  simp only [List.getD_eq_getElem?_getD, List.getElem?_set]
  by_cases h1 : i = m
  · subst h1
    by_cases h2 : i < l.length
    · simp [h2]
    · simp [h2, List.getElem?_eq_none (Nat.le_of_not_lt h2)]
  · simp [h1]

/-- The alias kind is non-zero exactly when the two arguments alias. -/
theorem aliasing_check_ne_zero {α : Type} (al st : α → α → Bool) (a b : α) :
    aliasing_check al st a b ≠ 0 ↔ al a b = true := by
  unfold aliasing_check
  by_cases h : al a b = true <;> by_cases h2 : st a b = true <;> simp [h, h2]

/-- The alias kind of an aliasing pair is `+1` for a strict alias and `-1` otherwise. -/
theorem aliasing_check_of_alias {α : Type} (al st : α → α → Bool) (a b : α) (h : al a b = true) :
    aliasing_check al st a b = if st a b = true then 1 else -1 := by
  simp [aliasing_check, h]

theorem inner_eq_innerStep {α : Type} [Inhabited α] (al st : α → α → Bool) (args : List α)
    (i : Nat) :
    compute_alias_groups.inner al st args i =
      innerStep (aliasMatrix al st args i) i := by
  funext s j
  rfl

open Classical in
/-- Closed form of the inner loop for a fixed `i`: with `K` the id that `i` receives
on the first hit, every hit `m` is set to `K * T m`, slot `i` is set to `K` when
there is a hit, and nothing else changes. -/
theorem innerStep_foldl (T : Nat → Int) (n i : Nat) (hi : i < n) (js : List Nat) :
    (∀ j ∈ js, j ≠ i ∧ j < n) →
    ∀ (g : List Int) (c : Int), g.length = n →
      (g.getD i 0 = 0 ∧ 0 ≤ c ∨ g.getD i 0 = c ∧ c ≠ 0) →
      (js.foldl (innerStep T i) (g, c)).1.length = n ∧
      (js.foldl (innerStep T i) (g, c)).2 =
        (if ∃ j ∈ js, T j ≠ 0 then (if g.getD i 0 = 0 then c + 1 else c) else c) ∧
      ∀ m, (js.foldl (innerStep T i) (g, c)).1.getD m 0 =
        if m ∈ js ∧ T m ≠ 0 then (if g.getD i 0 = 0 then c + 1 else c) * T m
        else if m = i ∧ ∃ j ∈ js, T j ≠ 0 then (if g.getD i 0 = 0 then c + 1 else c)
        else g.getD m 0 := by
  induction js with
  | nil =>
    intro _ g c hg _
    refine ⟨hg, ?_, ?_⟩
    · rw [if_neg]; · rfl
      rintro ⟨j, hj, _⟩; exact absurd hj (List.not_mem_nil j)
    · intro m
      rw [if_neg (fun h => absurd h.1 (List.not_mem_nil m)), if_neg]; · rfl
      rintro ⟨_, j, hj, _⟩; exact absurd hj (List.not_mem_nil j)
  | cons j rest ih =>
    intro hjs g c hg hpre
    have hj := hjs j (List.mem_cons_self _ _)
    have hrest : ∀ j ∈ rest, j ≠ i ∧ j < n :=
      fun x hx => hjs x (List.mem_cons_of_mem _ hx)
    rw [List.foldl_cons]
    by_cases ht : T j ≠ 0
    · -- a hit: both slots are written
      generalize hK : (if g.getD i 0 = 0 then c + 1 else c) = K
      have hK0 : K ≠ 0 := by
        rcases hpre with ⟨h0, hc⟩ | ⟨h1, hc⟩
        · rw [if_pos h0] at hK; omega
        · have : g.getD i 0 ≠ 0 := by rw [h1]; exact hc
          rw [if_neg this] at hK; omega
      have hstep : innerStep T i (g, c) j = ((g.set i K).set j (K * T j), K) := by
        simp only [innerStep, ht, ne_eq, not_false_eq_true, if_true, hK]
      rw [hstep]
      have hg1i : ((g.set i K).set j (K * T j)).getD i 0 = K := by
        rw [getD_set_int, if_neg (fun h => hj.1 h.1), getD_set_int, if_pos ⟨rfl, by omega⟩]
      have hlen : ((g.set i K).set j (K * T j)).length = n := by
        rw [List.length_set, List.length_set, hg]
      obtain ⟨ihl, ihc, ihg⟩ := ih hrest _ K hlen (Or.inr ⟨hg1i, hK0⟩)
      rw [hg1i, if_neg hK0] at ihc
      have hex : ∃ x ∈ j :: rest, T x ≠ 0 := ⟨j, List.mem_cons_self _ _, ht⟩
      refine ⟨ihl, ?_, ?_⟩
      · rw [ihc, if_pos hex]
        split_ifs <;> rfl
      · intro m
        rw [ihg m, hg1i, if_neg hK0]
        by_cases hm1 : m ∈ rest ∧ T m ≠ 0
        · rw [if_pos hm1, if_pos ⟨List.mem_cons_of_mem _ hm1.1, hm1.2⟩]
        · rw [if_neg hm1]
          by_cases hmj : m = j
          · rw [hmj]
            have hA : j ∈ j :: rest ∧ T j ≠ 0 := ⟨List.mem_cons_self _ _, ht⟩
            have hB : ¬ (j = i ∧ ∃ x ∈ rest, T x ≠ 0) := fun h => hj.1 h.1
            rw [if_neg hB, if_pos hA, getD_set_int, if_pos ⟨rfl, by rw [List.length_set]; omega⟩]
          · have hnot : ¬ (m ∈ j :: rest ∧ T m ≠ 0) := by
              intro h
              rcases List.mem_cons.1 h.1 with h1 | h1
              · exact hmj h1
              · exact hm1 ⟨h1, h.2⟩
            rw [if_neg hnot]
            by_cases hmi : m = i
            · rw [hmi]
              have hA : i = i ∧ ∃ x ∈ j :: rest, T x ≠ 0 := ⟨rfl, hex⟩
              rw [if_pos hA]
              split_ifs
              · rfl
              · exact hg1i
            · rw [if_neg (fun h => hmi h.1), if_neg (fun h => hmi h.1), getD_set_int,
                if_neg (fun h => hmj h.1.symm), getD_set_int, if_neg (fun h => hmi h.1.symm)]
    · -- no hit: the state is unchanged
      have hstep : innerStep T i (g, c) j = (g, c) := by
        simp only [innerStep, ht, if_false]
      rw [hstep]
      obtain ⟨ihl, ihc, ihg⟩ := ih hrest g c hg hpre
      have e1 : (∃ x ∈ j :: rest, T x ≠ 0) ↔ ∃ x ∈ rest, T x ≠ 0 := by
        constructor
        · rintro ⟨x, hx, hx2⟩
          rcases List.mem_cons.1 hx with h3 | h3
          · subst h3; exact absurd hx2 ht
          · exact ⟨x, h3, hx2⟩
        · rintro ⟨x, hx, hx2⟩; exact ⟨x, List.mem_cons_of_mem _ hx, hx2⟩
      have e2 : ∀ m, (m ∈ j :: rest ∧ T m ≠ 0) ↔ (m ∈ rest ∧ T m ≠ 0) := by
        intro m
        constructor
        · rintro ⟨h1, h2⟩
          rcases List.mem_cons.1 h1 with h3 | h3
          · subst h3; exact absurd h2 ht
          · exact ⟨h3, h2⟩
        · rintro ⟨h1, h2⟩; exact ⟨List.mem_cons_of_mem _ h1, h2⟩
      refine ⟨ihl, ?_, ?_⟩
      · rw [ihc]; simp only [e1]
      · intro m
        rw [ihg m]; simp only [e1, e2]

theorem outer_eq_outerStep {α : Type} [Inhabited α] (al st : α → α → Bool) (args : List α) :
    compute_alias_groups.outer al st args = outerStep (aliasMatrix al st args) args.length := by
  funext s i
  unfold compute_alias_groups.outer outerStep
  rw [inner_eq_innerStep]

/-- The zeroing loop of `compute_alias_groups` leaves an all-zero array. -/
theorem zero_foldl :
    ∀ (k : Nat) (l : List Int), (∀ m, l.getD m 0 = 0) →
      ∀ m, ((List.range k).foldl (fun g i => g.set i 0) l).getD m 0 = 0 ∧
        ((List.range k).foldl (fun g i => g.set i 0) l).length = l.length := by
  intro k
  induction k with
  | zero => intro l hl m; exact ⟨hl m, rfl⟩
  | succ k ih =>
    intro l hl m
    rw [List.range_succ, List.foldl_append]
    simp only [List.foldl_cons, List.foldl_nil]
    refine ⟨?_, ?_⟩
    · rw [getD_set_int]
      split_ifs
      · rfl
      · exact (ih l hl m).1
    · rw [List.length_set]; exact (ih l hl m).2

theorem classCount_succ (T : Nat → Nat → Int) (n i : Nat) :
    classCount T n (i + 1) =
      classCount T n i + if IsFirst T i ∧ HasLater T n i then 1 else 0 := by
  unfold classCount
  rw [Nat.count_succ]

/-- A first member with a later alias has a positive class number. -/
theorem classCount_pos (T : Nat → Nat → Int) (n f : Nat) (h1 : IsFirst T f)
    (h2 : HasLater T n f) : 1 ≤ classCount T n (f + 1) := by
  rw [classCount_succ, if_pos ⟨h1, h2⟩]; omega

/-- Every index that is not a first member aliases an earlier first member. -/
theorem exists_first (T : Nat → Nat → Int) (n : Nat)
    (htrans : ∀ i j k, i < n → j < n → k < n → T i j ≠ 0 → T j k ≠ 0 → T i k ≠ 0)
    (m : Nat) (hm : m < n) (h : ¬ IsFirst T m) :
    ∃ f, f < m ∧ IsFirst T f ∧ T f m ≠ 0 := by
  have hex : ∃ k, k < m ∧ T k m ≠ 0 := by
    unfold IsFirst at h
    push_neg at h
    exact h
  classical
  refine ⟨Nat.find hex, (Nat.find_spec hex).1, ?_, (Nat.find_spec hex).2⟩
  intro l hl
  by_contra hne
  have hlm : l < m := Nat.lt_trans hl (Nat.find_spec hex).1
  exact Nat.find_min hex hl
    ⟨hlm, htrans l _ m (by omega) (by have := (Nat.find_spec hex).1; omega) hm hne
      (Nat.find_spec hex).2⟩

/-- Two distinct first members have no common alias. -/
theorem first_unique (T : Nat → Nat → Int) (n : Nat)
    (hsymm : ∀ i j, i < n → j < n → T i j ≠ 0 → T j i ≠ 0)
    (htrans : ∀ i j k, i < n → j < n → k < n → T i j ≠ 0 → T j k ≠ 0 → T i k ≠ 0)
    (f i m : Nat) (hf : f < n) (hi : i < n) (hm : m < n) (h1 : IsFirst T f) (h2 : IsFirst T i)
    (hfm : T f m ≠ 0) (him : T i m ≠ 0) : f = i := by
  have hfi : T f i ≠ 0 := htrans f m i hf hm hi hfm (hsymm i m hi hm him)
  have hif : T i f ≠ 0 := hsymm f i hf hi hfi
  rcases Nat.lt_trichotomy f i with h | h | h
  · exact absurd (h2 f h) hfi
  · exact h
  · exact absurd (h1 i h) hif

/-- One iteration of the outer loop preserves the invariant. -/
theorem outerStep_inv (T : Nat → Nat → Int) (n : Nat)
    (hsymm : ∀ i j, i < n → j < n → T i j ≠ 0 → T j i ≠ 0)
    (htrans : ∀ i j k, i < n → j < n → k < n → T i j ≠ 0 → T j k ≠ 0 → T i k ≠ 0)
    (i : Nat) (hi : i < n) (s : List Int × Int) (hinv : AliasInv T n i s) :
    AliasInv T n (i + 1) (outerStep T n s i) := by
  obtain ⟨hL, hC, hA, hB⟩ := hinv
  by_cases h0 : s.1.getD i 0 = 0
  · -- slot `i` is still unmarked: `i` is a first member and the inner loop runs
    have hfirst : IsFirst T i := by
      by_contra hnf
      obtain ⟨f, hfi, hf1, hft⟩ := exists_first T n htrans i hi hnf
      have := hB f i hf1 hfi hi hft
      rw [if_pos hfi, h0] at this
      have hpos := classCount_pos T n f hf1 ⟨i, hi, hfi, hft⟩
      have hz : (classCount T n (f + 1) : Int) ≠ 0 := by omega
      exact (mul_ne_zero hz hft) this.symm
    have hjs : ∀ j ∈ List.range' (i + 1) (n - (i + 1)), j ≠ i ∧ j < n := by
      intro j hj
      rw [List.mem_range'_1] at hj
      omega
    have hmem : ∀ j, j ∈ List.range' (i + 1) (n - (i + 1)) ↔ i < j ∧ j < n := by
      intro j
      rw [List.mem_range'_1]
      omega
    have hfound : (∃ j ∈ List.range' (i + 1) (n - (i + 1)), T i j ≠ 0) ↔ HasLater T n i := by
      unfold HasLater
      constructor
      · rintro ⟨j, hj, hT⟩
        exact ⟨j, ((hmem j).1 hj).2, ((hmem j).1 hj).1, hT⟩
      · rintro ⟨j, hj1, hj2, hT⟩
        exact ⟨j, (hmem j).2 ⟨hj2, hj1⟩, hT⟩
    have hc0 : (0 : Int) ≤ s.2 := by rw [hC]; exact Int.ofNat_nonneg _
    obtain ⟨rL, rC, rG⟩ := innerStep_foldl (T i) n i hi _ hjs s.1 s.2 hL (Or.inl ⟨h0, hc0⟩)
    have hstep : outerStep T n s i =
        (List.range' (i + 1) (n - (i + 1))).foldl (innerStep (T i) i) (s.1, s.2) := by
      unfold outerStep
      rw [if_pos h0]
    rw [hstep]
    rw [if_pos h0] at rC rG
    refine ⟨rL, ?_, ?_, ?_⟩
    · rw [rC, classCount_succ, hC]
      by_cases hl : HasLater T n i
      · rw [if_pos (hfound.2 hl), if_pos ⟨hfirst, hl⟩]; push_cast; rfl
      · rw [if_neg (fun h => hl (hfound.1 h)), if_neg (fun h => hl h.2)]; push_cast; omega
    · intro f hf hf1
      rw [rG f]
      have hnw : ¬ (f ∈ List.range' (i + 1) (n - (i + 1)) ∧ T i f ≠ 0) := by
        rintro ⟨h1, h2⟩
        exact h2 (hf1 i ((hmem f).1 h1).1)
      rw [if_neg hnw]
      by_cases hfi : f = i
      · subst hfi
        by_cases hl : HasLater T n f
        · rw [if_pos ⟨rfl, hfound.2 hl⟩, if_pos ⟨Nat.lt_succ_self f, hl⟩, classCount_succ,
            if_pos ⟨hfirst, hl⟩, hC]
          push_cast; rfl
        · rw [if_neg (fun h => hl (hfound.1 h.2)), if_neg (fun h => hl h.2), h0]
      · rw [if_neg (fun h => hfi h.1), hA f hf hf1]
        have : (f < i + 1 ∧ HasLater T n f) ↔ (f < i ∧ HasLater T n f) := by
          constructor
          · rintro ⟨h1, h2⟩; exact ⟨by omega, h2⟩
          · rintro ⟨h1, h2⟩; exact ⟨by omega, h2⟩
        simp only [this]
    · intro f m hf1 hfm hm hT
      rw [rG m]
      by_cases hfi : f = i
      · subst hfi
        have hl : HasLater T n f := ⟨m, hm, hfm, hT⟩
        rw [if_pos ⟨(hmem m).2 ⟨hfm, hm⟩, hT⟩, if_pos (Nat.lt_succ_self f), classCount_succ,
          if_pos ⟨hfirst, hl⟩, hC]
        push_cast; rfl
      · have hnw : ¬ (m ∈ List.range' (i + 1) (n - (i + 1)) ∧ T i m ≠ 0) := by
          rintro ⟨_, h2⟩
          exact hfi (first_unique T n hsymm htrans f i m (by omega) hi hm hf1 hfirst hT h2)
        have hmi : ¬ (m = i ∧ ∃ j ∈ List.range' (i + 1) (n - (i + 1)), T i j ≠ 0) := by
          rintro ⟨h1, _⟩
          subst h1
          exact hT (hfirst f hfm)
        rw [if_neg hnw, if_neg hmi, hB f m hf1 hfm hm hT]
        have : f < i + 1 ↔ f < i := by omega
        simp only [this]
  · -- slot `i` is already marked: `i` is not a first member and nothing changes
    have hnf : ¬ IsFirst T i := by
      intro hf1
      have := hA i hi hf1
      rw [if_neg (fun h => Nat.lt_irrefl i h.1)] at this
      exact h0 this
    have hstep : outerStep T n s i = s := by
      unfold outerStep
      rw [if_neg h0]
    rw [hstep]
    refine ⟨hL, ?_, ?_, ?_⟩
    · rw [hC, classCount_succ, if_neg (fun h => hnf h.1)]; rfl
    · intro f hf hf1
      have hfi : f ≠ i := fun h => hnf (h ▸ hf1)
      rw [hA f hf hf1]
      have : (f < i + 1 ∧ HasLater T n f) ↔ (f < i ∧ HasLater T n f) := by
        constructor
        · rintro ⟨h1, h2⟩; exact ⟨by omega, h2⟩
        · rintro ⟨h1, h2⟩; exact ⟨by omega, h2⟩
      simp only [this]
    · intro f m hf1 hfm hm hT
      have hfi : f ≠ i := fun h => hnf (h ▸ hf1)
      rw [hB f m hf1 hfm hm hT]
      have : f < i + 1 ↔ f < i := by omega
      simp only [this]

/-- The invariant holds before every iteration of the outer loop. -/
theorem outer_foldl_inv (T : Nat → Nat → Int) (n : Nat)
    (hsymm : ∀ i j, i < n → j < n → T i j ≠ 0 → T j i ≠ 0)
    (htrans : ∀ i j k, i < n → j < n → k < n → T i j ≠ 0 → T j k ≠ 0 → T i k ≠ 0)
    (g0 : List Int) (hg0 : g0.length = n) (hz : ∀ m, g0.getD m 0 = 0) :
    ∀ i, i ≤ n → AliasInv T n i ((List.range i).foldl (outerStep T n) (g0, 0)) := by
  intro i
  induction i with
  | zero =>
    intro _
    refine ⟨hg0, ?_, ?_, ?_⟩
    · simp [classCount]
    · intro f _ _
      rw [if_neg (fun h => Nat.not_lt_zero f h.1)]
      exact hz f
    · intro f m _ _ _ _
      rw [if_neg (Nat.not_lt_zero f)]
      exact hz m
  | succ i ih =>
    intro hi
    rw [List.range_succ, List.foldl_append]
    simp only [List.foldl_cons, List.foldl_nil]
    exact outerStep_inv T n hsymm htrans i (by omega) _ (ih (by omega))

theorem getD_mem {α : Type} [Inhabited α] (args : List α) (i : Nat) (hi : i < args.length) :
    args.getD i default ∈ args := by
  rw [List.getD_eq_getElem _ _ hi]
  exact List.getElem_mem _

theorem aliasMatrix_ne_zero {α : Type} [Inhabited α] (al st : α → α → Bool) (args : List α)
    (i j : Nat) :
    aliasMatrix al st args i j ≠ 0 ↔ al (args.getD i default) (args.getD j default) = true :=
  aliasing_check_ne_zero al st _ _

theorem aliasMatrix_symm {α : Type} [Inhabited α] (al st : α → α → Bool) (args : List α)
    (heq : AliasEquiv al args) (i j : Nat) (hi : i < args.length) (hj : j < args.length)
    (h : aliasMatrix al st args i j ≠ 0) : aliasMatrix al st args j i ≠ 0 := by
  rw [aliasMatrix_ne_zero] at h ⊢
  exact heq.2.1 _ (getD_mem args i hi) _ (getD_mem args j hj) h

theorem aliasMatrix_trans {α : Type} [Inhabited α] (al st : α → α → Bool) (args : List α)
    (heq : AliasEquiv al args) (i j k : Nat) (hi : i < args.length) (hj : j < args.length)
    (hk : k < args.length) (h1 : aliasMatrix al st args i j ≠ 0)
    (h2 : aliasMatrix al st args j k ≠ 0) : aliasMatrix al st args i k ≠ 0 := by
  rw [aliasMatrix_ne_zero] at h1 h2 ⊢
  exact heq.2.2 _ (getD_mem args i hi) _ (getD_mem args j hj) _ (getD_mem args k hk) h1 h2

/-- The invariant at loop exit, for `compute_alias_groups` itself. -/
theorem compute_alias_groups_inv {α : Type} [Inhabited α] (al st : α → α → Bool)
    (args : List α) (heq : AliasEquiv al args) :
    AliasInv (aliasMatrix al st args) args.length args.length
      (compute_alias_groups al st args,
        (classCount (aliasMatrix al st args) args.length args.length : Int)) := by
  have hz : ∀ m, (List.replicate args.length (0 : Int)).getD m 0 = 0 := by
    intro m
    rw [List.getD_eq_getElem?_getD, List.getElem?_replicate]
    split_ifs <;> rfl
  have h0 := zero_foldl args.length (List.replicate args.length (0 : Int)) hz
  have hinv := outer_foldl_inv (aliasMatrix al st args) args.length
    (aliasMatrix_symm al st args heq) (aliasMatrix_trans al st args heq)
    ((List.range args.length).foldl (fun g i => g.set i 0) (List.replicate args.length 0))
    (by rw [(h0 0).2, List.length_replicate]) (fun m => (h0 m).1) args.length (Nat.le_refl _)
  rw [← outer_eq_outerStep al st args] at hinv
  have hc := hinv.2.1
  have : compute_alias_groups al st args =
      ((List.range args.length).foldl (compute_alias_groups.outer al st args)
        ((List.range args.length).foldl (fun g i => g.set i 0)
          (List.replicate args.length 0), 0)).1 := rfl
  rw [this, ← hc]
  exact hinv

/-- Length of the group array. -/
theorem compute_alias_groups_length {α : Type} [Inhabited α] (al st : α → α → Bool)
    (args : List α) (heq : AliasEquiv al args) :
    (compute_alias_groups al st args).length = args.length :=
  (compute_alias_groups_inv al st args heq).1

/-- Group id of a first member. -/
theorem compute_alias_groups_first {α : Type} [Inhabited α] (al st : α → α → Bool)
    (args : List α) (heq : AliasEquiv al args) (f : Nat) (hf : f < args.length)
    (h1 : IsFirst (aliasMatrix al st args) f) :
    (compute_alias_groups al st args).getD f 0 =
      if HasLater (aliasMatrix al st args) args.length f then
        (classCount (aliasMatrix al st args) args.length (f + 1) : Int) else 0 := by
  have := (compute_alias_groups_inv al st args heq).2.2.1 f hf h1
  simp only [hf, true_and] at this
  exact this

/-- Group id of a later member. -/
theorem compute_alias_groups_later {α : Type} [Inhabited α] (al st : α → α → Bool)
    (args : List α) (heq : AliasEquiv al args) (f m : Nat)
    (h1 : IsFirst (aliasMatrix al st args) f) (hfm : f < m) (hm : m < args.length)
    (hT : aliasMatrix al st args f m ≠ 0) :
    (compute_alias_groups al st args).getD m 0 =
      (classCount (aliasMatrix al st args) args.length (f + 1) : Int) *
        aliasMatrix al st args f m := by
  have := (compute_alias_groups_inv al st args heq).2.2.2 f m h1 hfm hm hT
  rw [if_pos (by omega)] at this
  exact this

/-! ## C3 -/

/-- C3: on a tuple on which `is_alias_of` is an equivalence relation, take an alias
class of two or more arguments with first member `f` (no earlier argument aliases
`f`, some later argument does).  Then `compute_alias_groups` gives `f` a positive
id, and every later member `j` of the class gets that id if it is a strict alias
(`is_set_to`) of `f` and its negation otherwise.  Stated for every arity; the
source instantiates arities 1..4. -/
theorem C3_alias_group_labels {α : Type} [Inhabited α] (is_alias_of is_set_to : α → α → Bool)
    (args : List α) (heq : AliasEquiv is_alias_of args) (f : Nat) (hf : f < args.length)
    (hfirst : ∀ k < f, is_alias_of (args.getD k default) (args.getD f default) = false)
    (hclass : ∃ j, f < j ∧ j < args.length ∧
      is_alias_of (args.getD f default) (args.getD j default) = true) :
    0 < (compute_alias_groups is_alias_of is_set_to args).getD f 0 ∧
    ∀ j, f < j → j < args.length →
      is_alias_of (args.getD f default) (args.getD j default) = true →
      (compute_alias_groups is_alias_of is_set_to args).getD j 0 =
        if is_set_to (args.getD f default) (args.getD j default) = true then
          (compute_alias_groups is_alias_of is_set_to args).getD f 0
        else - (compute_alias_groups is_alias_of is_set_to args).getD f 0 := by
  have h1 : IsFirst (aliasMatrix is_alias_of is_set_to args) f := by
    intro k hk
    by_contra hne
    have := (aliasMatrix_ne_zero is_alias_of is_set_to args k f).1 hne
    rw [hfirst k hk] at this
    exact Bool.false_ne_true this
  have h2 : HasLater (aliasMatrix is_alias_of is_set_to args) args.length f := by
    obtain ⟨j, hj1, hj2, hj3⟩ := hclass
    exact ⟨j, hj2, hj1, (aliasMatrix_ne_zero is_alias_of is_set_to args f j).2 hj3⟩
  have hF := compute_alias_groups_first is_alias_of is_set_to args heq f hf h1
  rw [if_pos h2] at hF
  have hpos := classCount_pos _ _ f h1 h2
  refine ⟨by rw [hF]; omega, ?_⟩
  intro j hfj hj hal
  rw [compute_alias_groups_later is_alias_of is_set_to args heq f j h1 hfj hj
    ((aliasMatrix_ne_zero is_alias_of is_set_to args f j).2 hal), hF]
  unfold aliasMatrix
  rw [aliasing_check_of_alias _ _ _ _ hal]
  split_ifs <;> simp

/-- Sharing storage is an equivalence relation on every tuple of tensors. -/
theorem tensor_alias_equiv (args : List Tensor) : AliasEquiv Tensor.is_alias_of args := by
  refine ⟨?_, ?_, ?_⟩
  · intro a _; simp [Tensor.is_alias_of]
  · intro a _ b _ h
    simp only [Tensor.is_alias_of, beq_iff_eq] at h ⊢
    exact h.symm
  · intro a _ b _ c _ h1 h2
    simp only [Tensor.is_alias_of, beq_iff_eq] at h1 h2 ⊢
    exact h1.trans h2

/-- C3 at the strict-alias scenario (the same array as arguments 0 and 1, a distinct
third array): the first member gets a positive id, the groups are `[1, 1, 0]`; and
for a view with different strides the groups are `[1, -1]`. -/
theorem C3_alias_group_labels_witness :
    0 < (compute_alias_groups Tensor.is_alias_of Tensor.is_set_to
      [broadcastA, broadcastA, distinctArray]).getD 0 0 ∧
    compute_alias_groups Tensor.is_alias_of Tensor.is_set_to
      [broadcastA, broadcastA, distinctArray] = [1, 1, 0] ∧
    compute_alias_groups Tensor.is_alias_of Tensor.is_set_to
      [stridedView, broadcastOut] = [1, -1] :=
  ⟨(C3_alias_group_labels Tensor.is_alias_of Tensor.is_set_to
      [broadcastA, broadcastA, distinctArray] (tensor_alias_equiv _) 0 (by decide)
      (fun k hk => absurd hk (Nat.not_lt_zero k)) ⟨1, by decide, by decide, by decide⟩).1,
    by decide, by decide⟩

/-! ## C4 -/

theorem aliasMatrix_abs {α : Type} [Inhabited α] (al st : α → α → Bool) (args : List α)
    (i j : Nat) (h : aliasMatrix al st args i j ≠ 0) : |aliasMatrix al st args i j| = 1 := by
  have hal := (aliasMatrix_ne_zero al st args i j).1 h
  unfold aliasMatrix
  rw [aliasing_check_of_alias _ _ _ _ hal]
  split_ifs <;> simp

theorem aliasMatrix_refl {α : Type} [Inhabited α] (al st : α → α → Bool) (args : List α)
    (heq : AliasEquiv al args) (i : Nat) (hi : i < args.length) :
    aliasMatrix al st args i i ≠ 0 :=
  (aliasMatrix_ne_zero al st args i i).2 (heq.1 _ (getD_mem args i hi))

/-- Every argument has a first member of its class, which determines its group id. -/
theorem leader_value {α : Type} [Inhabited α] (al st : α → α → Bool) (args : List α)
    (heq : AliasEquiv al args) (m : Nat) (hm : m < args.length) :
    ∃ f, f ≤ m ∧ IsFirst (aliasMatrix al st args) f ∧ aliasMatrix al st args f m ≠ 0 ∧
      (f < m → HasLater (aliasMatrix al st args) args.length f) ∧
      |(compute_alias_groups al st args).getD m 0| =
        if HasLater (aliasMatrix al st args) args.length f then
          (classCount (aliasMatrix al st args) args.length (f + 1) : Int) else 0 := by
  by_cases h1 : IsFirst (aliasMatrix al st args) m
  · refine ⟨m, Nat.le_refl m, h1, aliasMatrix_refl al st args heq m hm,
      fun h => absurd h (Nat.lt_irrefl m), ?_⟩
    rw [compute_alias_groups_first al st args heq m hm h1]
    split_ifs
    · exact abs_of_nonneg (Int.ofNat_nonneg _)
    · rfl
  · obtain ⟨f, hfm, hf1, hT⟩ := exists_first (aliasMatrix al st args) args.length
      (aliasMatrix_trans al st args heq) m hm h1
    have hl : HasLater (aliasMatrix al st args) args.length f := ⟨m, hm, hfm, hT⟩
    refine ⟨f, Nat.le_of_lt hfm, hf1, hT, fun _ => hl, ?_⟩
    rw [compute_alias_groups_later al st args heq f m hf1 hfm hm hT, if_pos hl, abs_mul,
      aliasMatrix_abs al st args f m hT, mul_one]
    exact abs_of_nonneg (Int.ofNat_nonneg _)

/-- Class numbers of distinct first members with later aliases differ. -/
theorem classCount_lt (T : Nat → Nat → Int) (n f f2 : Nat) (h : f < f2)
    (h1 : IsFirst T f2) (h2 : HasLater T n f2) :
    classCount T n (f + 1) < classCount T n (f2 + 1) := by
  rw [classCount_succ T n f2, if_pos ⟨h1, h2⟩]
  have : classCount T n (f + 1) ≤ classCount T n f2 :=
    Nat.count_monotone _ (by omega)
  omega

/-- Two distinct arguments alias exactly when they carry the same non-zero id up to
sign. -/
theorem alias_iff_sameGroup {α : Type} [Inhabited α] (al st : α → α → Bool) (args : List α)
    (heq : AliasEquiv al args) (i j : Nat) (hi : i < args.length) (hj : j < args.length)
    (hij : i ≠ j) :
    al (args.getD i default) (args.getD j default) = true ↔
      sameGroup (compute_alias_groups al st args) i j := by
  obtain ⟨fi, hfi, hfi1, hTi, hLi, hGi⟩ := leader_value al st args heq i hi
  obtain ⟨fj, hfj, hfj1, hTj, hLj, hGj⟩ := leader_value al st args heq j hj
  have hsymm := aliasMatrix_symm al st args heq
  have htrans := aliasMatrix_trans al st args heq
  have hfin : fi < args.length := by omega
  have hfjn : fj < args.length := by omega
  unfold sameGroup
  constructor
  · intro hal
    have hTij : aliasMatrix al st args i j ≠ 0 := (aliasMatrix_ne_zero al st args i j).2 hal
    have hfe : fi = fj :=
      first_unique _ _ hsymm htrans fi fj j hfin hfjn hj hfi1 hfj1
        (htrans fi i j hfin hi hj hTi hTij) hTj
    subst hfe
    have hl : HasLater (aliasMatrix al st args) args.length fi := by
      by_cases h : fi < i
      · exact hLi h
      · exact hLj (by omega)
    rw [if_pos hl] at hGi hGj
    have hpos := classCount_pos _ _ fi hfi1 hl
    refine ⟨by rw [hGi, hGj], ?_⟩
    intro h0
    rw [h0, abs_zero] at hGi
    omega
  · rintro ⟨habs, hne⟩
    have hli : HasLater (aliasMatrix al st args) args.length fi := by
      by_contra h
      rw [if_neg h] at hGi
      exact hne (abs_eq_zero.1 hGi)
    have hlj : HasLater (aliasMatrix al st args) args.length fj := by
      by_contra h
      rw [if_neg h, ← habs] at hGj
      exact hne (abs_eq_zero.1 hGj)
    rw [if_pos hli] at hGi
    rw [if_pos hlj] at hGj
    have hcc : classCount (aliasMatrix al st args) args.length (fi + 1) =
        classCount (aliasMatrix al st args) args.length (fj + 1) := by
      have : (classCount (aliasMatrix al st args) args.length (fi + 1) : Int) =
          (classCount (aliasMatrix al st args) args.length (fj + 1) : Int) := by
        rw [← hGi, ← hGj, habs]
      exact_mod_cast this
    have hfe : fi = fj := by
      rcases Nat.lt_trichotomy fi fj with h | h | h
      · have := classCount_lt _ args.length fi fj h hfj1 hlj; omega
      · exact h
      · have := classCount_lt _ args.length fj fi h hfi1 hli; omega
    subst hfe
    exact (aliasMatrix_ne_zero al st args i j).1
      (htrans i fi j hi hfin hj (hsymm fi i hfin hi hTi) hTj)

theorem AliasEquiv.of_subset {α : Type} (al : α → α → Bool) (args args2 : List α)
    (heq : AliasEquiv al args) (hsub : ∀ a ∈ args2, a ∈ args) : AliasEquiv al args2 :=
  ⟨fun a ha => heq.1 a (hsub a ha),
    fun a ha b hb => heq.2.1 a (hsub a ha) b (hsub b hb),
    fun a ha b hb c hc => heq.2.2 a (hsub a ha) b (hsub b hb) c (hsub c hc)⟩

theorem getD_ofFn_perm {α : Type} [Inhabited α] (args : List α)
    (σ : Equiv.Perm (Fin args.length)) (i : Fin args.length) :
    (List.ofFn fun k => args.get (σ k)).getD i.val default = args.getD (σ i).val default := by
  rw [List.getD_eq_getElem _ _ (by rw [List.length_ofFn]; exact i.isLt), List.getElem_ofFn,
    List.getD_eq_getElem _ _ (σ i).isLt]
  rfl

/-- An argument that aliases no other argument gets group 0. -/
theorem no_alias_zero {α : Type} [Inhabited α] (al st : α → α → Bool) (args : List α)
    (heq : AliasEquiv al args) (i : Nat) (hi : i < args.length)
    (hno : ∀ j, j < args.length → j ≠ i →
      al (args.getD i default) (args.getD j default) = false) :
    (compute_alias_groups al st args).getD i 0 = 0 := by
  have hfirst : IsFirst (aliasMatrix al st args) i := by
    intro k hk
    by_contra hne
    have h1 := aliasMatrix_symm al st args heq k i (by omega) hi hne
    have h2 := (aliasMatrix_ne_zero al st args i k).1 h1
    rw [hno k (by omega) (by omega)] at h2
    exact Bool.false_ne_true h2
  have hnl : ¬ HasLater (aliasMatrix al st args) args.length i := by
    rintro ⟨j, hj, hij, hT⟩
    have h2 := (aliasMatrix_ne_zero al st args i j).1 hT
    rw [hno j hj (by omega)] at h2
    exact Bool.false_ne_true h2
  rw [compute_alias_groups_first al st args heq i hi hfirst, if_neg hnl]

/-- C4: on a tuple on which `is_alias_of` is an equivalence relation, the partition
computed by `compute_alias_groups` is the partition into alias classes: two
distinct arguments alias each other iff their ids agree in absolute value and are
non-zero; an argument that aliases no other gets 0; the id of a class of two or
more arguments is the number of such classes whose first member is not after its
own, so the ids are 1, 2, ... in order of first appearance; and for every
permutation of the tuple the induced partition is the permuted partition. -/
theorem C4_alias_partition {α : Type} [Inhabited α] (is_alias_of is_set_to : α → α → Bool)
    (args : List α) (heq : AliasEquiv is_alias_of args) :
    (∀ i j, i < args.length → j < args.length → i ≠ j →
      (is_alias_of (args.getD i default) (args.getD j default) = true ↔
        sameGroup (compute_alias_groups is_alias_of is_set_to args) i j)) ∧
    (∀ i, i < args.length →
      (∀ j, j < args.length → j ≠ i →
        is_alias_of (args.getD i default) (args.getD j default) = false) →
      (compute_alias_groups is_alias_of is_set_to args).getD i 0 = 0) ∧
    (∀ f, f < args.length → IsFirst (aliasMatrix is_alias_of is_set_to args) f →
      HasLater (aliasMatrix is_alias_of is_set_to args) args.length f →
      (compute_alias_groups is_alias_of is_set_to args).getD f 0 =
        (classCount (aliasMatrix is_alias_of is_set_to args) args.length (f + 1) : Int)) ∧
    (∀ (σ : Equiv.Perm (Fin args.length)) (i j : Fin args.length), i ≠ j →
      (sameGroup (compute_alias_groups is_alias_of is_set_to
          (List.ofFn fun k => args.get (σ k))) i.val j.val ↔
        sameGroup (compute_alias_groups is_alias_of is_set_to args) (σ i).val (σ j).val)) := by
  refine ⟨fun i j hi hj hij => alias_iff_sameGroup is_alias_of is_set_to args heq i j hi hj hij,
    ?_, ?_, ?_⟩
  · intro i hi hno
    exact no_alias_zero is_alias_of is_set_to args heq i hi hno
  · intro f hf h1 h2
    rw [compute_alias_groups_first is_alias_of is_set_to args heq f hf h1, if_pos h2]
  · intro σ i j hij
    have hsub : ∀ a ∈ (List.ofFn fun k => args.get (σ k)), a ∈ args := by
      intro a ha
      rw [List.mem_ofFn] at ha
      obtain ⟨k, hk⟩ := ha
      rw [← hk]
      exact List.get_mem _ _ _
    have heq2 := AliasEquiv.of_subset is_alias_of args _ heq hsub
    have hlen : (List.ofFn fun k => args.get (σ k)).length = args.length := List.length_ofFn _
    have hne : i.val ≠ j.val := fun h => hij (Fin.ext h)
    have hne2 : (σ i).val ≠ (σ j).val := fun h => hij (σ.injective (Fin.ext h))
    rw [← alias_iff_sameGroup is_alias_of is_set_to _ heq2 i.val j.val
        (by rw [hlen]; exact i.isLt) (by rw [hlen]; exact j.isLt) hne,
      ← alias_iff_sameGroup is_alias_of is_set_to args heq (σ i).val (σ j).val
        (σ i).isLt (σ j).isLt hne2,
      getD_ofFn_perm args σ i, getD_ofFn_perm args σ j]

/-- C4 at the strict-alias scenario: arguments 0 and 1 (the same array) fall in one
block, the groups are `[1, 1, 0]`, and moving the distinct array to the front gives
`[0, 1, 1]`, the same partition. -/
theorem C4_alias_partition_witness :
    sameGroup (compute_alias_groups Tensor.is_alias_of Tensor.is_set_to
      [broadcastA, broadcastA, distinctArray]) 0 1 ∧
    compute_alias_groups Tensor.is_alias_of Tensor.is_set_to
      [broadcastA, broadcastA, distinctArray] = [1, 1, 0] ∧
    compute_alias_groups Tensor.is_alias_of Tensor.is_set_to
      [distinctArray, broadcastA, broadcastA] = [0, 1, 1] :=
  ⟨((C4_alias_partition Tensor.is_alias_of Tensor.is_set_to
      [broadcastA, broadcastA, distinctArray] (tensor_alias_equiv _)).1 0 1
      (by decide) (by decide) (by decide)).1 (by decide),
    by decide, by decide⟩

/-! ## Key comparison -/

/-- Reading a slot after a write, for any element type. -/
theorem getD_set_gen {β : Type} (l : List β) (i m : Nat) (a d : β) :
    (l.set i a).getD m d = if i = m ∧ i < l.length then a else l.getD m d := by
  simp only [List.getD_eq_getElem?_getD, List.getElem?_set]
  by_cases h1 : i = m
  · subst h1
    by_cases h2 : i < l.length
    · simp [h2]
    · simp [h2, List.getElem?_eq_none (Nat.le_of_not_lt h2)]
  · simp [h1]

/-- A loop writing `f i` at slot `i` for `i < k`. -/
theorem set_range_foldl {β : Type} (f : Nat → β) (d : β) (l : List β) :
    ∀ k, ((List.range k).foldl (fun key i => key.set i (f i)) l).length = l.length ∧
      ∀ m, ((List.range k).foldl (fun key i => key.set i (f i)) l).getD m d =
        if m < k ∧ m < l.length then f m else l.getD m d := by
  intro k
  induction k with
  | zero =>
    refine ⟨rfl, fun m => ?_⟩
    rw [if_neg (fun h => Nat.not_lt_zero m h.1)]
    rfl
  | succ k ih =>
    rw [List.range_succ, List.foldl_append]
    simp only [List.foldl_cons, List.foldl_nil]
    refine ⟨by rw [List.length_set]; exact ih.1, fun m => ?_⟩
    rw [getD_set_gen, ih.1, ih.2 m]
    by_cases hkm : k = m
    · subst hkm
      by_cases hl : k < l.length
      · rw [if_pos ⟨rfl, hl⟩, if_pos ⟨Nat.lt_succ_self k, hl⟩]
      · rw [if_neg (fun h => hl h.2), if_neg (fun h => Nat.lt_irrefl k h.1),
          if_neg (fun h => hl h.2)]
    · rw [if_neg (fun h => hkm h.1)]
      have : (m < k + 1 ∧ m < l.length) ↔ (m < k ∧ m < l.length) := by
        constructor
        · rintro ⟨h1, h2⟩; exact ⟨by omega, h2⟩
        · rintro ⟨h1, h2⟩; exact ⟨by omega, h2⟩
      simp only [this]

/-- Closed form of `compute_cache_key`: key `i` is built from argument `i`, its alias
group, and `is_out = has_out` for the last argument only. -/
theorem compute_cache_key_getD (E : EnumCounts) (MAX_DIMS : Nat) (args : List Tensor)
    (has_out : Bool) (i : Nat) (hi : i < args.length) :
    (compute_cache_key E MAX_DIMS args has_out).getD i default =
      SpecializationKey.new E MAX_DIMS (args.getD i default)
        ((compute_alias_groups Tensor.is_alias_of Tensor.is_set_to args).getD i 0)
        (argIsOut args.length i has_out) := by
  unfold compute_cache_key
  have hlast : args.length - 1 < args.length := by omega
  simp only [hlast, if_true]
  have hf := set_range_foldl
    (fun i => SpecializationKey.new E MAX_DIMS (args.getD i default)
      ((compute_alias_groups Tensor.is_alias_of Tensor.is_set_to args).getD i 0) false)
    default (List.replicate args.length default) (args.length - 1)
  rw [getD_set_gen, hf.1, List.length_replicate, hf.2 i, List.length_replicate]
  unfold argIsOut
  by_cases hil : args.length - 1 = i
  · rw [if_pos ⟨hil, hlast⟩]
    have h1 : i + 1 = args.length := by omega
    rw [hil, decide_eq_true h1, Bool.true_and]
  · rw [if_neg (fun h => hil h.1), if_pos ⟨by omega, hi⟩]
    have h1 : ¬ (i + 1 = args.length) := by omega
    rw [decide_eq_false h1, Bool.false_and]

/-- Arity of the key tuple. -/
theorem compute_cache_key_length (E : EnumCounts) (MAX_DIMS : Nat) (args : List Tensor)
    (has_out : Bool) : (compute_cache_key E MAX_DIMS args has_out).length = args.length := by
  unfold compute_cache_key
  have hf := set_range_foldl
    (fun i => SpecializationKey.new E MAX_DIMS (args.getD i default)
      ((compute_alias_groups Tensor.is_alias_of Tensor.is_set_to args).getD i 0) false)
    default (List.replicate args.length default) (args.length - 1)
  simp only
  split_ifs
  · rw [List.length_set, hf.1, List.length_replicate]
  · rw [hf.1, List.length_replicate]

/-- `memcmp` returns 0 exactly when the first `n` bytes agree. -/
theorem memcmp_eq_zero_iff (n : Nat) :
    ∀ p q : List Nat, memcmp p q n = 0 ↔ ∀ i < n, p.getD i 0 = q.getD i 0 := by
  induction n with
  | zero => intro p q; simp [memcmp]
  | succ n ih =>
    intro p q
    have hh : ∀ l : List Nat, l.headD 0 = l.getD 0 0 := by
      intro l; cases l <;> rfl
    have ht : ∀ (l : List Nat) (i : Nat), l.tail.getD i 0 = l.getD (i + 1) 0 := by
      intro l i; cases l <;> simp
    unfold memcmp
    by_cases h : p.headD 0 = q.headD 0
    · rw [if_pos h, ih]
      constructor
      · intro hall i hi
        cases i with
        | zero => rw [← hh, ← hh]; exact h
        | succ i => rw [← ht, ← ht]; exact hall i (by omega)
      · intro hall i hi
        rw [ht, ht]; exact hall (i + 1) (by omega)
    · rw [if_neg h]
      constructor
      · intro h0; exfalso; apply h; omega
      · intro hall; exfalso; apply h
        rw [hh, hh]; exact hall 0 (by omega)

/-- Two well-formed keys compare equal exactly when their fields are equal. -/
theorem cmp_eq_zero_iff (MAX_DIMS : Nat) (k k2 : SpecializationKey)
    (hf : k.flags_ < 65536) (hf2 : k2.flags_ < 65536)
    (ha : -128 ≤ k.alias_group_ ∧ k.alias_group_ < 128)
    (ha2 : -128 ≤ k2.alias_group_ ∧ k2.alias_group_ < 128)
    (hd : k.dimflags_.length = MAX_DIMS) (hd2 : k2.dimflags_.length = MAX_DIMS) :
    k.cmp MAX_DIMS k2 = 0 ↔ k = k2 := by
  unfold SpecializationKey.cmp
  rw [memcmp_eq_zero_iff]
  constructor
  · intro H
    have h0 := H 0 (by omega)
    have h1 := H 1 (by omega)
    have h2 := H 2 (by omega)
    simp only [SpecializationKey.bytes, List.cons_append, List.nil_append, List.getD_cons_zero,
      List.getD_cons_succ] at h0 h1 h2
    have hflags : k.flags_ = k2.flags_ := by omega
    have halias : k.alias_group_ = k2.alias_group_ := by omega
    have hdim : k.dimflags_ = k2.dimflags_ := by
      apply List.ext_getElem (by rw [hd, hd2])
      intro d hd1 hd3
      have := H (d + 3) (by omega)
      simp only [SpecializationKey.bytes, List.cons_append, List.nil_append,
        List.getD_cons_succ] at this
      rw [List.getD_eq_getElem _ _ hd1, List.getD_eq_getElem _ _ hd3] at this
      exact this
    cases k; cases k2
    simp only [SpecializationKey.mk.injEq]
    exact ⟨hflags, halias, hdim⟩
  · intro h i _
    rw [h]

/-- Uniqueness of a two-digit mixed-radix representation. -/
theorem mixed_radix_inj (n r q r2 q2 : Nat) (hr : r < n) (hr2 : r2 < n)
    (h : r + n * q = r2 + n * q2) : r = r2 ∧ q = q2 := by
  have hn : 0 < n := by omega
  have h1 : (r + n * q) % n = r := by
    rw [Nat.add_mul_mod_self_left, Nat.mod_eq_of_lt hr]
  have h2 : (r2 + n * q2) % n = r2 := by
    rw [Nat.add_mul_mod_self_left, Nat.mod_eq_of_lt hr2]
  have h3 : (r + n * q) / n = q := by
    rw [Nat.add_mul_div_left _ _ hn, Nat.div_eq_of_lt hr, Nat.zero_add]
  have h4 : (r2 + n * q2) / n = q2 := by
    rw [Nat.add_mul_div_left _ _ hn, Nat.div_eq_of_lt hr2, Nat.zero_add]
  rw [h] at h1 h3
  exact ⟨h1.symm.trans h2, h3.symm.trans h4⟩

/-- A two-digit mixed-radix number is below the product of the radixes. -/
theorem mixed_radix_lt (n m r q : Nat) (hr : r < n) (hq : q < m) : r + n * q < n * m := by
  have h1 : n * (q + 1) ≤ n * m := Nat.mul_le_mul_left n hq
  rw [Nat.mul_add, Nat.mul_one] at h1
  omega

/-- When the strides do not wrap, `pack_flags` is the positional number with digits
`is_out`, `requires_grad`, `dtype`, `layout`, `device`. -/
theorem pack_flags_eq (E : EnumCounts) (hE : E.fits) (v : Tensor) (hv : v.enumsValid E)
    (is_out : Bool) :
    pack_flags E v is_out =
      (is_out.toNat + 2 * v.requires_grad.toNat) +
        4 * (v.dtype + E.scalarTypes * (v.layout + E.layouts * v.device)) ∧
    pack_flags E v is_out < 65536 := by
  obtain ⟨hd, hl, hdev⟩ := hv
  unfold EnumCounts.fits at hE
  have hY : v.layout + E.layouts * v.device < E.layouts * E.deviceTypes :=
    mixed_radix_lt _ _ _ _ hl hdev
  have hX : v.dtype + E.scalarTypes * (v.layout + E.layouts * v.device) <
      E.scalarTypes * (E.layouts * E.deviceTypes) :=
    mixed_radix_lt _ _ _ _ hd hY
  have hprod : 4 * E.scalarTypes * E.layouts * E.deviceTypes =
      4 * (E.scalarTypes * (E.layouts * E.deviceTypes)) := by ring
  rw [hprod] at hE
  have hL1 : 1 ≤ E.layouts := by omega
  have hD1 : 1 ≤ E.deviceTypes := by omega
  have hLD : 1 ≤ E.layouts * E.deviceTypes := Nat.mul_pos hL1 hD1
  have hS1 : 1 ≤ E.scalarTypes := by omega
  have hS : E.scalarTypes ≤ E.scalarTypes * (E.layouts * E.deviceTypes) :=
    Nat.le_mul_of_pos_right _ hLD
  have hLle : E.layouts ≤ E.layouts * E.deviceTypes := Nat.le_mul_of_pos_right _ hD1
  have hDle : E.deviceTypes ≤ E.layouts * E.deviceTypes := Nat.le_mul_of_pos_left _ hL1
  have hLDle : E.layouts * E.deviceTypes ≤ E.scalarTypes * (E.layouts * E.deviceTypes) :=
    Nat.le_mul_of_pos_left _ hS1
  have hSL : E.scalarTypes * E.layouts ≤ E.scalarTypes * (E.layouts * E.deviceTypes) :=
    Nat.mul_le_mul_left _ (Nat.le_mul_of_pos_right _ hD1)
  have hS3 : (1 * 2 % 65536 * 2 % 65536 * E.scalarTypes) % 65536 = 4 * E.scalarTypes := by
    norm_num
    omega
  have hS4 : (4 * E.scalarTypes * E.layouts) % 65536 = 4 * (E.scalarTypes * E.layouts) := by
    rw [Nat.mul_assoc]
    apply Nat.mod_eq_of_lt
    omega
  have hb : is_out.toNat + 2 * v.requires_grad.toNat < 4 := by
    cases is_out <;> cases v.requires_grad <;> simp
  have hval : 1 * is_out.toNat + 1 * 2 % 65536 * v.requires_grad.toNat +
      1 * 2 % 65536 * 2 % 65536 * (v.dtype % 65536) +
      (1 * 2 % 65536 * 2 % 65536 * E.scalarTypes) % 65536 * (v.layout % 65536) +
      ((1 * 2 % 65536 * 2 % 65536 * E.scalarTypes) % 65536 * E.layouts) % 65536 *
        (v.device % 65536) =
      (is_out.toNat + 2 * v.requires_grad.toNat) +
        4 * (v.dtype + E.scalarTypes * (v.layout + E.layouts * v.device)) := by
    rw [hS3, hS4, Nat.mod_eq_of_lt (show v.dtype < 65536 by omega),
      Nat.mod_eq_of_lt (show v.layout < 65536 by omega),
      Nat.mod_eq_of_lt (show v.device < 65536 by omega)]
    norm_num
    ring
  have hlt : (is_out.toNat + 2 * v.requires_grad.toNat) +
      4 * (v.dtype + E.scalarTypes * (v.layout + E.layouts * v.device)) < 65536 := by omega
  unfold pack_flags
  simp only
  rw [hval, Nat.mod_eq_of_lt hlt]
  exact ⟨rfl, hlt⟩

/-- When the strides do not wrap, `pack_flags` determines its five fields. -/
theorem pack_flags_inj (E : EnumCounts) (hE : E.fits) (v v2 : Tensor) (hv : v.enumsValid E)
    (hv2 : v2.enumsValid E) (o o2 : Bool) :
    pack_flags E v o = pack_flags E v2 o2 ↔
      o = o2 ∧ v.requires_grad = v2.requires_grad ∧ v.dtype = v2.dtype ∧
        v.layout = v2.layout ∧ v.device = v2.device := by
  constructor
  · intro h
    rw [(pack_flags_eq E hE v hv o).1, (pack_flags_eq E hE v2 hv2 o2).1] at h
    have hb : o.toNat + 2 * v.requires_grad.toNat < 4 := by
      cases o <;> cases v.requires_grad <;> simp
    have hb2 : o2.toNat + 2 * v2.requires_grad.toNat < 4 := by
      cases o2 <;> cases v2.requires_grad <;> simp
    obtain ⟨h1, h2⟩ := mixed_radix_inj 4 _ _ _ _ hb hb2 h
    obtain ⟨h3, h4⟩ := mixed_radix_inj _ _ _ _ _ hv.1 hv2.1 h2
    obtain ⟨h5, h6⟩ := mixed_radix_inj _ _ _ _ _ hv.2.1 hv2.2.1 h4
    have ho : o = o2 ∧ v.requires_grad = v2.requires_grad := by
      revert h1
      cases o <;> cases o2 <;> cases v.requires_grad <;> cases v2.requires_grad <;> simp
    exact ⟨ho.1, ho.2, h3, h5, h6⟩
  · rintro ⟨h1, h2, h3, h4, h5⟩
    unfold pack_flags
    rw [h1, h2, h3, h4, h5]

/-- The flag byte of a populated dimension is its size bit or'ed with its stride bit. -/
theorem flag_eq_tags (sizes strides : List Int) (d : Nat) :
    init_dimflags.flag sizes strides d =
      (sizeTag sizes d).bit ||| (strideTag sizes strides sizes.length d).bit := by
  unfold init_dimflags.flag sizeTag strideTag
  by_cases hs : sizes.getD d 0 = 1 <;> simp only [hs, if_true, if_false] <;>
    split_ifs <;> rfl

/-- The flag byte determines the size and the stride category. -/
theorem tag_bits_inj (s s2 : SizeTag) (t t2 : StrideTag)
    (h : s.bit ||| t.bit = s2.bit ||| t2.bit) : s = s2 ∧ t = t2 := by
  revert h
  cases s <;> cases s2 <;> cases t <;> cases t2 <;> decide

/-- No populated dimension carries the padding byte. -/
theorem tag_bits_ne_pad (s : SizeTag) (t : StrideTag) :
    s.bit ||| t.bit ≠ SIZE_MISSING ||| STRIDE_ZERO := by
  cases s <;> cases t <;> decide

/-- Two `dimflags_` arrays of one bucket agree exactly when the descriptors have the
same number of dimensions and the same size and stride category in each. -/
theorem init_dimflags_inj (MAX_DIMS : Nat) (s1 st1 s2 st2 : List Int)
    (h1 : s1.length ≤ MAX_DIMS) (h2 : s2.length ≤ MAX_DIMS) :
    init_dimflags MAX_DIMS s1 st1 s1.length = init_dimflags MAX_DIMS s2 st2 s2.length ↔
      (List.range s1.length).map (sizeTag s1) = (List.range s2.length).map (sizeTag s2) ∧
      (List.range s1.length).map (strideTag s1 st1 s1.length) =
        (List.range s2.length).map (strideTag s2 st2 s2.length) := by
  constructor
  · intro h
    have hget : ∀ d, (init_dimflags MAX_DIMS s1 st1 s1.length).getD d 0 =
        (init_dimflags MAX_DIMS s2 st2 s2.length).getD d 0 := fun d => by rw [h]
    have hlen : s1.length = s2.length := by
      rcases Nat.lt_trichotomy s1.length s2.length with hlt | heq | hgt
      · exfalso
        have := hget s1.length
        rw [init_dimflags_getD_ge _ _ _ _ _ h1 (Nat.le_refl _) (by omega),
          init_dimflags_getD_lt _ _ _ _ _ h2 hlt, flag_eq_tags] at this
        exact tag_bits_ne_pad _ _ this.symm
      · exact heq
      · exfalso
        have := hget s2.length
        rw [init_dimflags_getD_ge _ _ _ _ _ h2 (Nat.le_refl _) (by omega),
          init_dimflags_getD_lt _ _ _ _ _ h1 hgt, flag_eq_tags] at this
        exact tag_bits_ne_pad _ _ this
    have hpt : ∀ d, d < s1.length → sizeTag s1 d = sizeTag s2 d ∧
        strideTag s1 st1 s1.length d = strideTag s2 st2 s2.length d := by
      intro d hd
      have := hget d
      rw [init_dimflags_getD_lt _ _ _ _ _ h1 hd,
        init_dimflags_getD_lt _ _ _ _ _ h2 (by omega), flag_eq_tags, flag_eq_tags] at this
      exact tag_bits_inj _ _ _ _ this
    rw [← hlen]
    constructor
    · apply List.map_congr_left
      intro d hd
      exact (hpt d (List.mem_range.1 hd)).1
    · apply List.map_congr_left
      intro d hd
      have := (hpt d (List.mem_range.1 hd)).2
      rw [← hlen] at this
      exact this
  · rintro ⟨hs, ht⟩
    have hlen : s1.length = s2.length := by
      have := congrArg List.length hs
      simpa using this
    rw [init_dimflags_eq _ _ _ _ h1, init_dimflags_eq _ _ _ _ h2, hlen]
    congr 1
    apply List.map_congr_left
    intro d hd
    have hd2 : d < s2.length := List.mem_range.1 hd
    rw [flag_eq_tags, flag_eq_tags]
    have e1 : sizeTag s1 d = sizeTag s2 d := by
      have := congrArg (fun l => l[d]?) hs
      simp only [List.getElem?_map, List.getElem?_range (show d < s1.length by omega),
        List.getElem?_range hd2, Option.map_some', Option.some.injEq] at this
      exact this
    have e2 : strideTag s1 st1 s1.length d = strideTag s2 st2 s2.length d := by
      have := congrArg (fun l => l[d]?) ht
      simp only [List.getElem?_map, List.getElem?_range (show d < s1.length by omega),
        List.getElem?_range hd2, Option.map_some', Option.some.injEq] at this
      exact this
    rw [e1, e2]

/-- Every group id is bounded in absolute value by the arity. -/
theorem alias_group_range (args : List Tensor) (m : Nat) (hm : m < args.length) :
    |(compute_alias_groups Tensor.is_alias_of Tensor.is_set_to args).getD m 0| ≤ args.length := by
  obtain ⟨f, hfm, _, _, _, hG⟩ :=
    leader_value Tensor.is_alias_of Tensor.is_set_to args (tensor_alias_equiv args) m hm
  rw [hG]
  have hc : classCount (aliasMatrix Tensor.is_alias_of Tensor.is_set_to args) args.length (f + 1) ≤
      f + 1 := Nat.count_le _
  split_ifs
  · have : (classCount (aliasMatrix Tensor.is_alias_of Tensor.is_set_to args) args.length
        (f + 1) : Int) ≤ (args.length : Int) := by
      exact_mod_cast (by omega : classCount (aliasMatrix Tensor.is_alias_of Tensor.is_set_to args)
        args.length (f + 1) ≤ args.length)
    exact this
  · exact Int.ofNat_nonneg _

/-- Equality of the keys of two arguments in terms of their tags. -/
theorem new_eq_iff (E : EnumCounts) (hE : E.fits) (MAX_DIMS : Nat) (v v2 : Tensor)
    (hv : v.enumsValid E) (hv2 : v2.enumsValid E) (hn : v.ndimension ≤ MAX_DIMS)
    (hn2 : v2.ndimension ≤ MAX_DIMS) (g g2 : Int) (o o2 : Bool) :
    SpecializationKey.new E MAX_DIMS v g o = SpecializationKey.new E MAX_DIMS v2 g2 o2 ↔
      (o = o2 ∧ v.requires_grad = v2.requires_grad ∧ v.dtype = v2.dtype ∧
        v.layout = v2.layout ∧ v.device = v2.device) ∧ g = g2 ∧
      (List.range v.ndimension).map (sizeTag v.sizes) =
        (List.range v2.ndimension).map (sizeTag v2.sizes) ∧
      (List.range v.ndimension).map (strideTag v.sizes v.strides v.ndimension) =
        (List.range v2.ndimension).map (strideTag v2.sizes v2.strides v2.ndimension) := by
  unfold SpecializationKey.new
  rw [SpecializationKey.mk.injEq, pack_flags_inj E hE v v2 hv hv2 o o2]
  unfold Tensor.ndimension at hn hn2 ⊢
  rw [init_dimflags_inj MAX_DIMS _ _ _ _ hn hn2]

/-! ## Key equivalence -/

theorem memcmp_antisymm (n : Nat) : ∀ p q : List Nat, memcmp q p n = - memcmp p q n := by
  induction n with
  | zero => intro p q; simp [memcmp]
  | succ n ih =>
    intro p q
    unfold memcmp
    by_cases h : p.headD 0 = q.headD 0
    · rw [if_pos h, if_pos h.symm, ih]
    · rw [if_neg h, if_neg (fun h2 => h h2.symm)]
      omega

theorem cmp_antisymm (MAX_DIMS : Nat) (a b : SpecializationKey) :
    b.cmp MAX_DIMS a = - a.cmp MAX_DIMS b :=
  memcmp_antisymm _ _ _

theorem cmp_refl (MAX_DIMS : Nat) (a : SpecializationKey) : a.cmp MAX_DIMS a = 0 := by
  unfold SpecializationKey.cmp
  rw [memcmp_eq_zero_iff]
  intro i _
  rfl

theorem cmp_trans (MAX_DIMS : Nat) (a b c : SpecializationKey) (h1 : a.cmp MAX_DIMS b = 0)
    (h2 : b.cmp MAX_DIMS c = 0) : a.cmp MAX_DIMS c = 0 := by
  unfold SpecializationKey.cmp at *
  rw [memcmp_eq_zero_iff] at *
  intro i hi
  rw [h1 i hi, h2 i hi]

/-- Neither tuple is less than the other over the indices `is` exactly when every
per-argument `cmp` over `is` is 0. -/
theorem CmpLess_loop_equiv (MAX_DIMS : Nat) (a b : List SpecializationKey) (is : List Nat) :
    (CmpLess.loop MAX_DIMS a b is = false ∧ CmpLess.loop MAX_DIMS b a is = false) ↔
      ∀ i ∈ is, (a.getD i default).cmp MAX_DIMS (b.getD i default) = 0 := by
  induction is with
  | nil => simp [CmpLess.loop]
  | cons i rest ih =>
    have hanti := cmp_antisymm MAX_DIMS (a.getD i default) (b.getD i default)
    unfold CmpLess.loop
    simp only
    rw [hanti]
    rcases Int.lt_trichotomy ((a.getD i default).cmp MAX_DIMS (b.getD i default)) 0 with
      h | h | h
    · have h2 : ¬ (-(a.getD i default).cmp MAX_DIMS (b.getD i default) < 0) := by omega
      rw [if_pos h]
      constructor
      · rintro ⟨h3, _⟩; exact absurd h3 (by simp)
      · intro h3; exfalso
        have := h3 i (List.mem_cons_self _ _)
        omega
    · rw [h]
      simp only [Int.lt_irrefl, neg_zero, if_false]
      rw [ih]
      constructor
      · intro h3 j hj
        rcases List.mem_cons.1 hj with h4 | h4
        · rw [h4]; exact h
        · exact h3 j h4
      · intro h3 j hj
        exact h3 j (List.mem_cons_of_mem _ hj)
    · have h2 : ¬ ((a.getD i default).cmp MAX_DIMS (b.getD i default) < 0) := by omega
      have h3 : -(a.getD i default).cmp MAX_DIMS (b.getD i default) < 0 := by omega
      rw [if_neg h2, if_pos h, if_pos h3]
      constructor
      · rintro ⟨_, h4⟩; exact absurd h4 (by simp)
      · intro h4; exfalso
        have := h4 i (List.mem_cons_self _ _)
        omega

/-- Key tuples of one arity are equivalent for the map exactly when every
per-argument `cmp` is 0. -/
theorem keyEquiv_iff (MAX_DIMS : Nat) (a b : List SpecializationKey)
    (h : a.length = b.length) :
    keyEquiv MAX_DIMS a b = true ↔
      ∀ i, i < a.length → (a.getD i default).cmp MAX_DIMS (b.getD i default) = 0 := by
  unfold keyEquiv CmpLess
  rw [← h]
  have := CmpLess_loop_equiv MAX_DIMS a b (List.range a.length)
  simp only [List.mem_range] at this
  rw [← this]
  simp

theorem keyEquiv_refl (MAX_DIMS : Nat) (a : List SpecializationKey) :
    keyEquiv MAX_DIMS a a = true :=
  (keyEquiv_iff MAX_DIMS a a rfl).2 (fun _ _ => cmp_refl _ _)

theorem keyEquiv_symm (MAX_DIMS : Nat) (a b : List SpecializationKey) :
    keyEquiv MAX_DIMS a b = keyEquiv MAX_DIMS b a := by
  unfold keyEquiv
  exact Bool.and_comm _ _

theorem keyEquiv_trans (MAX_DIMS : Nat) (a b c : List SpecializationKey)
    (hab : a.length = b.length) (hbc : b.length = c.length)
    (h1 : keyEquiv MAX_DIMS a b = true) (h2 : keyEquiv MAX_DIMS b c = true) :
    keyEquiv MAX_DIMS a c = true := by
  rw [keyEquiv_iff _ _ _ hab] at h1
  rw [keyEquiv_iff _ _ _ hbc] at h2
  rw [keyEquiv_iff _ _ _ (hab.trans hbc)]
  intro i hi
  exact cmp_trans _ _ _ _ (h1 i hi) (h2 i (by omega))

/-! ## The cache -/

/-- Lookup after appending one entry. -/
theorem find_append (MAX_DIMS : Nat) (m : Map) (key k : List SpecializationKey)
    (cr : CompileResultImpl) :
    Map.find MAX_DIMS (m ++ [(key, cr)]) k =
      match Map.find MAX_DIMS m k with
      | some e => some e
      | none => if keyEquiv MAX_DIMS key k = true then some cr else none := by
  unfold Map.find
  rw [List.find?_append]
  cases h : List.find? (fun e => keyEquiv MAX_DIMS e.1 k) m with
  | some e => simp
  | none =>
    simp only [Option.none_or, Option.map_none', List.find?_cons, List.find?_nil]
    by_cases hk : keyEquiv MAX_DIMS key k = true
    · simp [hk]
    · simp [hk]

/-- A failed lookup means no stored key is equivalent to the key looked up. -/
theorem find_eq_none (MAX_DIMS : Nat) (m : Map) (k : List SpecializationKey)
    (h : Map.find MAX_DIMS m k = none) : ∀ e ∈ m, keyEquiv MAX_DIMS e.1 k = false := by
  unfold Map.find at h
  rw [Option.map_eq_none', List.find?_eq_none] at h
  intro e he
  have := h e he
  simpa using this

/-- A successful lookup returns the entry of a stored equivalent key. -/
theorem find_eq_some (MAX_DIMS : Nat) (m : Map) (k : List SpecializationKey)
    (e : CompileResultImpl) (h : Map.find MAX_DIMS m k = some e) :
    ∃ k0, (k0, e) ∈ m ∧ keyEquiv MAX_DIMS k0 k = true := by
  unfold Map.find at h
  rw [Option.map_eq_some'] at h
  obtain ⟨⟨k0, e0⟩, hf, he⟩ := h
  simp only at he
  subst he
  exact ⟨k0, List.mem_of_find?_eq_some hf, by simpa using List.find?_some hf⟩

/-- `emplace` on a miss appends the entry. -/
theorem emplace_miss (MAX_DIMS : Nat) (m : Map) (key : List SpecializationKey)
    (cr : CompileResultImpl) (h : Map.find MAX_DIMS m key = none) :
    Map.emplace MAX_DIMS m key cr = m ++ [(key, cr)] := by
  unfold Map.emplace
  rw [h]

/-- A hit returns the stored entry and changes nothing. -/
theorem cached_compile_hit {σ : Type} (MAX_DIMS : Nat) (compile_fn_ : CompileFn σ)
    (self : CompileCache3 σ) (key : List SpecializationKey) (example_ : List Tensor)
    (item : CompileResultImpl) (h : Map.find MAX_DIMS self.cache_ key = some item) :
    cached_compile MAX_DIMS compile_fn_ self key example_ = (.ok item, self) := by
  unfold cached_compile
  rw [h]

/-- A miss on which the description cannot be built fails before the callback. -/
theorem cached_compile_spec_error {σ : Type} (MAX_DIMS : Nat) (compile_fn_ : CompileFn σ)
    (self : CompileCache3 σ) (key : List SpecializationKey) (example_ : List Tensor)
    (e : String) (h : Map.find MAX_DIMS self.cache_ key = none)
    (hs : cached_compile.spec MAX_DIMS key example_ (List.range key.length) [] = .error e) :
    cached_compile MAX_DIMS compile_fn_ self key example_ = (.error e, self) := by
  unfold cached_compile
  rw [h]
  simp only [hs]

/-- A miss on which the callback returns inserts the configured entry. -/
theorem cached_compile_miss_ok {σ : Type} (MAX_DIMS : Nat) (compile_fn_ : CompileFn σ)
    (self : CompileCache3 σ) (key : List SpecializationKey) (example_ : List Tensor)
    (spec : List Description) (py : σ) (calls : List ProxyCall)
    (h : Map.find MAX_DIMS self.cache_ key = none)
    (hs : cached_compile.spec MAX_DIMS key example_ (List.range key.length) [] = .ok spec)
    (hc : compile_fn_ self.py spec = (py, .ok calls)) :
    cached_compile MAX_DIMS compile_fn_ self key example_ =
      (.ok (calls.foldl CompileResultImpl.configure CompileResultImpl.new),
        { cache_ := self.cache_ ++
            [(key, calls.foldl CompileResultImpl.configure CompileResultImpl.new)]
          py := py
          compiled := self.compiled ++ [key] }) := by
  unfold cached_compile
  rw [h]
  simp only [hs, hc, emplace_miss MAX_DIMS _ _ _ h]

/-- A miss on which the callback raises propagates the error and leaves the map
as it was. -/
theorem cached_compile_miss_error {σ : Type} (MAX_DIMS : Nat) (compile_fn_ : CompileFn σ)
    (self : CompileCache3 σ) (key : List SpecializationKey) (example_ : List Tensor)
    (spec : List Description) (py : σ) (e : String)
    (h : Map.find MAX_DIMS self.cache_ key = none)
    (hs : cached_compile.spec MAX_DIMS key example_ (List.range key.length) [] = .ok spec)
    (hc : compile_fn_ self.py spec = (py, .error e)) :
    cached_compile MAX_DIMS compile_fn_ self key example_ =
      (.error e, { self with py := py, compiled := self.compiled ++ [key] }) := by
  unfold cached_compile
  rw [h]
  simp only [hs, hc]

/-- The four ways a call of `cached_compile` can go. -/
theorem cached_compile_cases {σ : Type} (MAX_DIMS : Nat) (compile_fn_ : CompileFn σ)
    (self : CompileCache3 σ) (key : List SpecializationKey) (example_ : List Tensor) :
    (∃ item, Map.find MAX_DIMS self.cache_ key = some item ∧
      cached_compile MAX_DIMS compile_fn_ self key example_ = (.ok item, self)) ∨
    (∃ e, Map.find MAX_DIMS self.cache_ key = none ∧
      cached_compile MAX_DIMS compile_fn_ self key example_ = (.error e, self)) ∨
    (∃ py e, Map.find MAX_DIMS self.cache_ key = none ∧
      cached_compile MAX_DIMS compile_fn_ self key example_ =
        (.error e, { self with py := py, compiled := self.compiled ++ [key] })) ∨
    (∃ py cr, Map.find MAX_DIMS self.cache_ key = none ∧
      cached_compile MAX_DIMS compile_fn_ self key example_ =
        (.ok cr, { cache_ := self.cache_ ++ [(key, cr)], py := py,
                   compiled := self.compiled ++ [key] })) := by
  cases h : Map.find MAX_DIMS self.cache_ key with
  | some item => exact Or.inl ⟨item, rfl, cached_compile_hit _ _ _ _ _ _ h⟩
  | none =>
    cases hs : cached_compile.spec MAX_DIMS key example_ (List.range key.length) [] with
    | error e => exact Or.inr (Or.inl ⟨e, rfl, cached_compile_spec_error _ _ _ _ _ _ h hs⟩)
    | ok spec =>
      rcases hc : compile_fn_ self.py spec with ⟨py, r⟩
      cases r with
      | error e =>
        exact Or.inr (Or.inr (Or.inl ⟨py, e, rfl,
          cached_compile_miss_error _ _ _ _ _ _ _ _ h hs hc⟩))
      | ok calls =>
        exact Or.inr (Or.inr (Or.inr ⟨py, _, rfl,
          cached_compile_miss_ok _ _ _ _ _ _ _ _ h hs hc⟩))

/-- Entries are never removed or replaced. -/
theorem cached_compile_mono {σ : Type} (MAX_DIMS : Nat) (compile_fn_ : CompileFn σ)
    (self : CompileCache3 σ) (key : List SpecializationKey) (example_ : List Tensor)
    (k : List SpecializationKey) (e : CompileResultImpl)
    (h : Map.find MAX_DIMS self.cache_ k = some e) :
    Map.find MAX_DIMS (cached_compile MAX_DIMS compile_fn_ self key example_).2.cache_ k =
      some e := by
  rcases cached_compile_cases MAX_DIMS compile_fn_ self key example_ with
    ⟨_, _, hc⟩ | ⟨_, _, hc⟩ | ⟨_, _, _, hc⟩ | ⟨_, _, _, hc⟩
  · rw [hc]; exact h
  · rw [hc]; exact h
  · rw [hc]; exact h
  · rw [hc]
    show Map.find MAX_DIMS (self.cache_ ++ _) k = some e
    rw [find_append, h]

/-- Entries survive any sequence of calls. -/
theorem run_mono {σ : Type} (MAX_DIMS : Nat) (compile_fn_ : CompileFn σ)
    (calls : List (List SpecializationKey × List Tensor)) :
    ∀ (self : CompileCache3 σ) (k : List SpecializationKey) (e : CompileResultImpl),
      Map.find MAX_DIMS self.cache_ k = some e →
      Map.find MAX_DIMS (CompileCache3.run MAX_DIMS compile_fn_ self calls).2.cache_ k =
        some e := by
  induction calls with
  | nil => intro self k e h; exact h
  | cons c rest ih =>
    intro self k e h
    exact ih _ k e (cached_compile_mono MAX_DIMS compile_fn_ self c.1 c.2 k e h)

/-- A call that returns normally preserves the invariant, and afterwards its key
is bound to the entry it returned. -/
theorem cached_compile_inv {σ : Type} (NARGS MAX_DIMS : Nat) (compile_fn_ : CompileFn σ)
    (self : CompileCache3 σ) (key : List SpecializationKey) (example_ : List Tensor)
    (e : CompileResultImpl) (hinv : CacheInv NARGS MAX_DIMS self) (hk : key.length = NARGS)
    (hok : (cached_compile MAX_DIMS compile_fn_ self key example_).1 = .ok e) :
    CacheInv NARGS MAX_DIMS (cached_compile MAX_DIMS compile_fn_ self key example_).2 ∧
    Map.find MAX_DIMS (cached_compile MAX_DIMS compile_fn_ self key example_).2.cache_ key =
      some e := by
  rcases cached_compile_cases MAX_DIMS compile_fn_ self key example_ with
    ⟨item, hf, hc⟩ | ⟨_, _, hc⟩ | ⟨_, _, _, hc⟩ | ⟨py, cr, hf, hc⟩
  · rw [hc] at hok ⊢
    simp only [Except.ok.injEq] at hok
    subst hok
    exact ⟨hinv, hf⟩
  · rw [hc] at hok; exact absurd hok (by simp)
  · rw [hc] at hok; exact absurd hok (by simp)
  · rw [hc] at hok ⊢
    simp only [Except.ok.injEq] at hok
    subst hok
    obtain ⟨h1, h2, h3⟩ := hinv
    refine ⟨⟨?_, ?_, ?_⟩, ?_⟩
    · show self.compiled ++ [key] = List.map Prod.fst (self.cache_ ++ [(key, cr)])
      rw [List.map_append, h1]
      rfl
    · intro x hx
      rcases List.mem_append.1 hx with h | h
      · exact h2 x h
      · rw [List.mem_singleton] at h
        rw [h]; exact hk
    · show List.Pairwise _ (self.cache_ ++ [(key, cr)])
      rw [List.pairwise_append]
      refine ⟨h3, List.pairwise_singleton _ _, ?_⟩
      intro a ha b hb
      rw [List.mem_singleton] at hb
      rw [hb]
      exact find_eq_none MAX_DIMS _ _ hf a ha
    · show Map.find MAX_DIMS (self.cache_ ++ [(key, cr)]) key = some cr
      rw [find_append, hf]
      simp [keyEquiv_refl]

/-- Equivalent keys are looked up alike. -/
theorem find_congr (NARGS MAX_DIMS : Nat) (m : Map) (k1 k2 : List SpecializationKey)
    (h1 : k1.length = NARGS) (h2 : k2.length = NARGS) (hm : ∀ e ∈ m, e.1.length = NARGS)
    (heq : keyEquiv MAX_DIMS k1 k2 = true) :
    Map.find MAX_DIMS m k1 = Map.find MAX_DIMS m k2 := by
  unfold Map.find
  congr 1
  induction m with
  | nil => rfl
  | cons x rest ih =>
    have hx : x.1.length = NARGS := hm x (List.mem_cons_self _ _)
    have hp : keyEquiv MAX_DIMS x.1 k1 = keyEquiv MAX_DIMS x.1 k2 := by
      cases hb : keyEquiv MAX_DIMS x.1 k2 with
      | true =>
        rw [keyEquiv_symm] at heq
        rw [keyEquiv_symm] at hb
        rw [keyEquiv_symm]
        exact keyEquiv_trans MAX_DIMS k1 k2 x.1 (h1.trans h2.symm) (h2.trans hx.symm)
          (by rw [keyEquiv_symm]; exact heq) hb
      | false =>
        cases ha : keyEquiv MAX_DIMS x.1 k1 with
        | true =>
          have := keyEquiv_trans MAX_DIMS x.1 k1 k2 (hx.trans h1.symm) (h1.trans h2.symm) ha heq
          rw [hb] at this
          exact absurd this (by simp)
        | false => rfl
    rw [List.find?_cons, List.find?_cons, hp,
      ih (fun e he => hm e (List.mem_cons_of_mem _ he))]

/-- In a well-formed map exactly one stored key is equivalent to a key that is
found. -/
theorem filter_equiv_length (NARGS MAX_DIMS : Nat) (k : List SpecializationKey)
    (hk : k.length = NARGS) (m : Map) :
    (∀ e ∈ m, e.1.length = NARGS) →
    m.Pairwise (fun a b => keyEquiv MAX_DIMS a.1 b.1 = false) →
    (∃ e ∈ m, keyEquiv MAX_DIMS e.1 k = true) →
    ((m.map Prod.fst).filter (fun k2 => keyEquiv MAX_DIMS k2 k)).length = 1 := by
  induction m with
  | nil => rintro _ _ ⟨e, he, _⟩; exact absurd he (List.not_mem_nil e)
  | cons x rest ih =>
    intro hlen hp hex
    rw [List.pairwise_cons] at hp
    have hx : x.1.length = NARGS := hlen x (List.mem_cons_self _ _)
    have hrest : ∀ e ∈ rest, e.1.length = NARGS := fun e he => hlen e (List.mem_cons_of_mem _ he)
    rw [List.map_cons, List.filter_cons]
    by_cases hxk : keyEquiv MAX_DIMS x.1 k = true
    · rw [if_pos hxk]
      have hnil : (rest.map Prod.fst).filter (fun k2 => keyEquiv MAX_DIMS k2 k) = [] := by
        rw [List.filter_eq_nil_iff]
        intro y hy
        rw [List.mem_map] at hy
        obtain ⟨e, he, hey⟩ := hy
        rw [← hey]
        intro hyk
        have h1 : keyEquiv MAX_DIMS k e.1 = true := by rw [keyEquiv_symm]; exact hyk
        have := keyEquiv_trans MAX_DIMS x.1 k e.1 (hx.trans hk.symm)
          (hk.trans (hrest e he).symm) hxk h1
        rw [hp.1 e he] at this
        exact absurd this (by simp)
      rw [hnil]
      rfl
    · rw [if_neg hxk]
      apply ih hrest hp.2
      obtain ⟨e, he, hek⟩ := hex
      rcases List.mem_cons.1 he with h | h
      · rw [h] at hek; exact absurd hek hxk
      · exact ⟨e, h, hek⟩

/-- A sequence of calls that all return normally preserves the invariant, and in the
final map every called key is bound to the entry its call returned. -/
theorem run_inv {σ : Type} (NARGS MAX_DIMS : Nat) (compile_fn_ : CompileFn σ)
    (calls : List (List SpecializationKey × List Tensor)) :
    ∀ (self : CompileCache3 σ), CacheInv NARGS MAX_DIMS self →
      (∀ c ∈ calls, c.1.length = NARGS) →
      (∀ x ∈ (CompileCache3.run MAX_DIMS compile_fn_ self calls).1, ∃ e, x = .ok e) →
      CacheInv NARGS MAX_DIMS (CompileCache3.run MAX_DIMS compile_fn_ self calls).2 ∧
      ∀ c e, (c, Except.ok e) ∈
          calls.zip (CompileCache3.run MAX_DIMS compile_fn_ self calls).1 →
        Map.find MAX_DIMS (CompileCache3.run MAX_DIMS compile_fn_ self calls).2.cache_ c.1 =
          some e := by
  induction calls with
  | nil =>
    intro self hinv _ _
    exact ⟨hinv, fun c e h => absurd h (by simp)⟩
  | cons c rest ih =>
    intro self hinv hlen hok
    have hc : c.1.length = NARGS := hlen c (List.mem_cons_self _ _)
    obtain ⟨e0, he0⟩ := hok _ (List.mem_cons_self _ _)
    obtain ⟨hinv1, hfind1⟩ := cached_compile_inv NARGS MAX_DIMS compile_fn_ self c.1 c.2 e0
      hinv hc he0
    obtain ⟨hinv2, hfind2⟩ := ih _ hinv1 (fun x hx => hlen x (List.mem_cons_of_mem _ hx))
      (fun x hx => hok x (List.mem_cons_of_mem _ hx))
    refine ⟨hinv2, ?_⟩
    intro c2 e hmem
    have hz : (c2, Except.ok e) ∈ (c, (cached_compile MAX_DIMS compile_fn_ self c.1 c.2).1) ::
        rest.zip (CompileCache3.run MAX_DIMS compile_fn_
          (cached_compile MAX_DIMS compile_fn_ self c.1 c.2).2 rest).1 := hmem
    rcases List.mem_cons.1 hz with h | h
    · rw [Prod.mk.injEq] at h
      obtain ⟨h1, h2⟩ := h
      rw [he0, Except.ok.injEq] at h2
      rw [h1, h2]
      exact run_mono MAX_DIMS compile_fn_ rest _ c.1 e0 hfind1
    · exact hfind2 c2 e h

/-! ## C5 -/

/-- C5: at most one compilation per key.  A lookup whose key is in the map returns
the stored entry without invoking the callback and leaves the cache state
unchanged.  A miss whose callback returns logs one invocation, appends exactly
that key with the new entry, binds the key to it and changes the lookup of no
other key.  Consequently, on a fresh cache, in every sequence of calls (keys of
one arity) that all return normally, the callback has been invoked exactly once
for every called key up to key equivalence, and any two calls with equivalent keys
return the same entry. -/
theorem C5_at_most_one_compile {σ : Type} (NARGS MAX_DIMS : Nat) (compile_fn_ : CompileFn σ) :
    (∀ (self : CompileCache3 σ) (key : List SpecializationKey) (example_ : List Tensor)
        (item : CompileResultImpl),
      Map.find MAX_DIMS self.cache_ key = some item →
      cached_compile MAX_DIMS compile_fn_ self key example_ = (.ok item, self)) ∧
    (∀ (self : CompileCache3 σ) (key : List SpecializationKey) (example_ : List Tensor)
        (spec : List Description) (py : σ) (calls : List ProxyCall),
      Map.find MAX_DIMS self.cache_ key = none →
      cached_compile.spec MAX_DIMS key example_ (List.range key.length) [] = .ok spec →
      compile_fn_ self.py spec = (py, .ok calls) →
      cached_compile MAX_DIMS compile_fn_ self key example_ =
        (.ok (calls.foldl CompileResultImpl.configure CompileResultImpl.new),
          { cache_ := self.cache_ ++
              [(key, calls.foldl CompileResultImpl.configure CompileResultImpl.new)]
            py := py
            compiled := self.compiled ++ [key] }) ∧
      Map.find MAX_DIMS (cached_compile MAX_DIMS compile_fn_ self key example_).2.cache_ key =
        some (calls.foldl CompileResultImpl.configure CompileResultImpl.new) ∧
      (∀ k e, Map.find MAX_DIMS self.cache_ k = some e →
        Map.find MAX_DIMS (cached_compile MAX_DIMS compile_fn_ self key example_).2.cache_ k =
          some e) ∧
      (∀ k, keyEquiv MAX_DIMS key k = false →
        Map.find MAX_DIMS (cached_compile MAX_DIMS compile_fn_ self key example_).2.cache_ k =
          Map.find MAX_DIMS self.cache_ k)) ∧
    (∀ (py0 : σ) (calls : List (List SpecializationKey × List Tensor)),
      (∀ c ∈ calls, c.1.length = NARGS) →
      (∀ x ∈ (CompileCache3.run MAX_DIMS compile_fn_
          { cache_ := [], py := py0, compiled := [] } calls).1, ∃ e, x = .ok e) →
      (∀ c ∈ calls,
        ((CompileCache3.run MAX_DIMS compile_fn_
            { cache_ := [], py := py0, compiled := [] } calls).2.compiled.filter
          (fun k => keyEquiv MAX_DIMS k c.1)).length = 1) ∧
      (∀ c1 c2 e1 e2,
        (c1, Except.ok e1) ∈ calls.zip (CompileCache3.run MAX_DIMS compile_fn_
          { cache_ := [], py := py0, compiled := [] } calls).1 →
        (c2, Except.ok e2) ∈ calls.zip (CompileCache3.run MAX_DIMS compile_fn_
          { cache_ := [], py := py0, compiled := [] } calls).1 →
        keyEquiv MAX_DIMS c1.1 c2.1 = true → e1 = e2)) := by
  refine ⟨fun self key ex item h => cached_compile_hit MAX_DIMS compile_fn_ self key ex item h,
    ?_, ?_⟩
  · intro self key ex spec py calls hf hs hc
    have hcc := cached_compile_miss_ok MAX_DIMS compile_fn_ self key ex spec py calls hf hs hc
    refine ⟨hcc, ?_, ?_, ?_⟩
    · rw [hcc]
      show Map.find MAX_DIMS (self.cache_ ++ _) key = _
      rw [find_append, hf]
      simp [keyEquiv_refl]
    · intro k e hk
      exact cached_compile_mono MAX_DIMS compile_fn_ self key ex k e hk
    · intro k hk
      rw [hcc]
      show Map.find MAX_DIMS (self.cache_ ++ _) k = _
      rw [find_append]
      cases Map.find MAX_DIMS self.cache_ k with
      | some e => rfl
      | none => simp [hk]
  · intro py0 calls hlen hok
    have hinv0 : CacheInv NARGS MAX_DIMS
        ({ cache_ := [], py := py0, compiled := [] } : CompileCache3 σ) :=
      ⟨rfl, fun e he => absurd he (List.not_mem_nil e), List.Pairwise.nil⟩
    obtain ⟨hinv, hfind⟩ := run_inv NARGS MAX_DIMS compile_fn_ calls _ hinv0 hlen hok
    have hzip : ∀ c ∈ calls, ∃ e, (c, Except.ok e) ∈ calls.zip
        (CompileCache3.run MAX_DIMS compile_fn_
          { cache_ := [], py := py0, compiled := [] } calls).1 := by
      intro c hc
      have hl : calls.length = (CompileCache3.run MAX_DIMS compile_fn_
          ({ cache_ := [], py := py0, compiled := [] } : CompileCache3 σ) calls).1.length := by
        clear hok hinv hfind hinv0 hlen hc
        generalize ({ cache_ := [], py := py0, compiled := [] } : CompileCache3 σ) = s
        induction calls generalizing s with
        | nil => rfl
        | cons c rest ih =>
          show rest.length + 1 = (CompileCache3.run MAX_DIMS compile_fn_ _ rest).1.length + 1
          rw [← ih]
      obtain ⟨i, hi, hci⟩ := List.getElem_of_mem hc
      have hi2 : i < (CompileCache3.run MAX_DIMS compile_fn_
          ({ cache_ := [], py := py0, compiled := [] } : CompileCache3 σ) calls).1.length := by
        omega
      obtain ⟨e, he⟩ := hok _ (List.getElem_mem hi2)
      refine ⟨e, ?_⟩
      rw [← he, ← hci]
      have hiz : i < (calls.zip (CompileCache3.run MAX_DIMS compile_fn_
          ({ cache_ := [], py := py0, compiled := [] } : CompileCache3 σ) calls).1).length := by
        rw [List.length_zip]; omega
      have := List.getElem_mem hiz
      rw [List.getElem_zip] at this
      exact this
    constructor
    · intro c hc
      obtain ⟨e, he⟩ := hzip c hc
      have hf := hfind c e he
      obtain ⟨k0, hk0, hk0e⟩ := find_eq_some MAX_DIMS _ _ _ hf
      rw [hinv.1]
      exact filter_equiv_length NARGS MAX_DIMS c.1 (hlen c hc) _ hinv.2.1 hinv.2.2
        ⟨(k0, e), hk0, hk0e⟩
    · intro c1 c2 e1 e2 h1 h2 heq
      have hf1 := hfind c1 e1 h1
      have hf2 := hfind c2 e2 h2
      have hc1 : c1 ∈ calls := (List.of_mem_zip h1).1
      have hc2 : c2 ∈ calls := (List.of_mem_zip h2).1
      rw [find_congr NARGS MAX_DIMS _ c1.1 c2.1 (hlen c1 hc1) (hlen c2 hc2) hinv.2.1 heq,
        hf2] at hf1
      exact (Option.some.inj hf1).symm

/-- C5 at the vector add scenario: two calls with the same key on a fresh cache,
with a callback that would hand out a different kernel on every invocation.  The
callback is logged once for the key, both calls return the same entry, and the
final map has one entry. -/
theorem C5_at_most_one_compile_witness :
    ((CompileCache3.run 2 countingCompiler { cache_ := [], py := 0, compiled := [] }
        [(vectorAddKey, vectorAddArgs), (vectorAddKey, vectorAddArgs)]).2.compiled.filter
      (fun k => keyEquiv 2 k vectorAddKey)).length = 1 ∧
    (CompileCache3.run 2 countingCompiler { cache_ := [], py := 0, compiled := [] }
        [(vectorAddKey, vectorAddArgs), (vectorAddKey, vectorAddArgs)]).1 =
      [.ok { cg_ := some 100, shape_from_ := [(0, 0)], shape_checks_ := [],
             options_from_ := 0, objects_ := [100] },
        .ok { cg_ := some 100, shape_from_ := [(0, 0)], shape_checks_ := [],
              options_from_ := 0, objects_ := [100] }] ∧
    (CompileCache3.run 2 countingCompiler { cache_ := [], py := 0, compiled := [] }
        [(vectorAddKey, vectorAddArgs), (vectorAddKey, vectorAddArgs)]).2.cache_.length = 1 :=
  have hres : (CompileCache3.run 2 countingCompiler { cache_ := [], py := 0, compiled := [] }
        [(vectorAddKey, vectorAddArgs), (vectorAddKey, vectorAddArgs)]).1 =
      [.ok { cg_ := some 100, shape_from_ := [(0, 0)], shape_checks_ := [],
             options_from_ := 0, objects_ := [100] },
        .ok { cg_ := some 100, shape_from_ := [(0, 0)], shape_checks_ := [],
              options_from_ := 0, objects_ := [100] }] := by decide
  ⟨((C5_at_most_one_compile 3 2 countingCompiler).2.2 0
      [(vectorAddKey, vectorAddArgs), (vectorAddKey, vectorAddArgs)]
      (by decide)
      (by
        intro x hx
        rw [hres] at hx
        simp only [List.mem_cons, List.mem_singleton, List.not_mem_nil, or_false, or_self] at hx
        exact ⟨_, hx⟩)).1 (vectorAddKey, vectorAddArgs) (List.mem_cons_self _ _),
    hres, by decide⟩

/-! ## C6 -/

/-- C6: atomicity of a failed compilation.  When a key misses and the callback
raises, the error is returned to the caller, the map is the map before the call
and the key is still absent; the callback has been logged once, and the next
lookup of the same key invokes the callback again with the same description. -/
theorem C6_failed_compile_atomic {σ : Type} (MAX_DIMS : Nat) (compile_fn_ : CompileFn σ)
    (self : CompileCache3 σ) (key : List SpecializationKey) (example_ : List Tensor)
    (spec : List Description) (py : σ) (e : String)
    (hmiss : Map.find MAX_DIMS self.cache_ key = none)
    (hspec : cached_compile.spec MAX_DIMS key example_ (List.range key.length) [] = .ok spec)
    (hfail : compile_fn_ self.py spec = (py, .error e)) :
    (cached_compile MAX_DIMS compile_fn_ self key example_).1 = .error e ∧
    (cached_compile MAX_DIMS compile_fn_ self key example_).2.cache_ = self.cache_ ∧
    Map.find MAX_DIMS (cached_compile MAX_DIMS compile_fn_ self key example_).2.cache_ key =
      none ∧
    (cached_compile MAX_DIMS compile_fn_ self key example_).2.compiled =
      self.compiled ++ [key] ∧
    (cached_compile MAX_DIMS compile_fn_
      (cached_compile MAX_DIMS compile_fn_ self key example_).2 key example_).2.compiled =
      self.compiled ++ [key] ++ [key] ∧
    (cached_compile MAX_DIMS compile_fn_
      (cached_compile MAX_DIMS compile_fn_ self key example_).2 key example_).2.py =
      (compile_fn_ py spec).1 := by
  have hcc := cached_compile_miss_error MAX_DIMS compile_fn_ self key example_ spec py e
    hmiss hspec hfail
  rw [hcc]
  have hstep : ∀ (py2 : σ) (r : Except String (List ProxyCall)),
      compile_fn_ py spec = (py2, r) →
      (cached_compile MAX_DIMS compile_fn_
        { cache_ := self.cache_, py := py, compiled := self.compiled ++ [key] }
        key example_).2.compiled = self.compiled ++ [key] ++ [key] ∧
      (cached_compile MAX_DIMS compile_fn_
        { cache_ := self.cache_, py := py, compiled := self.compiled ++ [key] }
        key example_).2.py = py2 := by
    intro py2 r hc2
    cases r with
    | error e2 =>
      rw [cached_compile_miss_error MAX_DIMS compile_fn_
        { cache_ := self.cache_, py := py, compiled := self.compiled ++ [key] }
        key example_ spec py2 e2 hmiss hspec hc2]
      exact ⟨rfl, rfl⟩
    | ok calls =>
      rw [cached_compile_miss_ok MAX_DIMS compile_fn_
        { cache_ := self.cache_, py := py, compiled := self.compiled ++ [key] }
        key example_ spec py2 calls hmiss hspec hc2]
      exact ⟨rfl, rfl⟩
  have h2 := hstep (compile_fn_ py spec).1 (compile_fn_ py spec).2 rfl
  exact ⟨rfl, rfl, hmiss, rfl, h2.1, h2.2⟩

/-- C6 at the vector add scenario with a callback that raises once: the first call
fails and leaves the map empty, the second call compiles. -/
theorem C6_failed_compile_atomic_witness :
    (cached_compile 2 failingOnceCompiler { cache_ := [], py := 0, compiled := [] }
      vectorAddKey vectorAddArgs).1 = .error "compilation failed" ∧
    (cached_compile 2 failingOnceCompiler { cache_ := [], py := 0, compiled := [] }
      vectorAddKey vectorAddArgs).2.cache_ = [] ∧
    (cached_compile 2 failingOnceCompiler
      (cached_compile 2 failingOnceCompiler { cache_ := [], py := 0, compiled := [] }
        vectorAddKey vectorAddArgs).2 vectorAddKey vectorAddArgs).2.compiled =
      [vectorAddKey, vectorAddKey] ∧
    (cached_compile 2 failingOnceCompiler
      (cached_compile 2 failingOnceCompiler { cache_ := [], py := 0, compiled := [] }
        vectorAddKey vectorAddArgs).2 vectorAddKey vectorAddArgs).1 =
      .ok { cg_ := some 101, shape_from_ := [(0, 0)], shape_checks_ := [],
            options_from_ := 0, objects_ := [101] } :=
  have h := C6_failed_compile_atomic 2 failingOnceCompiler
    { cache_ := [], py := 0, compiled := [] } vectorAddKey vectorAddArgs
    [{ alias_group := 0, ndim := 1, dtype := 6, device := 0, layout := 0,
       requires_grad := false, out := false, shape := ["other"], stride := ["one"] },
     { alias_group := 0, ndim := 1, dtype := 6, device := 0, layout := 0,
       requires_grad := false, out := false, shape := ["other"], stride := ["one"] },
     { alias_group := 0, ndim := 1, dtype := 6, device := 0, layout := 0,
       requires_grad := false, out := false, shape := ["other"], stride := ["one"] }]
    1 "compilation failed" (by decide) (by decide) (by decide)
  ⟨h.1, h.2.1, h.2.2.2.2.1, by decide⟩

/-! ## Dispatchers -/

/-- The running maximum of `CompileCache2::call` is below a bound exactly when its
start value and every argument's `ndim` are. -/
theorem ndims_foldl_le (D : Nat) (args : List Tensor) :
    ∀ init, args.foldl (fun ndims item => max item.ndimension ndims) init ≤ D ↔
      init ≤ D ∧ ∀ v ∈ args, v.ndimension ≤ D := by
  induction args with
  | nil => intro init; simp
  | cons a rest ih =>
    intro init
    rw [List.foldl_cons, ih]
    constructor
    · rintro ⟨h1, h2⟩
      refine ⟨by omega, ?_⟩
      intro v hv
      rcases List.mem_cons.1 hv with h | h
      · rw [h]; omega
      · exact h2 v h
    · rintro ⟨h1, h2⟩
      have := h2 a (List.mem_cons_self _ _)
      exact ⟨by omega, fun v hv => h2 v (List.mem_cons_of_mem _ hv)⟩

/-! ## C7 -/

/-- C7: `CompileCache2::call` routes the tuple, unchanged and with the given
`has_out`, to the cache with `MAX_DIMS = D` exactly when `D` is the smallest of
2, 4, 8 that is at least every argument's `ndim`; it fails, reaching no cache,
exactly when some argument has more than 8 dimensions; and every argument handed
to the selected cache has `ndim <= MAX_DIMS`, so that the loops of `init_dimflags`
end with `out_idx = MAX_DIMS`: every write is at a slot below `MAX_DIMS`. -/
theorem C7_dim_bucket (args : List Tensor) (has_out : Bool) :
    (∀ D, CompileCache2.call args has_out =
        .ok { NARGS := args.length, MAX_DIMS := D, args := args, has_out := has_out } ↔
      ((D = 2 ∨ D = 4 ∨ D = 8) ∧ (∀ v ∈ args, v.ndimension ≤ D) ∧
        ∀ D2, (D2 = 2 ∨ D2 = 4 ∨ D2 = 8) → (∀ v ∈ args, v.ndimension ≤ D2) → D ≤ D2)) ∧
    ((∃ e, CompileCache2.call args has_out = .error e) ↔ ∃ v ∈ args, 8 < v.ndimension) ∧
    (∀ r, CompileCache2.call args has_out = .ok r →
      r.NARGS = args.length ∧ r.args = args ∧ r.has_out = has_out ∧
        (r.MAX_DIMS = 2 ∨ r.MAX_DIMS = 4 ∨ r.MAX_DIMS = 8) ∧
        ∀ v ∈ r.args, v.ndimension ≤ r.MAX_DIMS ∧
          (init_dimflags.loops r.MAX_DIMS v.sizes v.strides v.ndimension).2 = r.MAX_DIMS) := by
  have hP : ∀ D, (∀ v ∈ args, v.ndimension ≤ D) ↔
      args.foldl (fun ndims item => max item.ndimension ndims) 0 ≤ D := by
    intro D
    rw [ndims_foldl_le D args 0]
    simp
  have hW : ∀ D, (∀ v ∈ args, v.ndimension ≤ D) →
      ∀ v ∈ args, v.ndimension ≤ D ∧
        (init_dimflags.loops D v.sizes v.strides v.ndimension).2 = D := by
    intro D hall v hv
    refine ⟨hall v hv, ?_⟩
    rw [init_dimflags_loops_eq _ _ _ _ (hall v hv)]
  have hQ : (∃ v ∈ args, 8 < v.ndimension) ↔
      ¬ args.foldl (fun ndims item => max item.ndimension ndims) 0 ≤ 8 := by
    rw [← hP 8]
    push_neg
    rfl
  unfold CompileCache2.call
  simp only
  generalize args.foldl (fun ndims item => max item.ndimension ndims) 0 = m at hP hQ ⊢
  by_cases h2 : m ≤ 2
  · simp only [h2, if_true]
    refine ⟨?_, ?_, ?_⟩
    · intro D
      simp only [Except.ok.injEq, Route.mk.injEq, true_and, and_true]
      constructor
      · intro h; subst h
        exact ⟨Or.inl rfl, (hP 2).2 h2, fun D2 hD2 _ => by omega⟩
      · rintro ⟨hD, _, hmin⟩
        have := hmin 2 (Or.inl rfl) ((hP 2).2 h2)
        omega
    · rw [hQ]
      constructor
      · rintro ⟨e, he⟩; exact absurd he (by simp)
      · intro h; omega
    · intro r hr
      simp only [Except.ok.injEq] at hr
      subst hr
      exact ⟨rfl, rfl, rfl, Or.inl rfl, hW 2 ((hP 2).2 h2)⟩
  · by_cases h4 : m ≤ 4
    · simp only [h2, h4, if_true, if_false]
      refine ⟨?_, ?_, ?_⟩
      · intro D
        simp only [Except.ok.injEq, Route.mk.injEq, true_and, and_true]
        constructor
        · intro h; subst h
          refine ⟨Or.inr (Or.inl rfl), (hP 4).2 h4, fun D2 hD2 hall => ?_⟩
          have := (hP D2).1 hall
          omega
        · rintro ⟨hD, hm, hmin⟩
          have := hmin 4 (Or.inr (Or.inl rfl)) ((hP 4).2 h4)
          have := (hP D).1 hm
          omega
      · rw [hQ]
        constructor
        · rintro ⟨e, he⟩; exact absurd he (by simp)
        · intro h; omega
      · intro r hr
        simp only [Except.ok.injEq] at hr
        subst hr
        exact ⟨rfl, rfl, rfl, Or.inr (Or.inl rfl), hW 4 ((hP 4).2 h4)⟩
    · by_cases h8 : m ≤ 8
      · simp only [h2, h4, h8, if_true, if_false]
        refine ⟨?_, ?_, ?_⟩
        · intro D
          simp only [Except.ok.injEq, Route.mk.injEq, true_and, and_true]
          constructor
          · intro h; subst h
            refine ⟨Or.inr (Or.inr rfl), (hP 8).2 h8, fun D2 hD2 hall => ?_⟩
            have := (hP D2).1 hall
            omega
          · rintro ⟨hD, hm, hmin⟩
            have := hmin 8 (Or.inr (Or.inr rfl)) ((hP 8).2 h8)
            have := (hP D).1 hm
            omega
        · rw [hQ]
          constructor
          · rintro ⟨e, he⟩; exact absurd he (by simp)
          · intro h; omega
        · intro r hr
          simp only [Except.ok.injEq] at hr
          subst hr
          exact ⟨rfl, rfl, rfl, Or.inr (Or.inr rfl), hW 8 ((hP 8).2 h8)⟩
      · simp only [h2, h4, h8, if_false]
        refine ⟨?_, ?_, ?_⟩
        · intro D
          constructor
          · intro h; exact absurd h (by simp)
          · rintro ⟨hD, hm, _⟩
            have := (hP D).1 hm
            omega
        · rw [hQ]
          exact ⟨fun _ => h8, fun _ => ⟨_, rfl⟩⟩
        · intro r hr; exact absurd hr (by simp)

/-- C7 at the dimension-bucket scenario: a 3-D argument with 1-D siblings is routed
to `MAX_DIMS = 4`, with one argument promoted to 5-D to `MAX_DIMS = 8`, and a 9-D
argument is refused. -/
theorem C7_dim_bucket_witness :
    CompileCache2.call [arrayOfRank 3 1, arrayOfRank 1 2, arrayOfRank 1 3] false =
      .ok { NARGS := 3, MAX_DIMS := 4,
            args := [arrayOfRank 3 1, arrayOfRank 1 2, arrayOfRank 1 3], has_out := false } ∧
    CompileCache2.call [arrayOfRank 3 1, arrayOfRank 5 2, arrayOfRank 1 3] false =
      .ok { NARGS := 3, MAX_DIMS := 8,
            args := [arrayOfRank 3 1, arrayOfRank 5 2, arrayOfRank 1 3], has_out := false } ∧
    CompileCache2.call [arrayOfRank 9 1, arrayOfRank 1 2, arrayOfRank 1 3] false =
      .error "TODO: handle more dims" :=
  ⟨((C7_dim_bucket [arrayOfRank 3 1, arrayOfRank 1 2, arrayOfRank 1 3] false).1 4).2
      ⟨Or.inr (Or.inl rfl), by decide, by
        intro D2 hD2 hall
        have := hall (arrayOfRank 3 1) (List.mem_cons_self _ _)
        have h3 : (arrayOfRank 3 1).ndimension = 3 := by decide
        omega⟩,
    by decide, by decide⟩

/-! ## C8 -/

/-- C8: `CompileCache::call` fails, reaching no cache, whenever the number of
positional plus keyword arguments is not in 1..4, whenever more than one keyword
is given, and whenever the single keyword is not `out`.  In every other case it
does not fail at this step: with no keyword it hands the positional tuple to the
arity dispatcher with `has_out = false`, and with the single keyword `out` it
hands over the positional arguments followed by the `out` tensor with
`has_out = true`. -/
theorem C8_argument_validation (args : List Tensor) (kwargs : List (String × Tensor)) :
    ((args.length + kwargs.length < 1 ∨ 4 < args.length + kwargs.length ∨ 1 < kwargs.length ∨
        ∃ name x, kwargs = [(name, x)] ∧ name ≠ "out") →
      ∃ e, CompileCache.call args kwargs = .error e) ∧
    (kwargs = [] → 1 ≤ args.length → args.length ≤ 4 →
      CompileCache.call args kwargs = CompileCache2.call args false) ∧
    (∀ x, kwargs = [("out", x)] → args.length + 1 ≤ 4 →
      CompileCache.call args kwargs = CompileCache2.call (args ++ [x]) true) := by
  refine ⟨?_, ?_, ?_⟩
  · intro h
    cases hl : CompileCache.last_arg args kwargs with
    | error e => exact ⟨e, by unfold CompileCache.call; simp only [hl]⟩
    | ok last =>
      rcases h with h | h | h | ⟨name, x, hk, hne⟩
      · exfalso
        have ha : args = [] := List.length_eq_zero.1 (by omega)
        have hk : kwargs = [] := List.length_eq_zero.1 (by omega)
        subst ha; subst hk
        have he : CompileCache.last_arg [] [] = .error "IndexError: tuple index out of range" := by
          decide
        rw [he] at hl
        exact absurd hl (by simp)
      · refine ⟨"TODO: handle other arg counts", ?_⟩
        unfold CompileCache.call
        simp only [hl]
        have h1 : ¬ ((args.length : Int) + (kwargs.length : Int) = 1) := by omega
        have h2 : ¬ ((args.length : Int) + (kwargs.length : Int) = 2) := by omega
        have h3 : ¬ ((args.length : Int) + (kwargs.length : Int) = 3) := by omega
        have h4 : ¬ ((args.length : Int) + (kwargs.length : Int) = 4) := by omega
        simp only [h1, h2, h3, h4, if_false]
      · exfalso
        unfold CompileCache.last_arg at hl
        have h1 : ¬ ((kwargs.length : Int) = 1) := by omega
        have h2 : (kwargs.length : Int) > 1 := by omega
        simp only [h1, h2, if_true, if_false] at hl
        exact absurd hl (by simp)
      · exfalso
        subst hk
        unfold CompileCache.last_arg kwargsOut at hl
        have hb : ("out" == name) = false := by
          rw [beq_eq_false_iff_ne]
          exact fun h => hne h.symm
        simp [List.lookup, hb] at hl
  · intro hk h1 h4
    subst hk
    rcases args with _ | ⟨a, _ | ⟨b, _ | ⟨c, _ | ⟨d, _ | ⟨e, rest⟩⟩⟩⟩⟩
    · simp at h1
    · rfl
    · rfl
    · rfl
    · rfl
    · simp only [List.length_cons] at h4; omega
  · intro x hk h4
    subst hk
    rcases args with _ | ⟨a, _ | ⟨b, _ | ⟨c, _ | ⟨d, rest⟩⟩⟩⟩
    · rfl
    · rfl
    · rfl
    · rfl
    · simp only [List.length_cons] at h4; omega

/-- C8 on concrete calls: no argument, five arguments, two keywords and a keyword
other than `out` are refused; a keyword `out` after three positional arguments is
accepted as the last element of an arity-4 tuple with `has_out = true`. -/
theorem C8_argument_validation_witness :
    (∃ e, CompileCache.call [] [] = .error e) ∧
    (∃ e, CompileCache.call [broadcastA, broadcastA, broadcastA, broadcastA, broadcastA] [] =
      .error e) ∧
    (∃ e, CompileCache.call [broadcastA] [("out", broadcastOut), ("other", broadcastB)] =
      .error e) ∧
    (∃ e, CompileCache.call [broadcastA] [("result", broadcastOut)] = .error e) ∧
    CompileCache.call [broadcastA, broadcastB, broadcastA] [("out", broadcastOut)] =
      .ok { NARGS := 4, MAX_DIMS := 2,
            args := [broadcastA, broadcastB, broadcastA, broadcastOut], has_out := true } :=
  ⟨(C8_argument_validation [] []).1 (Or.inl (by decide)),
    (C8_argument_validation [broadcastA, broadcastA, broadcastA, broadcastA, broadcastA] []).1
      (Or.inr (Or.inl (by decide))),
    (C8_argument_validation [broadcastA] [("out", broadcastOut), ("other", broadcastB)]).1
      (Or.inr (Or.inr (Or.inl (by decide)))),
    (C8_argument_validation [broadcastA] [("result", broadcastOut)]).1
      (Or.inr (Or.inr (Or.inr ⟨"result", broadcastOut, rfl, by decide⟩))),
    by decide⟩

/-! ## C9 -/

/-- The packed flags are a 16-bit value. -/
theorem pack_flags_lt (E : EnumCounts) (v : Tensor) (is_out : Bool) :
    pack_flags E v is_out < 65536 := by
  unfold pack_flags
  exact Nat.mod_lt _ (by decide)

/-- The `is_out` bit changes the packed flags. -/
theorem pack_flags_out_ne (E : EnumCounts) (v : Tensor) :
    pack_flags E v true ≠ pack_flags E v false := by
  unfold pack_flags
  simp only [Bool.toNat_true, Bool.toNat_false]
  omega

/-- Keys with different flags do not compare equal. -/
theorem cmp_ne_zero_of_flags (MAX_DIMS : Nat) (k k2 : SpecializationKey)
    (hf : k.flags_ < 65536) (hf2 : k2.flags_ < 65536) (hne : k.flags_ ≠ k2.flags_) :
    k.cmp MAX_DIMS k2 ≠ 0 := by
  intro h
  unfold SpecializationKey.cmp at h
  rw [memcmp_eq_zero_iff] at h
  have h0 := h 0 (by omega)
  have h1 := h 1 (by omega)
  simp only [SpecializationKey.bytes, List.cons_append, List.nil_append, List.getD_cons_zero,
    List.getD_cons_succ] at h0 h1
  exact hne (by omega)

/-- C9, amended: a call with two positional arguments `(a, b)` and keyword `out = X`
and a call with three positional arguments `(a, b, X)` both normalize to the
arity-3 tuple `(a, b, X)` and reach the same `MAX_DIMS` bucket, but with
`has_out = true` for the keyword call and `has_out = false` for the positional
call.  Their key tuples agree on the first two keys and on the alias group and
dimflags of the third, and differ in the flags of the third (the `is_out` bit), so
the two key tuples are not equivalent and do not select the same map entry. -/
theorem C9_out_keyword_amended (E : EnumCounts) (a b X : Tensor) :
    CompileCache.call [a, b] [("out", X)] = CompileCache2.call [a, b, X] true ∧
    CompileCache.call [a, b, X] [] = CompileCache2.call [a, b, X] false ∧
    (∀ r1 r2, CompileCache.call [a, b] [("out", X)] = .ok r1 →
      CompileCache.call [a, b, X] [] = .ok r2 →
      r1.NARGS = 3 ∧ r2.NARGS = 3 ∧ r1.MAX_DIMS = r2.MAX_DIMS ∧ r1.args = [a, b, X] ∧
        r2.args = [a, b, X] ∧ r1.has_out = true ∧ r2.has_out = false) ∧
    (∀ MAX_DIMS,
      (compute_cache_key E MAX_DIMS [a, b, X] true).getD 0 default =
        (compute_cache_key E MAX_DIMS [a, b, X] false).getD 0 default ∧
      (compute_cache_key E MAX_DIMS [a, b, X] true).getD 1 default =
        (compute_cache_key E MAX_DIMS [a, b, X] false).getD 1 default ∧
      ((compute_cache_key E MAX_DIMS [a, b, X] true).getD 2 default).alias_group_ =
        ((compute_cache_key E MAX_DIMS [a, b, X] false).getD 2 default).alias_group_ ∧
      ((compute_cache_key E MAX_DIMS [a, b, X] true).getD 2 default).dimflags_ =
        ((compute_cache_key E MAX_DIMS [a, b, X] false).getD 2 default).dimflags_ ∧
      ((compute_cache_key E MAX_DIMS [a, b, X] true).getD 2 default).flags_ ≠
        ((compute_cache_key E MAX_DIMS [a, b, X] false).getD 2 default).flags_ ∧
      keyEquiv MAX_DIMS (compute_cache_key E MAX_DIMS [a, b, X] true)
        (compute_cache_key E MAX_DIMS [a, b, X] false) = false) := by
  have hkw : CompileCache.call [a, b] [("out", X)] = CompileCache2.call [a, b, X] true := rfl
  have hpos : CompileCache.call [a, b, X] [] = CompileCache2.call [a, b, X] false := rfl
  refine ⟨hkw, hpos, ?_, ?_⟩
  · intro r1 r2 h1 h2
    rw [hkw] at h1
    rw [hpos] at h2
    unfold CompileCache2.call at h1 h2
    simp only at h1 h2
    split_ifs at h1 h2 <;>
      simp only [Except.ok.injEq, reduceCtorEq] at h1 h2 <;>
      subst h1 <;> subst h2 <;> exact ⟨rfl, rfl, rfl, rfl, rfl, rfl, rfl⟩
  · intro MAX_DIMS
    have h0t := compute_cache_key_getD E MAX_DIMS [a, b, X] true 0 (by simp)
    have h0f := compute_cache_key_getD E MAX_DIMS [a, b, X] false 0 (by simp)
    have h1t := compute_cache_key_getD E MAX_DIMS [a, b, X] true 1 (by simp)
    have h1f := compute_cache_key_getD E MAX_DIMS [a, b, X] false 1 (by simp)
    have h2t := compute_cache_key_getD E MAX_DIMS [a, b, X] true 2 (by simp)
    have h2f := compute_cache_key_getD E MAX_DIMS [a, b, X] false 2 (by simp)
    have e0 : ∀ o, argIsOut [a, b, X].length 0 o = false := by intro o; cases o <;> rfl
    have e1 : ∀ o, argIsOut [a, b, X].length 1 o = false := by intro o; cases o <;> rfl
    have e2 : ∀ o, argIsOut [a, b, X].length 2 o = o := by intro o; cases o <;> rfl
    rw [e0] at h0t h0f
    rw [e1] at h1t h1f
    rw [e2] at h2t h2f
    have hflags : ((compute_cache_key E MAX_DIMS [a, b, X] true).getD 2 default).flags_ ≠
        ((compute_cache_key E MAX_DIMS [a, b, X] false).getD 2 default).flags_ := by
      rw [h2t, h2f]
      exact pack_flags_out_ne E _
    refine ⟨by rw [h0t, h0f], by rw [h1t, h1f], by rw [h2t, h2f]; rfl, by rw [h2t, h2f]; rfl,
      hflags, ?_⟩
    cases hk : keyEquiv MAX_DIMS (compute_cache_key E MAX_DIMS [a, b, X] true)
        (compute_cache_key E MAX_DIMS [a, b, X] false) with
    | false => rfl
    | true =>
      exfalso
      rw [keyEquiv_iff _ _ _ (by rw [compute_cache_key_length, compute_cache_key_length])] at hk
      have h2 := hk 2 (by rw [compute_cache_key_length]; simp)
      refine cmp_ne_zero_of_flags MAX_DIMS _ _ ?_ ?_ hflags h2
      · rw [h2t]; exact pack_flags_lt E _ _
      · rw [h2f]; exact pack_flags_lt E _ _

/-- C9 fails as stated: in the broadcast scenario the keyword call is dispatched with
`has_out = true` and the positional call with `has_out = false`, so the two calls are
not dispatched identically, and their key tuples are not equivalent. -/
theorem C9_out_keyword_counterexample :
    CompileCache.call [broadcastA, broadcastB] [("out", broadcastOut)] =
      .ok { NARGS := 3, MAX_DIMS := 2, args := [broadcastA, broadcastB, broadcastOut],
            has_out := true } ∧
    CompileCache.call [broadcastA, broadcastB, broadcastOut] [] =
      .ok { NARGS := 3, MAX_DIMS := 2, args := [broadcastA, broadcastB, broadcastOut],
            has_out := false } ∧
    CompileCache.call [broadcastA, broadcastB] [("out", broadcastOut)] ≠
      CompileCache.call [broadcastA, broadcastB, broadcastOut] [] ∧
    keyEquiv 2 (compute_cache_key scenarioCounts 2 [broadcastA, broadcastB, broadcastOut] true)
      (compute_cache_key scenarioCounts 2 [broadcastA, broadcastB, broadcastOut] false) =
      false := by
  decide

/-- C9, amended, at the broadcast scenario. -/
theorem C9_out_keyword_amended_witness :
    ((compute_cache_key scenarioCounts 2 [broadcastA, broadcastB, broadcastOut] true).getD 2
        default).flags_ ≠
      ((compute_cache_key scenarioCounts 2 [broadcastA, broadcastB, broadcastOut] false).getD 2
        default).flags_ ∧
    keyEquiv 2 (compute_cache_key scenarioCounts 2 [broadcastA, broadcastB, broadcastOut] true)
      (compute_cache_key scenarioCounts 2 [broadcastA, broadcastB, broadcastOut] false) =
      false :=
  ⟨((C9_out_keyword_amended scenarioCounts broadcastA broadcastB broadcastOut).2.2.2 2).2.2.2.2.1,
    ((C9_out_keyword_amended scenarioCounts broadcastA broadcastB broadcastOut).2.2.2 2).2.2.2.2.2⟩

/-! ## C10 -/

/-- The lowest bit of the packed flags is `is_out`. -/
theorem pack_flags_mod_two (E : EnumCounts) (v : Tensor) (is_out : Bool) :
    pack_flags E v is_out % 2 = is_out.toNat := by
  have hdef : pack_flags E v is_out =
      (is_out.toNat + 2 * v.requires_grad.toNat + 4 * (v.dtype % 65536) +
        (4 * E.scalarTypes) % 65536 * (v.layout % 65536) +
        ((4 * E.scalarTypes) % 65536 * E.layouts) % 65536 * (v.device % 65536)) % 65536 := by
    unfold pack_flags
    simp only [Nat.one_mul]
  rw [hdef]
  have h3 : 2 ∣ (4 * E.scalarTypes) % 65536 := by omega
  have h3x : 2 ∣ (4 * E.scalarTypes) % 65536 * (v.layout % 65536) := Dvd.dvd.mul_right h3 _
  have h4 : 2 ∣ ((4 * E.scalarTypes) % 65536 * E.layouts) % 65536 := by
    have : 2 ∣ (4 * E.scalarTypes) % 65536 * E.layouts := Dvd.dvd.mul_right h3 _
    omega
  have h4x : 2 ∣ ((4 * E.scalarTypes) % 65536 * E.layouts) % 65536 * (v.device % 65536) :=
    Dvd.dvd.mul_right h4 _
  have hb : is_out.toNat < 2 := by cases is_out <;> simp
  omega

/-- The description of the key of a 1-D argument of extent other than 1 and stride 1
in the `MAX_DIMS = 2` bucket. -/
theorem to_python_vector (E : EnumCounts) (v : Tensor) (n : Int) (hs : v.sizes = [n])
    (hn : n ≠ 1) (hst : v.strides = [1]) (is_out : Bool) :
    (SpecializationKey.new E 2 v 0 is_out).to_python 2 v = .ok (vectorDescription v is_out) := by
  have hdim : init_dimflags 2 v.sizes v.strides v.ndimension =
      [SIZE_OTHER ||| STRIDE_ONE, SIZE_MISSING ||| STRIDE_ZERO] := by
    have hnd : v.ndimension = 1 := by unfold Tensor.ndimension; rw [hs]; rfl
    rw [init_dimflags_eq 2 _ _ _ (by omega), hnd, hs, hst]
    have hf : init_dimflags.flag [n] [1] 0 = SIZE_OTHER ||| STRIDE_ONE := by
      unfold init_dimflags.flag
      simp [hn]
    show [init_dimflags.flag [n] [1] 0] ++ [SIZE_MISSING ||| STRIDE_ZERO] = _
    rw [hf]
    rfl
  have hout : decide (pack_flags E v is_out % 2 ≠ 0) = is_out := by
    rw [pack_flags_mod_two]
    cases is_out <;> rfl
  unfold SpecializationKey.to_python SpecializationKey.stride SpecializationKey.shape
    SpecializationKey.new vectorDescription
  simp only [hdim, hout]
  rfl

/-- C10, amended: for every call with exactly three positional arguments and no
keyword, where each argument is 1-D with extent greater than 1 and stride 1 and no
two arguments alias, the dispatcher routes to the arity-3 / `MAX_DIMS = 2` cache
with `has_out = false`, and the description built for the compiler has, for each
of the three arguments, `alias_group = 0`, `shape = ["other"]`, `stride = ["one"]`
and `out = false` (also on the last entry); on a miss the callback is applied to
exactly this description.  (`CompileCache3::call`, lines 316-317, passes
`compute_cache_key(args, has_out)` and `args` to `cached_compile`.) -/
theorem C10_vector_add_amended (E : EnumCounts) (a b c : Tensor) (na nb nc : Int)
    (ha : a.sizes = [na] ∧ 1 < na ∧ a.strides = [1])
    (hb : b.sizes = [nb] ∧ 1 < nb ∧ b.strides = [1])
    (hc : c.sizes = [nc] ∧ 1 < nc ∧ c.strides = [1])
    (hab : a.is_alias_of b = false) (hac : a.is_alias_of c = false)
    (hbc : b.is_alias_of c = false) :
    CompileCache.call [a, b, c] [] =
      .ok { NARGS := 3, MAX_DIMS := 2, args := [a, b, c], has_out := false } ∧
    compute_alias_groups Tensor.is_alias_of Tensor.is_set_to [a, b, c] = [0, 0, 0] ∧
    cached_compile.spec 2 (compute_cache_key E 2 [a, b, c] false) [a, b, c]
        (List.range (compute_cache_key E 2 [a, b, c] false).length) [] =
      .ok [vectorDescription a false, vectorDescription b false, vectorDescription c false] ∧
    (∀ (σ : Type) (compile_fn_ : CompileFn σ) (self : CompileCache3 σ),
      Map.find 2 self.cache_ (compute_cache_key E 2 [a, b, c] false) = none →
      (cached_compile 2 compile_fn_ self (compute_cache_key E 2 [a, b, c] false)
          [a, b, c]).2.py =
        (compile_fn_ self.py
          [vectorDescription a false, vectorDescription b false,
            vectorDescription c false]).1 ∧
      (cached_compile 2 compile_fn_ self (compute_cache_key E 2 [a, b, c] false)
          [a, b, c]).2.compiled =
        self.compiled ++ [compute_cache_key E 2 [a, b, c] false]) := by
  have heq := tensor_alias_equiv [a, b, c]
  have hsymm : ∀ x y : Tensor, x.is_alias_of y = false → y.is_alias_of x = false := by
    intro x y h
    simp only [Tensor.is_alias_of, beq_eq_false_iff_ne, ne_eq] at h ⊢
    exact fun h2 => h h2.symm
  have hlenG := compute_alias_groups_length Tensor.is_alias_of Tensor.is_set_to [a, b, c] heq
  have hg0 : (compute_alias_groups Tensor.is_alias_of Tensor.is_set_to [a, b, c]).getD 0 0 = 0 := by
    apply no_alias_zero _ _ _ heq 0 (by simp)
    intro j hj hne
    have : j = 1 ∨ j = 2 := by simp only [List.length_cons, List.length_nil] at hj; omega
    rcases this with h | h <;> subst h
    · exact hab
    · exact hac
  have hg1 : (compute_alias_groups Tensor.is_alias_of Tensor.is_set_to [a, b, c]).getD 1 0 = 0 := by
    apply no_alias_zero _ _ _ heq 1 (by simp)
    intro j hj hne
    have : j = 0 ∨ j = 2 := by simp only [List.length_cons, List.length_nil] at hj; omega
    rcases this with h | h <;> subst h
    · exact hsymm _ _ hab
    · exact hbc
  have hg2 : (compute_alias_groups Tensor.is_alias_of Tensor.is_set_to [a, b, c]).getD 2 0 = 0 := by
    apply no_alias_zero _ _ _ heq 2 (by simp)
    intro j hj hne
    have : j = 0 ∨ j = 1 := by simp only [List.length_cons, List.length_nil] at hj; omega
    rcases this with h | h <;> subst h
    · exact hsymm _ _ hac
    · exact hsymm _ _ hbc
  have hG : compute_alias_groups Tensor.is_alias_of Tensor.is_set_to [a, b, c] = [0, 0, 0] := by
    apply List.ext_getElem (by rw [hlenG]; rfl)
    intro i h1 h2
    have hi : i < 3 := by rw [hlenG] at h1; exact h1
    have hi3 : i = 0 ∨ i = 1 ∨ i = 2 := by omega
    rcases hi3 with h | h | h <;> subst h
    · rw [← List.getD_eq_getElem _ 0 h1, hg0]; rfl
    · rw [← List.getD_eq_getElem _ 0 h1, hg1]; rfl
    · rw [← List.getD_eq_getElem _ 0 h1, hg2]; rfl
  have hspec : cached_compile.spec 2 (compute_cache_key E 2 [a, b, c] false) [a, b, c]
        (List.range (compute_cache_key E 2 [a, b, c] false).length) [] =
      .ok [vectorDescription a false, vectorDescription b false,
        vectorDescription c false] := by
    have hk0 := compute_cache_key_getD E 2 [a, b, c] false 0 (by simp)
    have hk1 := compute_cache_key_getD E 2 [a, b, c] false 1 (by simp)
    have hk2 := compute_cache_key_getD E 2 [a, b, c] false 2 (by simp)
    rw [hg0] at hk0
    rw [hg1] at hk1
    rw [hg2] at hk2
    have e0 : argIsOut [a, b, c].length 0 false = false := rfl
    have e1 : argIsOut [a, b, c].length 1 false = false := rfl
    have e2 : argIsOut [a, b, c].length 2 false = false := rfl
    rw [e0] at hk0
    rw [e1] at hk1
    rw [e2] at hk2
    have hr : List.range (compute_cache_key E 2 [a, b, c] false).length = [0, 1, 2] := by
      rw [compute_cache_key_length]
      rfl
    rw [hr]
    unfold cached_compile.spec
    rw [hk0]
    simp only [List.getD_cons_zero]
    rw [to_python_vector E a na ha.1 (by omega) ha.2.2 false]
    simp only
    unfold cached_compile.spec
    rw [hk1]
    simp only [List.getD_cons_succ, List.getD_cons_zero]
    rw [to_python_vector E b nb hb.1 (by omega) hb.2.2 false]
    simp only
    unfold cached_compile.spec
    rw [hk2]
    simp only [List.getD_cons_succ, List.getD_cons_zero]
    rw [to_python_vector E c nc hc.1 (by omega) hc.2.2 false]
    simp only
    unfold cached_compile.spec
    rfl
  refine ⟨?_, hG, hspec, ?_⟩
  · have hroute : CompileCache.call [a, b, c] [] = CompileCache2.call [a, b, c] false := rfl
    rw [hroute]
    unfold CompileCache2.call
    have hna : a.ndimension = 1 := by unfold Tensor.ndimension; rw [ha.1]; rfl
    have hnb : b.ndimension = 1 := by unfold Tensor.ndimension; rw [hb.1]; rfl
    have hnc : c.ndimension = 1 := by unfold Tensor.ndimension; rw [hc.1]; rfl
    simp [hna, hnb, hnc]
  · intro σ compile_fn_ self hmiss
    rcases hcb : compile_fn_ self.py
      [vectorDescription a false, vectorDescription b false, vectorDescription c false] with
      ⟨py, r⟩
    cases r with
    | error e =>
      rw [cached_compile_miss_error 2 compile_fn_ self _ _ _ py e hmiss hspec hcb]
      exact ⟨rfl, rfl⟩
    | ok calls =>
      rw [cached_compile_miss_ok 2 compile_fn_ self _ _ _ py calls hmiss hspec hcb]
      exact ⟨rfl, rfl⟩

/-- C10 fails as stated: in the contiguous vector add scenario (three 1-D arrays of
extent 1000, stride 1, no aliasing, no `out` keyword) the call is routed to the
arity-3 / `MAX_DIMS = 2` cache, and the description handed to the compiler has
`out = false` on the last entry, not `out = true`. -/
theorem C10_vector_add_counterexample :
    CompileCache.call vectorAddArgs [] =
      .ok { NARGS := 3, MAX_DIMS := 2, args := vectorAddArgs, has_out := false } ∧
    cached_compile.spec 2 (compute_cache_key scenarioCounts 2 vectorAddArgs false) vectorAddArgs
        (List.range 3) [] =
      .ok [{ alias_group := 0, ndim := 1, dtype := 6, device := 0, layout := 0,
             requires_grad := false, out := false, shape := ["other"], stride := ["one"] },
           { alias_group := 0, ndim := 1, dtype := 6, device := 0, layout := 0,
             requires_grad := false, out := false, shape := ["other"], stride := ["one"] },
           { alias_group := 0, ndim := 1, dtype := 6, device := 0, layout := 0,
             requires_grad := false, out := false, shape := ["other"], stride := ["one"] }] ∧
    ((compute_cache_key scenarioCounts 2 vectorAddArgs false).getD 2 default).to_python 2
        (vectorAddArgs.getD 2 default) ≠
      .ok { alias_group := 0, ndim := 1, dtype := 6, device := 0, layout := 0,
            requires_grad := false, out := true, shape := ["other"], stride := ["one"] } := by
  decide

/-- C10, amended, at the contiguous vector add scenario. -/
theorem C10_vector_add_amended_witness :
    CompileCache.call [vector1000 1, vector1000 2, vector1000 3] [] =
      .ok { NARGS := 3, MAX_DIMS := 2, args := [vector1000 1, vector1000 2, vector1000 3],
            has_out := false } ∧
    compute_alias_groups Tensor.is_alias_of Tensor.is_set_to
      [vector1000 1, vector1000 2, vector1000 3] = [0, 0, 0] ∧
    cached_compile.spec 2
        (compute_cache_key scenarioCounts 2 [vector1000 1, vector1000 2, vector1000 3] false)
        [vector1000 1, vector1000 2, vector1000 3]
        (List.range (compute_cache_key scenarioCounts 2
          [vector1000 1, vector1000 2, vector1000 3] false).length) [] =
      .ok [vectorDescription (vector1000 1) false, vectorDescription (vector1000 2) false,
        vectorDescription (vector1000 3) false] :=
  have h := C10_vector_add_amended scenarioCounts (vector1000 1) (vector1000 2) (vector1000 3)
    1000 1000 1000 ⟨rfl, by decide, rfl⟩ ⟨rfl, by decide, rfl⟩ ⟨rfl, by decide, rfl⟩
    (by decide) (by decide) (by decide)
  ⟨h.1, h.2.1, h.2.2.1⟩

/-! ## Invocation of a compiled entry -/

/-- `size` returns the extent for a dimension index in range. -/
theorem size_ok (v : Tensor) (d : Int) (h1 : -(v.ndimension : Int) ≤ d)
    (h2 : d < v.ndimension) : ∃ n, v.size d = .ok n := by
  unfold Tensor.size
  by_cases h : 0 ≤ d ∧ d < v.ndimension
  · exact ⟨_, if_pos h⟩
  · rw [if_neg h, if_pos ⟨h1, by omega⟩]
    exact ⟨_, rfl⟩

/-- For a dimension index that is a natural number below `ndim`, `size` is the entry
of `sizes`. -/
theorem size_nat (v : Tensor) (d : Nat) (h : d < v.ndimension) :
    v.size (d : Int) = .ok (v.sizes.getD d 0) := by
  unfold Tensor.size
  rw [if_pos ⟨Int.ofNat_nonneg d, by exact_mod_cast h⟩]
  rfl

/-- A valid pair at index `i` of `shape_from`. -/
theorem ShapeFromValid.at (shape_from_ : List (Int × Int)) (args : List Tensor)
    (hv : ShapeFromValid shape_from_ args) (i : Nat) (hi : i < shape_from_.length) :
    0 ≤ (shape_from_.getD i (0, 0)).1 ∧ (shape_from_.getD i (0, 0)).1 < args.length ∧
      (args.getD (shape_from_.getD i (0, 0)).1.toNat default).size
        (shape_from_.getD i (0, 0)).2 = .ok (shapeValue shape_from_ args i) := by
  have hm : shape_from_.getD i (0, 0) ∈ shape_from_ := by
    rw [List.getD_eq_getElem _ _ hi]
    exact List.getElem_mem _
  obtain ⟨h1, h2, h3, h4⟩ := hv _ hm
  refine ⟨h1, h2, ?_⟩
  obtain ⟨n, hn⟩ := size_ok _ _ h3 h4
  unfold shapeValue
  rw [hn]

/-- Closed form of the loop of `CompileResultImpl::call` on a run of indices: the
slots of the run receive their extents and the addresses of the slots are appended
to the pointer list. -/
theorem call_loop_range' (MAX_DIMS : Nat) (shape_from_ : List (Int × Int)) (args : List Tensor)
    (hv : ShapeFromValid shape_from_ args) (m : Nat) :
    ∀ (k : Nat) (S : List Int) (L : List RawPtr), k + m ≤ shape_from_.length →
      k + m ≤ MAX_DIMS → S.length = MAX_DIMS →
      CompileResultImpl.call.loop MAX_DIMS shape_from_ args (List.range' k m) (S, L) =
        .ok (S.take k ++ (List.range' k m).map (shapeValue shape_from_ args) ++ S.drop (k + m),
          L ++ (List.range' k m).map RawPtr.shapes) := by
  induction m with
  | zero =>
    intro k S L _ _ _
    simp [CompileResultImpl.call.loop]
  | succ m ih =>
    intro k S L h1 h2 hS
    obtain ⟨ha0, ha1, hsz⟩ := ShapeFromValid.at shape_from_ args hv k (by omega)
    have hk : k < S.length := by omega
    rw [List.range'_succ]
    unfold CompileResultImpl.call.loop
    rw [if_neg (by omega)]
    simp only [hsz]
    rw [if_neg (by omega), ih (k + 1) _ _ (by omega) (by omega) (by rw [List.length_set]; exact hS)]
    have e1 : List.take (k + 1) (S.set k (shapeValue shape_from_ args k)) =
        S.take k ++ [shapeValue shape_from_ args k] := by
      rw [List.set_eq_take_append_cons_drop, if_pos hk, List.take_append_eq_append_take]
      simp [List.length_take, Nat.min_eq_left (Nat.le_of_lt hk)]
    have e2 : List.drop (k + 1 + m) (S.set k (shapeValue shape_from_ args k)) =
        S.drop (k + (m + 1)) := by
      rw [List.drop_set_of_lt _ _ (by omega)]
      congr 1; omega
    rw [e1, e2]
    simp [List.append_assoc]

/-- The loop of `CompileResultImpl::call` on a valid `shape_from` of at most
`MAX_DIMS` pairs, started as `CompileCache3::call` starts it. -/
theorem call_loop_eq (MAX_DIMS : Nat) (shape_from_ : List (Int × Int)) (args : List Tensor)
    (hv : ShapeFromValid shape_from_ args) (hK : shape_from_.length ≤ MAX_DIMS)
    (L : List RawPtr) :
    CompileResultImpl.call.loop MAX_DIMS shape_from_ args (List.range shape_from_.length)
        (List.replicate MAX_DIMS 0, L) =
      .ok (kernelShapes MAX_DIMS shape_from_ args,
        L ++ (List.range shape_from_.length).map RawPtr.shapes) := by
  rw [List.range_eq_range', call_loop_range' MAX_DIMS shape_from_ args hv _ 0 _ L (by omega)
    (by omega) (List.length_replicate _ _)]
  unfold kernelShapes
  simp [List.range_eq_range']

/-- The invocation of a configured entry with a valid `shape_from`: the kernel is
called on the pointer list and on the filled buffer, and `args[2]` is returned when
the kernel returns. -/
theorem call_eq (MAX_DIMS : Nat) (call_raw : CallRaw) (self : CompileResultImpl)
    (args : List Tensor) (cg : Nat) (hcg : self.cg_ = some cg)
    (hv : ShapeFromValid self.shape_from_ args) (hK : self.shape_from_.length ≤ MAX_DIMS) :
    self.call MAX_DIMS call_raw args (args.map (fun arg => RawPtr.data arg.data_ptr)) =
      match call_raw cg (kernelArgs args self.shape_from_.length)
          (kernelShapes MAX_DIMS self.shape_from_ args) with
      | .error e => .error e
      | .ok _ =>
        match args[2]? with
        | some v => .ok v
        | none => .error "undefined behaviour: args[2] outside args" := by
  unfold CompileResultImpl.call
  rw [call_loop_eq MAX_DIMS _ args hv hK]
  simp only [hcg]
  rfl

/-! ## C11 -/

/-- C11: for an argument tuple of arity `N` and a configured entry (kernel set)
whose `shape_from` has `K <= MAX_DIMS` pairs, each naming an argument of the tuple
and a dimension of that argument, the list passed to `call_raw` has length
`N + K`; its first `N` elements are the data pointers of `args[0..N-1]` in order;
element `N + i` is the address of slot `i` of `shapes`, and when the kernel is
called that slot holds `args[a_i].size(d_i)`.  The invocation is the call of the
kernel on exactly this list and buffer, also when reached through
`CompileCache3::call`. -/
theorem C11_kernel_argument_list (MAX_DIMS : Nat) (call_raw : CallRaw)
    (self : CompileResultImpl) (args : List Tensor) (cg : Nat) (hcg : self.cg_ = some cg)
    (hK : self.shape_from_.length ≤ MAX_DIMS)
    (hvalid : ShapeFromValid self.shape_from_ args) :
    (kernelArgs args self.shape_from_.length).length = args.length + self.shape_from_.length ∧
    (∀ j, j < args.length →
      (kernelArgs args self.shape_from_.length).getD j (RawPtr.data 0) =
        RawPtr.data (args.getD j default).data_ptr) ∧
    (∀ i, i < self.shape_from_.length →
      (kernelArgs args self.shape_from_.length).getD (args.length + i) (RawPtr.data 0) =
        RawPtr.shapes i ∧
      (args.getD (self.shape_from_.getD i (0, 0)).1.toNat default).size
          (self.shape_from_.getD i (0, 0)).2 =
        .ok ((kernelShapes MAX_DIMS self.shape_from_ args).getD i 0)) ∧
    self.call MAX_DIMS call_raw args (args.map (fun arg => RawPtr.data arg.data_ptr)) =
      (match call_raw cg (kernelArgs args self.shape_from_.length)
          (kernelShapes MAX_DIMS self.shape_from_ args) with
      | .error e => .error e
      | .ok _ =>
        match args[2]? with
        | some v => .ok v
        | none => .error "undefined behaviour: args[2] outside args") ∧
    (∀ (σ : Type) (E : EnumCounts) (compile_fn_ : CompileFn σ) (s : CompileCache3 σ)
        (has_out : Bool),
      (cached_compile MAX_DIMS compile_fn_ s (compute_cache_key E MAX_DIMS args has_out)
        args).1 = .ok self →
      (CompileCache3.call E MAX_DIMS compile_fn_ call_raw s args has_out).1 =
        (match call_raw cg (kernelArgs args self.shape_from_.length)
            (kernelShapes MAX_DIMS self.shape_from_ args) with
        | .error e => .error e
        | .ok _ =>
          match args[2]? with
          | some v => .ok v
          | none => .error "undefined behaviour: args[2] outside args")) := by
  have hcall := call_eq MAX_DIMS call_raw self args cg hcg hvalid hK
  refine ⟨?_, ?_, ?_, hcall, ?_⟩
  · simp [kernelArgs]
  · intro j hj
    unfold kernelArgs
    rw [List.getD_append _ _ _ _ (by simpa using hj), List.getD_eq_getElem _ _ (by simpa using hj),
      List.getElem_map, List.getD_eq_getElem _ _ hj]
  · intro i hi
    constructor
    · unfold kernelArgs
      rw [List.getD_append_right _ _ _ _ (by simp)]
      simp only [List.length_map, Nat.add_sub_cancel_left]
      rw [List.getD_eq_getElem _ _ (by simpa using hi), List.getElem_map, List.getElem_range]
    · rw [(ShapeFromValid.at _ _ hvalid i hi).2.2]
      unfold kernelShapes
      rw [List.getD_append _ _ _ _ (by simpa using hi),
        List.getD_eq_getElem _ _ (by simpa using hi), List.getElem_map, List.getElem_range]
  · intro σ E compile_fn_ s has_out hcc
    unfold CompileCache3.call
    simp only [hcc]
    exact hcall

/-- C11 at the broadcast scenario: arity 3, `MAX_DIMS = 2`, `shape_from` of two
pairs.  The kernel receives the three data pointers followed by the addresses of
slots 0 and 1, which hold the extents 4 and 8. -/
theorem C11_kernel_argument_list_witness :
    (kernelArgs [broadcastA, broadcastB, broadcastOut] 2).length = 3 + 2 ∧
    kernelArgs [broadcastA, broadcastB, broadcastOut] 2 =
      [RawPtr.data 4096, RawPtr.data 8192, RawPtr.data 12288, RawPtr.shapes 0,
        RawPtr.shapes 1] ∧
    kernelShapes 2 scenarioEntry.shape_from_ [broadcastA, broadcastB, broadcastOut] = [4, 8] ∧
    scenarioEntry.call 2 returningKernel [broadcastA, broadcastB, broadcastOut]
        ([broadcastA, broadcastB, broadcastOut].map (fun arg => RawPtr.data arg.data_ptr)) =
      .ok broadcastOut :=
  ⟨(C11_kernel_argument_list 2 returningKernel scenarioEntry
      [broadcastA, broadcastB, broadcastOut] 7 rfl (by decide) (by decide)).1,
    by decide, by decide, by decide⟩

/-! ## C12 -/

/-- Whatever `CompileResultImpl::call` returns is `args[2]`. -/
theorem call_result (MAX_DIMS : Nat) (call_raw : CallRaw) (self : CompileResultImpl)
    (args : List Tensor) (call_args : List RawPtr) (t : Tensor)
    (h : self.call MAX_DIMS call_raw args call_args = .ok t) : args[2]? = some t := by
  unfold CompileResultImpl.call at h
  cases hl : CompileResultImpl.call.loop MAX_DIMS self.shape_from_ args
      (List.range self.shape_from_.length) (List.replicate MAX_DIMS 0, call_args) with
  | error e => rw [hl] at h; exact absurd h (by simp)
  | ok s =>
    rw [hl] at h
    simp only at h
    cases hc : self.cg_ with
    | none => rw [hc] at h; exact absurd h (by simp)
    | some cg =>
      rw [hc] at h
      simp only at h
      cases hk : call_raw cg s.2 s.1 with
      | error e => rw [hk] at h; exact absurd h (by simp)
      | ok u =>
        rw [hk] at h
        simp only at h
        cases ha : args[2]? with
        | none => rw [ha] at h; exact absurd h (by simp)
        | some v =>
          rw [ha] at h
          simp only [Except.ok.injEq] at h
          rw [h]

/-- C12: for every argument tuple of arity at least 3, every entry (whatever its
`shape_from`, `shape_checks`, `options_from`) and every kernel, a normal return of
`CompileResultImpl::call` is `args[2]`, unchanged; the call does return normally,
with `args[2]`, when the kernel is set, `shape_from` has at most `MAX_DIMS` pairs
valid for the tuple, and the kernel returns.  The same holds through
`CompileCache3::call` for either value of `has_out`.  At arity 3, `args[2]` is the
last argument of the tuple. -/
theorem C12_invoke_returns_third (MAX_DIMS : Nat) (call_raw : CallRaw) (args : List Tensor)
    (harity : 3 ≤ args.length) :
    (∀ (self : CompileResultImpl) (call_args : List RawPtr) (t : Tensor),
      self.call MAX_DIMS call_raw args call_args = .ok t → t = args.getD 2 default) ∧
    (∀ (self : CompileResultImpl) (cg : Nat), self.cg_ = some cg →
      self.shape_from_.length ≤ MAX_DIMS → ShapeFromValid self.shape_from_ args →
      call_raw cg (kernelArgs args self.shape_from_.length)
        (kernelShapes MAX_DIMS self.shape_from_ args) = .ok () →
      self.call MAX_DIMS call_raw args (args.map (fun arg => RawPtr.data arg.data_ptr)) =
        .ok (args.getD 2 default)) ∧
    (∀ (σ : Type) (E : EnumCounts) (compile_fn_ : CompileFn σ) (s : CompileCache3 σ)
        (has_out : Bool) (t : Tensor),
      (CompileCache3.call E MAX_DIMS compile_fn_ call_raw s args has_out).1 = .ok t →
      t = args.getD 2 default) ∧
    (args.length = 3 → args.getLast? = some (args.getD 2 default)) := by
  have h2 : args[2]? = some (args.getD 2 default) := by
    rw [List.getD_eq_getElem _ _ (by omega), List.getElem?_eq_getElem]
  refine ⟨?_, ?_, ?_, ?_⟩
  · intro self call_args t h
    have := call_result MAX_DIMS call_raw self args call_args t h
    rw [h2] at this
    exact (Option.some.inj this).symm
  · intro self cg hcg hK hv hk
    rw [call_eq MAX_DIMS call_raw self args cg hcg hv hK, hk]
    simp only [h2]
  · intro σ E compile_fn_ s has_out t h
    unfold CompileCache3.call at h
    simp only at h
    cases hc : (cached_compile MAX_DIMS compile_fn_ s
        (compute_cache_key E MAX_DIMS args has_out) args).1 with
    | error e => rw [hc] at h; exact absurd h (by simp)
    | ok cr =>
      rw [hc] at h
      simp only at h
      have := call_result MAX_DIMS call_raw cr args _ t h
      rw [h2] at this
      exact (Option.some.inj this).symm
  · intro h3
    rcases args with _ | ⟨a, _ | ⟨b, _ | ⟨c, _ | ⟨d, rest⟩⟩⟩⟩
    · simp at h3
    · simp at h3
    · simp at h3
    · rfl
    · simp at h3

/-- C12 at the broadcast scenario: the invocation of the scenario entry on
`(a, b, out)` returns `out`, also with different shape parameters, shape checks and
`options_from`, and through `CompileCache3::call` for both values of `has_out`. -/
theorem C12_invoke_returns_third_witness :
    scenarioEntry.call 2 returningKernel [broadcastA, broadcastB, broadcastOut]
        ([broadcastA, broadcastB, broadcastOut].map (fun arg => RawPtr.data arg.data_ptr)) =
      .ok broadcastOut ∧
    CompileResultImpl.call 2 returningKernel
        { cg_ := some 9, shape_from_ := [(1, 1)], shape_checks_ := [(0, 0, 2, 0)],
          options_from_ := 1, objects_ := [9] }
        [broadcastA, broadcastB, broadcastOut]
        ([broadcastA, broadcastB, broadcastOut].map (fun arg => RawPtr.data arg.data_ptr)) =
      .ok broadcastOut ∧
    (CompileCache3.call scenarioCounts 2 countingCompiler returningKernel
        { cache_ := [], py := 0, compiled := [] }
        [broadcastA, broadcastB, broadcastOut] true).1 = .ok broadcastOut ∧
    (CompileCache3.call scenarioCounts 2 countingCompiler returningKernel
        { cache_ := [], py := 0, compiled := [] }
        [broadcastA, broadcastB, broadcastOut] false).1 = .ok broadcastOut :=
  ⟨(C12_invoke_returns_third 2 returningKernel [broadcastA, broadcastB, broadcastOut]
      (by decide)).2.1 scenarioEntry 7 rfl (by decide) (by decide) rfl,
    by decide, by decide, by decide⟩

/-! ## C13 -/

/-- A populated flag byte decodes to the tag strings of its categories. -/
theorem decode_flag (s : SizeTag) (t : StrideTag) :
    ¬ ((s.bit ||| t.bit) &&& SIZE_MISSING > 0) ∧
    (if (s.bit ||| t.bit) &&& SIZE_ONE > 0 then "one" else "other") = s.name ∧
    (if (s.bit ||| t.bit) &&& STRIDE_ZERO > 0 then "zero"
      else if (s.bit ||| t.bit) &&& STRIDE_ONE > 0 then "one"
      else if (s.bit ||| t.bit) &&& STRIDE_CONTIGUOUS > 0 then "contiguous"
      else if (s.bit ||| t.bit) &&& STRIDE_TRANSPOSED_CONTIGUOUS > 0 then "transposed_contiguous"
      else if (s.bit ||| t.bit) &&& STRIDE_AS_ARG > 0 then "as_arg"
      else "??") = t.name ∧
    ((s.bit ||| t.bit) &&& STRIDE_ZERO > 0 ∨ (s.bit ||| t.bit) &&& STRIDE_ONE > 0 ∨
      (s.bit ||| t.bit) &&& STRIDE_CONTIGUOUS > 0 ∨
      (s.bit ||| t.bit) &&& STRIDE_TRANSPOSED_CONTIGUOUS > 0 ∨
      (s.bit ||| t.bit) &&& STRIDE_AS_ARG > 0) := by
  cases s <;> cases t <;> decide

/-- The tag strings re-encode to the bits of their categories. -/
theorem encode_name (s : SizeTag) (t : StrideTag) :
    encodeShapeTag s.name = some s.bit ∧ encodeStrideTag t.name = some t.bit := by
  cases s <;> cases t <;> decide

/-- One iteration of the loop of `shape`. -/
theorem shape_loop_cons (df : List Nat) (i : Nat) (rest : List Nat) (res : List String) :
    SpecializationKey.shape.loop df (i :: rest) res =
      if df.getD i 0 &&& SIZE_MISSING > 0 then res
      else SpecializationKey.shape.loop df rest
        (res ++ [if df.getD i 0 &&& SIZE_ONE > 0 then "one" else "other"]) := by
  rw [SpecializationKey.shape.loop]
  split_ifs <;> rfl

/-- One iteration of the loop of `stride`. -/
theorem stride_loop_cons (df : List Nat) (i : Nat) (rest : List Nat) (res : List String) :
    SpecializationKey.stride.loop df (i :: rest) res =
      if df.getD i 0 &&& SIZE_MISSING > 0 then .ok res
      else if df.getD i 0 &&& STRIDE_ZERO > 0 ∨ df.getD i 0 &&& STRIDE_ONE > 0 ∨
          df.getD i 0 &&& STRIDE_CONTIGUOUS > 0 ∨
          df.getD i 0 &&& STRIDE_TRANSPOSED_CONTIGUOUS > 0 ∨
          df.getD i 0 &&& STRIDE_AS_ARG > 0 then
        SpecializationKey.stride.loop df rest
          (res ++ [if df.getD i 0 &&& STRIDE_ZERO > 0 then "zero"
            else if df.getD i 0 &&& STRIDE_ONE > 0 then "one"
            else if df.getD i 0 &&& STRIDE_CONTIGUOUS > 0 then "contiguous"
            else if df.getD i 0 &&& STRIDE_TRANSPOSED_CONTIGUOUS > 0 then
              "transposed_contiguous"
            else if df.getD i 0 &&& STRIDE_AS_ARG > 0 then "as_arg"
            else "??"])
      else .error "??" := by
  rw [SpecializationKey.stride.loop]
  split_ifs <;> first | rfl | (exfalso; tauto)

/-- The loop of `shape` passes over populated slots, appending their tags. -/
theorem shape_loop_append (df : List Nat) (S : Nat → SizeTag) (T : Nat → StrideTag)
    (l1 l2 : List Nat) :
    (∀ i ∈ l1, df.getD i 0 = (S i).bit ||| (T i).bit) →
    ∀ res, SpecializationKey.shape.loop df (l1 ++ l2) res =
      SpecializationKey.shape.loop df l2 (res ++ l1.map (fun i => (S i).name)) := by
  induction l1 with
  | nil => intro _ res; simp
  | cons i rest ih =>
    intro h res
    have hi := h i (List.mem_cons_self _ _)
    have ihr := ih (fun j hj => h j (List.mem_cons_of_mem _ hj))
    have hd := decode_flag (S i) (T i)
    rw [List.cons_append, shape_loop_cons, hi, if_neg hd.1, hd.2.1, ihr, List.map_cons,
      List.append_assoc]
    rfl

/-- The loop of `shape` stops at the end of the array or at a padding slot. -/
theorem shape_loop_stop (df : List Nat) (l2 : List Nat)
    (h : l2 = [] ∨ ∃ i rest, l2 = i :: rest ∧ df.getD i 0 = SIZE_MISSING ||| STRIDE_ZERO)
    (res : List String) : SpecializationKey.shape.loop df l2 res = res := by
  rcases h with h | ⟨i, rest, h, hp⟩
  · rw [h]; rfl
  · rw [h, shape_loop_cons, hp, if_pos (by decide)]

/-- The loop of `stride` passes over populated slots, appending their tags. -/
theorem stride_loop_append (df : List Nat) (S : Nat → SizeTag) (T : Nat → StrideTag)
    (l1 l2 : List Nat) :
    (∀ i ∈ l1, df.getD i 0 = (S i).bit ||| (T i).bit) →
    ∀ res, SpecializationKey.stride.loop df (l1 ++ l2) res =
      SpecializationKey.stride.loop df l2 (res ++ l1.map (fun i => (T i).name)) := by
  induction l1 with
  | nil => intro _ res; simp
  | cons i rest ih =>
    intro h res
    have hi := h i (List.mem_cons_self _ _)
    have ihr := ih (fun j hj => h j (List.mem_cons_of_mem _ hj))
    have hd := decode_flag (S i) (T i)
    rw [List.cons_append, stride_loop_cons, hi, if_neg hd.1, if_pos hd.2.2.2, hd.2.2.1, ihr,
      List.map_cons, List.append_assoc]
    rfl

/-- The loop of `stride` stops at the end of the array or at a padding slot. -/
theorem stride_loop_stop (df : List Nat) (l2 : List Nat)
    (h : l2 = [] ∨ ∃ i rest, l2 = i :: rest ∧ df.getD i 0 = SIZE_MISSING ||| STRIDE_ZERO)
    (res : List String) : SpecializationKey.stride.loop df l2 res = .ok res := by
  rcases h with h | ⟨i, rest, h, hp⟩
  · rw [h]; rfl
  · rw [h, stride_loop_cons, hp, if_pos (by decide)]

/-- The index range of the decoders: the populated slots, then the rest. -/
theorem range_split (n M : Nat) (h : n ≤ M) :
    List.range M = List.range n ++ List.range' n (M - n) := by
  have := List.range'_append_1 0 n (M - n)
  rw [Nat.zero_add] at this
  rw [List.range_eq_range', List.range_eq_range', this]
  congr 1; omega

/-- The slot after the populated ones ends the decoders. -/
theorem padding_stop (MAX_DIMS : Nat) (sizes strides : List Int) (h : sizes.length ≤ MAX_DIMS) :
    List.range' sizes.length (MAX_DIMS - sizes.length) = [] ∨
    ∃ i rest, List.range' sizes.length (MAX_DIMS - sizes.length) = i :: rest ∧
      (init_dimflags MAX_DIMS sizes strides sizes.length).getD i 0 =
        SIZE_MISSING ||| STRIDE_ZERO := by
  rcases Nat.eq_or_lt_of_le h with heq | hlt
  · left
    rw [heq, Nat.sub_self]
    rfl
  · right
    obtain ⟨m, hm⟩ : ∃ m, MAX_DIMS - sizes.length = m + 1 := ⟨MAX_DIMS - sizes.length - 1, by omega⟩
    refine ⟨sizes.length, List.range' (sizes.length + 1) m, ?_, ?_⟩
    · rw [hm, List.range'_succ]
    · exact init_dimflags_getD_ge _ _ _ _ _ h (Nat.le_refl _) hlt

/-- The populated slots of a constructed key hold the bits of their categories. -/
theorem populated_slots (MAX_DIMS : Nat) (sizes strides : List Int) (h : sizes.length ≤ MAX_DIMS) :
    ∀ i ∈ List.range sizes.length,
      (init_dimflags MAX_DIMS sizes strides sizes.length).getD i 0 =
        (sizeTag sizes i).bit ||| (strideTag sizes strides sizes.length i).bit := by
  intro i hi
  rw [init_dimflags_getD_lt _ _ _ _ _ h (List.mem_range.1 hi), flag_eq_tags]

/-- The shape tags of a constructed key. -/
theorem shape_new (E : EnumCounts) (MAX_DIMS : Nat) (v : Tensor) (g : Int) (o : Bool)
    (h : v.ndimension ≤ MAX_DIMS) :
    (SpecializationKey.new E MAX_DIMS v g o).shape MAX_DIMS =
      (List.range v.ndimension).map (fun d => (sizeTag v.sizes d).name) := by
  unfold Tensor.ndimension at h ⊢
  show SpecializationKey.shape.loop (init_dimflags MAX_DIMS v.sizes v.strides v.sizes.length)
    (List.range MAX_DIMS) [] = _
  rw [range_split _ _ h,
    shape_loop_append _ (sizeTag v.sizes) (strideTag v.sizes v.strides v.sizes.length) _ _
      (populated_slots MAX_DIMS v.sizes v.strides h),
    shape_loop_stop _ _ (padding_stop MAX_DIMS v.sizes v.strides h)]
  rfl

/-- The stride tags of a constructed key; the decoder does not raise. -/
theorem stride_new (E : EnumCounts) (MAX_DIMS : Nat) (v : Tensor) (g : Int) (o : Bool)
    (h : v.ndimension ≤ MAX_DIMS) :
    (SpecializationKey.new E MAX_DIMS v g o).stride MAX_DIMS =
      .ok ((List.range v.ndimension).map
        (fun d => (strideTag v.sizes v.strides v.ndimension d).name)) := by
  unfold Tensor.ndimension at h ⊢
  show SpecializationKey.stride.loop (init_dimflags MAX_DIMS v.sizes v.strides v.sizes.length)
    (List.range MAX_DIMS) [] = _
  rw [range_split _ _ h,
    stride_loop_append _ (sizeTag v.sizes) (strideTag v.sizes v.strides v.sizes.length) _ _
      (populated_slots MAX_DIMS v.sizes v.strides h),
    stride_loop_stop _ _ (padding_stop MAX_DIMS v.sizes v.strides h)]
  rfl

/-- Re-encoding the tag strings of a run of dimensions gives their flag bytes. -/
theorem reencode_dims_map (S : Nat → SizeTag) (T : Nat → StrideTag) (l : List Nat) :
    reencode.dims (l.map (fun d => (S d).name)) (l.map (fun d => (T d).name)) =
      some (l.map (fun d => (S d).bit ||| (T d).bit)) := by
  induction l with
  | nil => rfl
  | cons d rest ih =>
    rw [List.map_cons, List.map_cons, reencode.dims, (encode_name (S d) (T d)).1,
      (encode_name (S d) (T d)).2, ih]
    rfl

/-- The description of a constructed key. -/
theorem to_python_new (E : EnumCounts) (MAX_DIMS : Nat) (v example_ : Tensor) (g : Int) (o : Bool)
    (h : v.ndimension ≤ MAX_DIMS) :
    (SpecializationKey.new E MAX_DIMS v g o).to_python MAX_DIMS example_ =
      .ok { alias_group := g
            ndim := example_.ndimension
            dtype := example_.dtype
            device := example_.device
            layout := example_.layout
            requires_grad := example_.requires_grad
            out := o
            shape := (List.range v.ndimension).map (fun d => (sizeTag v.sizes d).name)
            stride := (List.range v.ndimension).map
              (fun d => (strideTag v.sizes v.strides v.ndimension d).name) } := by
  have hout : decide (pack_flags E v o % 2 ≠ 0) = o := by
    rw [pack_flags_mod_two]
    cases o <;> rfl
  unfold SpecializationKey.to_python
  rw [stride_new E MAX_DIMS v g o h, shape_new E MAX_DIMS v g o h]
  simp only [SpecializationKey.new, hout]

/-! ## C13 -/

/-- C13: for every key constructed from a descriptor with `ndim <= MAX_DIMS`, any
alias group and any `is_out`, `to_python` returns a description (the stride decoder
does not reach its error), whose shape and stride lists have length `ndim`, whose
`alias_group` is the key's, whose `out` flag is `is_out`, and whose shape and stride
tags re-encode to the `dimflags_` array of the key, padding included. -/
theorem C13_description_roundtrip (E : EnumCounts) (MAX_DIMS : Nat) (v example_ : Tensor)
    (alias_group : Int) (is_out : Bool) (hfit : v.ndimension ≤ MAX_DIMS) :
    ∃ d, (SpecializationKey.new E MAX_DIMS v alias_group is_out).to_python MAX_DIMS example_ =
        .ok d ∧
      d.shape.length = v.ndimension ∧ d.stride.length = v.ndimension ∧
      d.alias_group = (SpecializationKey.new E MAX_DIMS v alias_group is_out).alias_group_ ∧
      d.alias_group = alias_group ∧ d.out = is_out ∧ d.ndim = example_.ndimension ∧
      d.requires_grad = example_.requires_grad ∧
      reencode MAX_DIMS d.shape d.stride =
        some (SpecializationKey.new E MAX_DIMS v alias_group is_out).dimflags_ := by
  refine ⟨_, to_python_new E MAX_DIMS v example_ alias_group is_out hfit, ?_, ?_, rfl, rfl, rfl,
    rfl, rfl, ?_⟩
  · simp
  · simp
  · show reencode MAX_DIMS _ _ = some (init_dimflags MAX_DIMS v.sizes v.strides v.ndimension)
    unfold reencode
    rw [reencode_dims_map, init_dimflags_eq _ _ _ _ hfit]
    simp only [Option.map_some', List.length_map, List.length_range]
    congr 2
    apply List.map_congr_left
    intro d _
    rw [flag_eq_tags]
    rfl

/-- C13 at the broadcast scenario: the description of the key of `out` (an output,
alias group 0) in the `MAX_DIMS = 4` bucket, and its re-encoding. -/
theorem C13_description_roundtrip_witness :
    (SpecializationKey.new scenarioCounts 4 broadcastOut 0 true).to_python 4 broadcastOut =
      .ok { alias_group := 0, ndim := 2, dtype := 6, device := 0, layout := 0,
            requires_grad := false, out := true, shape := ["other", "other"],
            stride := ["contiguous", "one"] } ∧
    reencode 4 ["other", "other"] ["contiguous", "one"] =
      some (SpecializationKey.new scenarioCounts 4 broadcastOut 0 true).dimflags_ ∧
    ∃ d, (SpecializationKey.new scenarioCounts 4 broadcastOut 0 true).to_python 4 broadcastOut =
        .ok d ∧ d.shape.length = 2 ∧ d.stride.length = 2 :=
  have h := C13_description_roundtrip scenarioCounts 4 broadcastOut broadcastOut 0 true
    (by decide)
  ⟨by decide, by decide, h.choose, h.choose_spec.1, h.choose_spec.2.1, h.choose_spec.2.2.1⟩

/-! ## C14 -/

/-- The size bits of a populated flag byte name its size category. -/
theorem tag_size_bits (s : SizeTag) (t : StrideTag) :
    ((s.bit ||| t.bit) &&& SIZE_ONE ≠ 0 ↔ s = SizeTag.one) ∧
    ((s.bit ||| t.bit) &&& SIZE_OTHER ≠ 0 ↔ s = SizeTag.other) ∧
    (s.bit ||| t.bit) &&& SIZE_MISSING = 0 := by
  cases s <;> cases t <;> decide

/-- The size bits of the flag byte of a dimension: `SIZE_ONE` is set exactly for
extent 1, `SIZE_OTHER` exactly for every other extent, `SIZE_MISSING` never. -/
theorem flag_size_bits (sizes strides : List Int) (d : Nat) :
    (init_dimflags.flag sizes strides d &&& SIZE_ONE ≠ 0 ↔ sizes.getD d 0 = 1) ∧
    (init_dimflags.flag sizes strides d &&& SIZE_OTHER ≠ 0 ↔ sizes.getD d 0 ≠ 1) ∧
    init_dimflags.flag sizes strides d &&& SIZE_MISSING = 0 := by
  rw [flag_eq_tags]
  obtain ⟨h1, h2, h3⟩ := tag_size_bits (sizeTag sizes d) (strideTag sizes strides sizes.length d)
  refine ⟨h1.trans ?_, h2.trans ?_, h3⟩
  · unfold sizeTag
    by_cases hs : sizes.getD d 0 = 1
    · simp [hs]
    · simp [hs]
  · unfold sizeTag
    by_cases hs : sizes.getD d 0 = 1
    · simp [hs]
    · simp [hs]

/-- C14 evaluated at a descriptor with an extent of 0: the sizes of `emptyVector` are
non-negative and dimension 0 is populated, its extent 0 is not `> 1`, and yet the
key carries `SIZE_OTHER` (and not `SIZE_ONE`) in slot 0 and decodes to the shape
tag `"other"`: line 72 gives `SIZE_OTHER` to every extent other than 1. -/
theorem C14_size_other_at_extent_zero :
    (∀ s ∈ emptyVector.sizes, 0 ≤ s) ∧ 0 < emptyVector.ndimension ∧
    emptyVector.ndimension ≤ 2 ∧ ¬ (emptyVector.sizes.getD 0 0 > 1) ∧
    (SpecializationKey.new scenarioCounts 2 emptyVector 0 false).dimflags_.getD 0 0 &&&
      SIZE_OTHER ≠ 0 ∧
    (SpecializationKey.new scenarioCounts 2 emptyVector 0 false).dimflags_.getD 0 0 &&&
      SIZE_ONE = 0 ∧
    (SpecializationKey.new scenarioCounts 2 emptyVector 0 false).shape 2 = ["other"] := by
  decide

/-! ## C15 -/

/-- C15: for every argument tuple and every `has_out`, `compute_cache_key` returns one
key per argument; key `i` is the key constructed from `args[i]` with
`alias_groups[i]` as computed by `compute_alias_groups`, with `is_out = false` for
`i < N - 1` and `is_out = has_out` for `i = N - 1` (also when `N = 1`); the `is_out`
bit (bit 0 of `flags_`) of every non-last key is 0 and that of the last key is
`has_out`. -/
theorem C15_key_is_out (E : EnumCounts) (MAX_DIMS : Nat) (args : List Tensor) (has_out : Bool) :
    (compute_cache_key E MAX_DIMS args has_out).length = args.length ∧
    (∀ i, i + 1 < args.length →
      (compute_cache_key E MAX_DIMS args has_out).getD i default =
        SpecializationKey.new E MAX_DIMS (args.getD i default)
          ((compute_alias_groups Tensor.is_alias_of Tensor.is_set_to args).getD i 0) false ∧
      ((compute_cache_key E MAX_DIMS args has_out).getD i default).flags_ % 2 = 0) ∧
    (∀ i, i + 1 = args.length →
      (compute_cache_key E MAX_DIMS args has_out).getD i default =
        SpecializationKey.new E MAX_DIMS (args.getD i default)
          ((compute_alias_groups Tensor.is_alias_of Tensor.is_set_to args).getD i 0) has_out ∧
      ((compute_cache_key E MAX_DIMS args has_out).getD i default).flags_ % 2 =
        has_out.toNat) := by
  refine ⟨compute_cache_key_length E MAX_DIMS args has_out, ?_, ?_⟩
  · intro i hi
    have hne : ¬ (i + 1 = args.length) := by omega
    have h := compute_cache_key_getD E MAX_DIMS args has_out i (by omega)
    have ho : argIsOut args.length i has_out = false := by
      unfold argIsOut
      rw [decide_eq_false hne, Bool.false_and]
    rw [ho] at h
    refine ⟨h, ?_⟩
    rw [h]
    exact pack_flags_mod_two E _ false
  · intro i hi
    have h := compute_cache_key_getD E MAX_DIMS args has_out i (by omega)
    have ho : argIsOut args.length i has_out = has_out := by
      unfold argIsOut
      rw [decide_eq_true hi, Bool.true_and]
    rw [ho] at h
    refine ⟨h, ?_⟩
    rw [h]
    exact pack_flags_mod_two E _ has_out

/-- C15 at the broadcast scenario with `out=`, and at a tuple of one argument: the
keys of `a` and `b` have `is_out` bit 0, the key of `out` has `is_out` bit 1, and the
only key of a 1-tuple carries `has_out`. -/
theorem C15_key_is_out_witness :
    ((compute_cache_key scenarioCounts 2 [broadcastA, broadcastB, broadcastOut] true).getD 0
      default).flags_ % 2 = 0 ∧
    ((compute_cache_key scenarioCounts 2 [broadcastA, broadcastB, broadcastOut] true).getD 1
      default).flags_ % 2 = 0 ∧
    ((compute_cache_key scenarioCounts 2 [broadcastA, broadcastB, broadcastOut] true).getD 2
      default).flags_ % 2 = 1 ∧
    ((compute_cache_key scenarioCounts 2 [broadcastOut] true).getD 0 default).flags_ % 2 = 1 ∧
    (compute_cache_key scenarioCounts 2 [broadcastOut] true).getD 0 default =
      SpecializationKey.new scenarioCounts 2 broadcastOut 0 true :=
  ⟨((C15_key_is_out scenarioCounts 2 [broadcastA, broadcastB, broadcastOut] true).2.1 0
      (by decide)).2,
    ((C15_key_is_out scenarioCounts 2 [broadcastA, broadcastB, broadcastOut] true).2.1 1
      (by decide)).2,
    ((C15_key_is_out scenarioCounts 2 [broadcastA, broadcastB, broadcastOut] true).2.2 2
      (by decide)).2,
    ((C15_key_is_out scenarioCounts 2 [broadcastOut] true).2.2 0 (by decide)).2,
    ((C15_key_is_out scenarioCounts 2 [broadcastOut] true).2.2 0 (by decide)).1⟩

/-! ## C16 -/

/-- A populated flag byte has exactly one size bit and exactly one stride bit set. -/
theorem tag_one_bit_each (s : SizeTag) (t : StrideTag) :
    (setBits (s.bit ||| t.bit) sizeBitList).length = 1 ∧
    (setBits (s.bit ||| t.bit) strideBitList).length = 1 := by
  cases s <;> cases t <;> decide

/-- The flag byte of a dimension reads the strides of populated dimensions only. -/
theorem flag_congr (sizes st1 st2 : List Int) (d : Nat) (hd : d < sizes.length)
    (h : ∀ e, e < sizes.length → st1.getD e 0 = st2.getD e 0) :
    init_dimflags.flag sizes st1 d = init_dimflags.flag sizes st2 d := by
  unfold init_dimflags.flag
  rw [h d hd, h (d - 1) (by omega)]
  by_cases hn : d + 1 < sizes.length
  · rw [h (d + 1) hn]
  · simp only [hn, false_and, if_false]

/-- C16: for every key constructed from a descriptor with `ndim <= MAX_DIMS`, the
`dimflags_` array has `MAX_DIMS` slots; every slot `d < ndim` has exactly one of the
size bits `SIZE_ONE`, `SIZE_OTHER` set, `SIZE_MISSING` clear, and exactly one of the
five stride bits set; every slot `ndim <= d < MAX_DIMS` equals
`SIZE_MISSING | STRIDE_ZERO`; and a second descriptor with the same sizes and the
same strides on the populated dimensions yields the same `dimflags_`, whatever its
other properties, alias group and `is_out`. -/
theorem C16_dimflags_well_formed (E : EnumCounts) (MAX_DIMS : Nat) (v : Tensor)
    (alias_group : Int) (is_out : Bool) (hfit : v.ndimension ≤ MAX_DIMS) :
    (SpecializationKey.new E MAX_DIMS v alias_group is_out).dimflags_.length = MAX_DIMS ∧
    (∀ d, d < v.ndimension →
      (setBits ((SpecializationKey.new E MAX_DIMS v alias_group is_out).dimflags_.getD d 0)
        sizeBitList).length = 1 ∧
      (SpecializationKey.new E MAX_DIMS v alias_group is_out).dimflags_.getD d 0 &&&
        SIZE_MISSING = 0 ∧
      (setBits ((SpecializationKey.new E MAX_DIMS v alias_group is_out).dimflags_.getD d 0)
        strideBitList).length = 1) ∧
    (∀ d, v.ndimension ≤ d → d < MAX_DIMS →
      (SpecializationKey.new E MAX_DIMS v alias_group is_out).dimflags_.getD d 0 =
        SIZE_MISSING ||| STRIDE_ZERO) ∧
    (∀ (w : Tensor) (g : Int) (o : Bool), w.sizes = v.sizes →
      (∀ d, d < v.ndimension → w.strides.getD d 0 = v.strides.getD d 0) →
      (SpecializationKey.new E MAX_DIMS w g o).dimflags_ =
        (SpecializationKey.new E MAX_DIMS v alias_group is_out).dimflags_) := by
  refine ⟨init_dimflags_length _ _ _ _ hfit, ?_, ?_, ?_⟩
  · intro d hd
    show (setBits ((init_dimflags MAX_DIMS v.sizes v.strides v.ndimension).getD d 0) _).length = 1 ∧
      (init_dimflags MAX_DIMS v.sizes v.strides v.ndimension).getD d 0 &&& SIZE_MISSING = 0 ∧
      (setBits ((init_dimflags MAX_DIMS v.sizes v.strides v.ndimension).getD d 0) _).length = 1
    rw [init_dimflags_getD_lt _ _ _ _ _ hfit hd, flag_eq_tags]
    exact ⟨(tag_one_bit_each _ _).1, (tag_size_bits _ _).2.2, (tag_one_bit_each _ _).2⟩
  · intro d hd hd2
    exact init_dimflags_getD_ge _ _ _ _ _ hfit hd hd2
  · intro w g o hs hst
    show init_dimflags MAX_DIMS w.sizes w.strides w.ndimension =
      init_dimflags MAX_DIMS v.sizes v.strides v.ndimension
    unfold Tensor.ndimension at *
    rw [hs, init_dimflags_eq _ _ _ _ hfit, init_dimflags_eq _ _ _ _ hfit]
    congr 1
    apply List.map_congr_left
    intro d hd
    exact flag_congr v.sizes w.strides v.strides d (List.mem_range.1 hd) hst

/-- C16 at the broadcast scenario in the `MAX_DIMS = 4` bucket: the key of `a` has
the slots `SIZE_OTHER | STRIDE_ONE`, `SIZE_ONE | STRIDE_ZERO` and two padding slots,
and the array `distinctArray` of the same sizes and strides has the same
`dimflags_`. -/
theorem C16_dimflags_well_formed_witness :
    (SpecializationKey.new scenarioCounts 4 broadcastA 0 false).dimflags_ =
      [SIZE_OTHER ||| STRIDE_ONE, SIZE_ONE ||| STRIDE_ZERO, SIZE_MISSING ||| STRIDE_ZERO,
        SIZE_MISSING ||| STRIDE_ZERO] ∧
    (SpecializationKey.new scenarioCounts 4 broadcastA 0 false).dimflags_.getD 2 0 =
      SIZE_MISSING ||| STRIDE_ZERO ∧
    (SpecializationKey.new scenarioCounts 4 distinctArray 1 true).dimflags_ =
      (SpecializationKey.new scenarioCounts 4 broadcastA 0 false).dimflags_ :=
  ⟨by decide,
    (C16_dimflags_well_formed scenarioCounts 4 broadcastA 0 false (by decide)).2.2.1 2
      (by decide) (by decide),
    (C16_dimflags_well_formed scenarioCounts 4 broadcastA 0 false (by decide)).2.2.2
      distinctArray 1 true (by decide) (by decide)⟩

/-! ## C17 -/

/-- C17: when the product `4 * |dtype| * |layout| * |device_type|` of the option
counts fits in 16 bits and `dtype`, `layout` and `device_type` are below their option
counts, `pack_flags` is
`is_out + 2*requires_grad + 4*dtype + 4*|dtype|*layout + 4*|dtype|*|layout|*device_type`
reduced modulo `2 ^ 16`; it maps two inputs to the same value if and only if all
five fields are equal; and `flags mod 2` is `is_out`. -/
theorem C17_pack_flags_injective (E : EnumCounts) (hE : E.fits) (v v2 : Tensor)
    (hv : v.enumsValid E) (hv2 : v2.enumsValid E) (is_out is_out2 : Bool) :
    pack_flags E v is_out =
      (is_out.toNat + 2 * v.requires_grad.toNat + 4 * v.dtype +
        4 * E.scalarTypes * v.layout + 4 * E.scalarTypes * E.layouts * v.device) % 2 ^ 16 ∧
    (pack_flags E v is_out = pack_flags E v2 is_out2 ↔
      is_out = is_out2 ∧ v.requires_grad = v2.requires_grad ∧ v.dtype = v2.dtype ∧
        v.layout = v2.layout ∧ v.device = v2.device) ∧
    pack_flags E v is_out % 2 = is_out.toNat ∧
    decide (pack_flags E v is_out % 2 ≠ 0) = is_out := by
  refine ⟨?_, pack_flags_inj E hE v v2 hv hv2 is_out is_out2, pack_flags_mod_two E v is_out, ?_⟩
  · obtain ⟨h1, h2⟩ := pack_flags_eq E hE v hv is_out
    have h3 : is_out.toNat + 2 * v.requires_grad.toNat + 4 * v.dtype +
        4 * E.scalarTypes * v.layout + 4 * E.scalarTypes * E.layouts * v.device =
        (is_out.toNat + 2 * v.requires_grad.toNat) +
          4 * (v.dtype + E.scalarTypes * (v.layout + E.layouts * v.device)) := by ring
    rw [h3, ← h1]
    exact (Nat.mod_eq_of_lt h2).symm
  · rw [pack_flags_mod_two]
    cases is_out <;> rfl

/-- C17 at the broadcast scenario: the packed flags of `a` and of `out` as an output
are 24 and 25, and they differ because `is_out` differs. -/
theorem C17_pack_flags_injective_witness :
    scenarioCounts.fits ∧ broadcastA.enumsValid scenarioCounts ∧
    pack_flags scenarioCounts broadcastA false = 24 ∧
    pack_flags scenarioCounts broadcastOut true = 25 ∧
    (pack_flags scenarioCounts broadcastA false = pack_flags scenarioCounts broadcastOut true ↔
      false = true ∧ broadcastA.requires_grad = broadcastOut.requires_grad ∧
        broadcastA.dtype = broadcastOut.dtype ∧ broadcastA.layout = broadcastOut.layout ∧
        broadcastA.device = broadcastOut.device) :=
  ⟨by decide, by decide, by decide, by decide,
    (C17_pack_flags_injective scenarioCounts (by decide) broadcastA broadcastOut (by decide)
      (by decide) false true).2.1⟩

/-! ## C18 -/

/-- Transitivity of a first-difference order, pointwise: if `L1`, `E1` describe
"less" and "equal" at each position between the first and second sequence, `L2`,
`E2` between the second and third, and `L3`, `E3` between the first and third. -/
theorem lex_trans (n : Nat) (L1 E1 L2 E2 L3 E3 : Nat → Prop)
    (hLL : ∀ i, L1 i → L2 i → L3 i) (hLE : ∀ i, L1 i → E2 i → L3 i)
    (hEL : ∀ i, E1 i → L2 i → L3 i) (hEE : ∀ i, E1 i → E2 i → E3 i)
    (h1 : ∃ i, i < n ∧ (∀ j, j < i → E1 j) ∧ L1 i)
    (h2 : ∃ i, i < n ∧ (∀ j, j < i → E2 j) ∧ L2 i) :
    ∃ i, i < n ∧ (∀ j, j < i → E3 j) ∧ L3 i := by
  obtain ⟨i1, hi1, he1, hl1⟩ := h1
  obtain ⟨i2, hi2, he2, hl2⟩ := h2
  rcases Nat.lt_trichotomy i1 i2 with h | h | h
  · exact ⟨i1, hi1, fun j hj => hEE j (he1 j hj) (he2 j (by omega)), hLE i1 hl1 (he2 i1 h)⟩
  · subst h
    exact ⟨i1, hi1, fun j hj => hEE j (he1 j hj) (he2 j hj), hLL i1 hl1 hl2⟩
  · exact ⟨i2, hi2, fun j hj => hEE j (he1 j (by omega)) (he2 j hj), hEL i2 (he1 i2 h) hl2⟩

/-- `memcmp` is negative exactly when the first differing byte among the first `n`
is smaller on the left. -/
theorem memcmp_neg_iff (n : Nat) :
    ∀ p q : List Nat, memcmp p q n < 0 ↔
      ∃ i, i < n ∧ (∀ j, j < i → p.getD j 0 = q.getD j 0) ∧ p.getD i 0 < q.getD i 0 := by
  induction n with
  | zero => intro p q; simp [memcmp]
  | succ n ih =>
    intro p q
    have hh : ∀ l : List Nat, l.headD 0 = l.getD 0 0 := by
      intro l; cases l <;> rfl
    have ht : ∀ (l : List Nat) (i : Nat), l.tail.getD i 0 = l.getD (i + 1) 0 := by
      intro l i; cases l <;> simp
    unfold memcmp
    by_cases h : p.headD 0 = q.headD 0
    · rw [if_pos h, ih]
      constructor
      · rintro ⟨i, hi, he, hl⟩
        refine ⟨i + 1, by omega, ?_, ?_⟩
        · intro j hj
          cases j with
          | zero => rw [← hh, ← hh]; exact h
          | succ j => rw [← ht, ← ht]; exact he j (by omega)
        · rw [← ht, ← ht]; exact hl
      · rintro ⟨i, hi, he, hl⟩
        cases i with
        | zero => rw [← hh, ← hh] at hl; omega
        | succ i =>
          refine ⟨i, by omega, ?_, ?_⟩
          · intro j hj
            rw [ht, ht]; exact he (j + 1) (by omega)
          · rw [ht, ht]; exact hl
    · rw [if_neg h]
      constructor
      · intro hlt
        refine ⟨0, by omega, fun j hj => absurd hj (Nat.not_lt_zero j), ?_⟩
        rw [← hh, ← hh]; omega
      · rintro ⟨i, _, he, hl⟩
        cases i with
        | zero => rw [← hh, ← hh] at hl; omega
        | succ i =>
          exfalso; apply h
          rw [hh, hh]; exact he 0 (by omega)

/-- The sign of `cmp` composes: less then less, less then equal, equal then less. -/
theorem cmp_neg_trans (MAX_DIMS : Nat) (a b c : SpecializationKey) :
    (a.cmp MAX_DIMS b < 0 → b.cmp MAX_DIMS c < 0 → a.cmp MAX_DIMS c < 0) ∧
    (a.cmp MAX_DIMS b < 0 → b.cmp MAX_DIMS c = 0 → a.cmp MAX_DIMS c < 0) ∧
    (a.cmp MAX_DIMS b = 0 → b.cmp MAX_DIMS c < 0 → a.cmp MAX_DIMS c < 0) := by
  unfold SpecializationKey.cmp
  simp only [memcmp_neg_iff, memcmp_eq_zero_iff]
  refine ⟨?_, ?_, ?_⟩
  · intro h1 h2
    exact lex_trans _ (fun i => a.bytes.getD i 0 < b.bytes.getD i 0)
      (fun i => a.bytes.getD i 0 = b.bytes.getD i 0)
      (fun i => b.bytes.getD i 0 < c.bytes.getD i 0)
      (fun i => b.bytes.getD i 0 = c.bytes.getD i 0)
      (fun i => a.bytes.getD i 0 < c.bytes.getD i 0)
      (fun i => a.bytes.getD i 0 = c.bytes.getD i 0)
      (fun i h3 h4 => Nat.lt_trans h3 h4) (fun i h3 h4 => by dsimp only at h3 h4 ⊢; omega)
      (fun i h3 h4 => by dsimp only at h3 h4 ⊢; omega) (fun i h3 h4 => h3.trans h4) h1 h2
  · rintro ⟨i, hi, he, hl⟩ h2
    exact ⟨i, hi, fun j hj => (he j hj).trans (h2 j (by omega)), h2 i hi ▸ hl⟩
  · rintro h1 ⟨i, hi, he, hl⟩
    exact ⟨i, hi, fun j hj => (h1 j (by omega)).trans (he j hj), (h1 i hi) ▸ hl⟩

/-- The loop of `CmpLess` over `range' s m` returns `true` exactly when the first
argument of the range whose `cmp` is not 0 has a negative `cmp`. -/
theorem CmpLess_loop_iff (MAX_DIMS : Nat) (a b : List SpecializationKey) (m : Nat) :
    ∀ s, CmpLess.loop MAX_DIMS a b (List.range' s m) = true ↔
      ∃ i, s ≤ i ∧ i < s + m ∧
        (∀ j, s ≤ j → j < i → (a.getD j default).cmp MAX_DIMS (b.getD j default) = 0) ∧
        (a.getD i default).cmp MAX_DIMS (b.getD i default) < 0 := by
  induction m with
  | zero =>
    intro s
    simp only [List.range'_zero, CmpLess.loop, Bool.false_eq_true, false_iff]
    rintro ⟨i, h1, h2, _⟩
    omega
  | succ m ih =>
    intro s
    rw [List.range'_succ, CmpLess.loop]
    rcases Int.lt_trichotomy ((a.getD s default).cmp MAX_DIMS (b.getD s default)) 0 with
      h | h | h
    · rw [if_pos h]
      simp only [true_iff]
      exact ⟨s, Nat.le_refl _, by omega, fun j h1 h2 => by omega, h⟩
    · rw [if_neg (by omega), if_neg (by omega), ih]
      constructor
      · rintro ⟨i, h1, h2, he, hl⟩
        refine ⟨i, by omega, by omega, ?_, hl⟩
        intro j hj1 hj2
        rcases Nat.eq_or_lt_of_le hj1 with h3 | h3
        · rw [← h3]; exact h
        · exact he j h3 hj2
      · rintro ⟨i, h1, h2, he, hl⟩
        have hne : s ≠ i := by
          intro h3
          rw [← h3] at hl
          omega
        exact ⟨i, by omega, by omega, fun j hj1 hj2 => he j (by omega) hj2, hl⟩
    · rw [if_neg (by omega), if_pos h]
      simp only [Bool.false_eq_true, false_iff]
      rintro ⟨i, h1, h2, he, hl⟩
      rcases Nat.eq_or_lt_of_le h1 with h3 | h3
      · rw [← h3] at hl
        omega
      · have := he s (Nat.le_refl _) h3
        omega

/-- `CmpLess` is the lexicographic order over the per-argument `cmp` results. -/
theorem CmpLess_iff_lexLess (MAX_DIMS : Nat) (a b : List SpecializationKey) :
    CmpLess MAX_DIMS a b = true ↔ lexLess MAX_DIMS a b := by
  unfold CmpLess lexLess
  rw [List.range_eq_range', CmpLess_loop_iff]
  constructor
  · rintro ⟨i, _, h2, he, hl⟩
    exact ⟨i, by omega, fun j hj => he j (Nat.zero_le _) hj, hl⟩
  · rintro ⟨i, h2, he, hl⟩
    exact ⟨i, Nat.zero_le _, by omega, fun j _ hj => he j hj, hl⟩

/-- `lexLess` is irreflexive. -/
theorem lexLess_irrefl (MAX_DIMS : Nat) (a : List SpecializationKey) :
    ¬ lexLess MAX_DIMS a a := by
  rintro ⟨i, _, _, hl⟩
  rw [cmp_refl] at hl
  omega

/-- `lexLess` is transitive on key tuples of one arity. -/
theorem lexLess_trans (MAX_DIMS : Nat) (a b c : List SpecializationKey)
    (hab : a.length = b.length) (h1 : lexLess MAX_DIMS a b) (h2 : lexLess MAX_DIMS b c) :
    lexLess MAX_DIMS a c := by
  unfold lexLess at *
  rw [← hab] at h2
  exact lex_trans _ _ _ _ _ _ _
    (fun i => (cmp_neg_trans MAX_DIMS (a.getD i default) (b.getD i default)
      (c.getD i default)).1)
    (fun i => (cmp_neg_trans MAX_DIMS (a.getD i default) (b.getD i default)
      (c.getD i default)).2.1)
    (fun i => (cmp_neg_trans MAX_DIMS (a.getD i default) (b.getD i default)
      (c.getD i default)).2.2)
    (fun i => cmp_trans MAX_DIMS (a.getD i default) (b.getD i default) (c.getD i default))
    h1 h2

/-- Every per-argument `cmp` is 0 exactly when neither tuple is less than the other. -/
theorem allCmpZero_iff (MAX_DIMS : Nat) (a b : List SpecializationKey)
    (hab : a.length = b.length) :
    allCmpZero MAX_DIMS a b ↔
      (CmpLess MAX_DIMS a b = false ∧ CmpLess MAX_DIMS b a = false) := by
  unfold allCmpZero CmpLess
  rw [← hab, CmpLess_loop_equiv]
  simp only [List.mem_range]

/-- Well-formed key tuples of one arity have every per-argument `cmp` 0 exactly when
they are equal field by field. -/
theorem allCmpZero_iff_eq (MAX_DIMS : Nat) (a b : List SpecializationKey)
    (hab : a.length = b.length) (ha : ∀ k ∈ a, k.wf MAX_DIMS) (hb : ∀ k ∈ b, k.wf MAX_DIMS) :
    allCmpZero MAX_DIMS a b ↔ a = b := by
  constructor
  · intro h
    apply List.ext_getElem hab
    intro i h1 h2
    have h3 := h i h1
    rw [List.getD_eq_getElem _ _ h1, List.getD_eq_getElem _ _ h2] at h3
    obtain ⟨f1, g1, d1⟩ := ha _ (List.getElem_mem h1)
    obtain ⟨f2, g2, d2⟩ := hb _ (List.getElem_mem h2)
    exact (cmp_eq_zero_iff MAX_DIMS _ _ f1 f2 g1 g2 d1 d2).1 h3
  · intro h i _
    rw [h]
    exact cmp_refl _ _

/-- C18: on key tuples of one arity, `CmpLess` is the lexicographic order over the
per-argument `cmp` results (`less(a, b)` exactly when the first argument whose `cmp`
is not 0 has a negative `cmp`); it is irreflexive and transitive; exactly one of
`less(a, b)`, `less(b, a)` and "every per-argument `cmp` is 0" holds; and when the
fields of the keys are in the ranges of their types, the last case holds exactly
when corresponding keys have equal `flags_`, `alias_group_` and `dimflags_`. -/
theorem C18_cmpless_strict_total_order (MAX_DIMS : Nat) (a b c : List SpecializationKey)
    (hab : a.length = b.length) :
    (CmpLess MAX_DIMS a b = true ↔ lexLess MAX_DIMS a b) ∧
    CmpLess MAX_DIMS a a = false ∧
    (CmpLess MAX_DIMS a b = true → CmpLess MAX_DIMS b c = true →
      CmpLess MAX_DIMS a c = true) ∧
    (CmpLess MAX_DIMS a b = true ∨ CmpLess MAX_DIMS b a = true ∨ allCmpZero MAX_DIMS a b) ∧
    ¬ (CmpLess MAX_DIMS a b = true ∧ CmpLess MAX_DIMS b a = true) ∧
    ¬ (CmpLess MAX_DIMS a b = true ∧ allCmpZero MAX_DIMS a b) ∧
    ¬ (CmpLess MAX_DIMS b a = true ∧ allCmpZero MAX_DIMS a b) ∧
    ((∀ k ∈ a, k.wf MAX_DIMS) → (∀ k ∈ b, k.wf MAX_DIMS) →
      (allCmpZero MAX_DIMS a b ↔
        ∀ i, i < a.length →
          (a.getD i default).flags_ = (b.getD i default).flags_ ∧
          (a.getD i default).alias_group_ = (b.getD i default).alias_group_ ∧
          (a.getD i default).dimflags_ = (b.getD i default).dimflags_)) := by
  have hirr : ∀ x : List SpecializationKey, CmpLess MAX_DIMS x x = false := by
    intro x
    cases hx : CmpLess MAX_DIMS x x
    · rfl
    · exact absurd ((CmpLess_iff_lexLess MAX_DIMS x x).1 hx) (lexLess_irrefl MAX_DIMS x)
  have hz := allCmpZero_iff MAX_DIMS a b hab
  have hasym : ¬ (CmpLess MAX_DIMS a b = true ∧ CmpLess MAX_DIMS b a = true) := by
    rintro ⟨h1, h2⟩
    have h3 := lexLess_trans MAX_DIMS a b a hab ((CmpLess_iff_lexLess _ _ _).1 h1)
      ((CmpLess_iff_lexLess _ _ _).1 h2)
    exact lexLess_irrefl MAX_DIMS a h3
  refine ⟨CmpLess_iff_lexLess MAX_DIMS a b, hirr a, ?_, ?_, hasym, ?_, ?_, ?_⟩
  · intro h1 h2
    exact (CmpLess_iff_lexLess _ _ _).2 (lexLess_trans MAX_DIMS a b c hab
      ((CmpLess_iff_lexLess _ _ _).1 h1) ((CmpLess_iff_lexLess _ _ _).1 h2))
  · rw [hz]
    cases CmpLess MAX_DIMS a b <;> cases CmpLess MAX_DIMS b a <;> simp
  · rw [hz]
    rintro ⟨h1, h2, _⟩
    rw [h1] at h2
    exact absurd h2 (by simp)
  · rw [hz]
    rintro ⟨h1, _, h2⟩
    rw [h1] at h2
    exact absurd h2 (by simp)
  · intro ha hb
    rw [allCmpZero_iff_eq MAX_DIMS a b hab ha hb]
    constructor
    · intro h i _
      rw [h]
      exact ⟨rfl, rfl, rfl⟩
    · intro h
      apply List.ext_getElem hab
      intro i h1 h2
      have h3 := h i h1
      rw [List.getD_eq_getElem _ _ h1, List.getD_eq_getElem _ _ h2] at h3
      cases hx : a[i]
      cases hy : b[i]
      rw [hx, hy] at h3
      simp only [SpecializationKey.mk.injEq]
      exact h3

/-- C18 at the broadcast scenario: the key tuple without `out=` is less than the key
tuple with `out=` (they first differ in the `is_out` bit of the last key), not the
other way round, and not every per-argument `cmp` is 0. -/
theorem C18_cmpless_strict_total_order_witness :
    lexLess 2 (compute_cache_key scenarioCounts 2 [broadcastA, broadcastB, broadcastOut] false)
      (compute_cache_key scenarioCounts 2 [broadcastA, broadcastB, broadcastOut] true) ∧
    CmpLess 2 (compute_cache_key scenarioCounts 2 [broadcastA, broadcastB, broadcastOut] true)
      (compute_cache_key scenarioCounts 2 [broadcastA, broadcastB, broadcastOut] false) =
        false ∧
    ¬ allCmpZero 2
      (compute_cache_key scenarioCounts 2 [broadcastA, broadcastB, broadcastOut] false)
      (compute_cache_key scenarioCounts 2 [broadcastA, broadcastB, broadcastOut] true) :=
  have h := C18_cmpless_strict_total_order 2
    (compute_cache_key scenarioCounts 2 [broadcastA, broadcastB, broadcastOut] false)
    (compute_cache_key scenarioCounts 2 [broadcastA, broadcastB, broadcastOut] true)
    (compute_cache_key scenarioCounts 2 [broadcastA, broadcastB, broadcastOut] true)
    (by decide)
  ⟨h.1.1 (by decide), by decide, fun hz => h.2.2.2.2.2.1 ⟨by decide, hz⟩⟩

/-! ## C19 -/

/-- C19 evaluated at a list of three shape parameters for the `MAX_DIMS = 2` bucket:
`set_shape_from` stores the list as it is (the entry then holds three pairs, more
than `MAX_DIMS`), every pair names an argument and a dimension of the broadcast
scenario, and the invocation of the entry, directly and through the cache with a
callback that configures the entry so, reaches the write to `shapes[2]`, one past
the buffer `shapes[MAX_DIMS]`. -/
theorem C19_shape_from_not_bounded :
    (CompileResultImpl.new.configure (.set_shape_from threeShapeParams)).shape_from_ =
      threeShapeParams ∧
    ¬ ((CompileResultImpl.new.configure (.set_shape_from threeShapeParams)).shape_from_.length
      ≤ 2) ∧
    ShapeFromValid threeShapeParams [broadcastA, broadcastB, broadcastOut] ∧
    ((CompileResultImpl.new.configure (.set_code 7)).configure
        (.set_shape_from threeShapeParams)).call 2 returningKernel
        [broadcastA, broadcastB, broadcastOut] [] =
      .error "undefined behaviour: write past shapes[MAX_DIMS]" ∧
    (CompileCache3.call scenarioCounts 2 threeParamCompiler returningKernel
        { cache_ := [], py := 0, compiled := [] } [broadcastA, broadcastB, broadcastOut]
        false).1 =
      .error "undefined behaviour: write past shapes[MAX_DIMS]" := by
  decide

/-! ## C20 -/

/-- The forward-contiguous bit of a populated flag byte is set only for the
forward-contiguous category. -/
theorem tag_contiguous_bit (s : SizeTag) (t : StrideTag) (h : t ≠ StrideTag.contiguous) :
    (s.bit ||| t.bit) &&& STRIDE_CONTIGUOUS = 0 := by
  revert h
  cases s <;> cases t <;> decide

/-- The forward-contiguous rule does not match at the trailing dimension. -/
theorem strideTag_last_ne_contiguous (sizes strides : List Int) (n : Nat) :
    strideTag sizes strides n (n - 1) ≠ StrideTag.contiguous := by
  unfold strideTag
  split_ifs with h1 h2 h3 h4
  · simp
  · simp
  · omega
  · simp
  · simp

/-- In a densely packed row-major array whose extents are all at least 2, the
stride of the dimension `k` places before the trailing one is at least 1, and at
least 2 when `k > 0`. -/
theorem row_major_stride_ge (v : Tensor) (hrm : RowMajor v)
    (hext : ∀ d, d < v.ndimension → 2 ≤ v.sizes.getD d 0) :
    ∀ k d, d + k + 1 = v.ndimension →
      1 ≤ v.strides.getD d 0 ∧ (0 < k → 2 ≤ v.strides.getD d 0) := by
  intro k
  induction k with
  | zero =>
    intro d hd
    have h1 : d = v.ndimension - 1 := by omega
    rw [h1, hrm.1]
    exact ⟨le_refl _, fun h => absurd h (Nat.lt_irrefl 0)⟩
  | succ k ih =>
    intro d hd
    have h1 := (ih (d + 1) (by omega)).1
    have h2 := hext (d + 1) (by omega)
    have h3 := hrm.2 d (by omega)
    have h4 : 2 ≤ v.strides.getD d 0 := by
      rw [h3]
      nlinarith
    exact ⟨by omega, fun _ => h4⟩

/-- C20: for every densely packed row-major descriptor with `1 <= ndim <= MAX_DIMS`
(trailing stride 1, every other stride the product of the next stride and the next
extent), the trailing dimension is classified `STRIDE_ONE` and does not carry
`STRIDE_CONTIGUOUS`; for any descriptor at all the trailing slot does not carry
`STRIDE_CONTIGUOUS`; and if every extent is at least 2, every non-trailing
dimension is classified `STRIDE_CONTIGUOUS` and the stride tags are
`[contiguous, ..., contiguous, one]`. -/
theorem C20_row_major_stride_tags (E : EnumCounts) (MAX_DIMS : Nat) (v : Tensor)
    (alias_group : Int) (is_out : Bool) (h1 : 1 ≤ v.ndimension)
    (hfit : v.ndimension ≤ MAX_DIMS) (hrm : RowMajor v) :
    strideBits ((SpecializationKey.new E MAX_DIMS v alias_group is_out).dimflags_.getD
      (v.ndimension - 1) 0) = STRIDE_ONE ∧
    (SpecializationKey.new E MAX_DIMS v alias_group is_out).dimflags_.getD
      (v.ndimension - 1) 0 &&& STRIDE_CONTIGUOUS = 0 ∧
    (∀ (w : Tensor) (g : Int) (o : Bool), 1 ≤ w.ndimension → w.ndimension ≤ MAX_DIMS →
      (SpecializationKey.new E MAX_DIMS w g o).dimflags_.getD (w.ndimension - 1) 0 &&&
        STRIDE_CONTIGUOUS = 0) ∧
    ((∀ d, d < v.ndimension → 2 ≤ v.sizes.getD d 0) →
      (∀ d, d + 1 < v.ndimension →
        strideBits ((SpecializationKey.new E MAX_DIMS v alias_group is_out).dimflags_.getD d 0) =
          STRIDE_CONTIGUOUS) ∧
      (SpecializationKey.new E MAX_DIMS v alias_group is_out).stride MAX_DIMS =
        .ok (List.replicate (v.ndimension - 1) "contiguous" ++ ["one"])) := by
  have hslot : ∀ (w : Tensor) (g : Int) (o : Bool) (d : Nat), w.ndimension ≤ MAX_DIMS →
      d < w.ndimension →
      (SpecializationKey.new E MAX_DIMS w g o).dimflags_.getD d 0 =
        (sizeTag w.sizes d).bit ||| (strideTag w.sizes w.strides w.ndimension d).bit := by
    intro w g o d hw hd
    show (init_dimflags MAX_DIMS w.sizes w.strides w.ndimension).getD d 0 = _
    rw [init_dimflags_getD_lt _ _ _ _ _ hw hd, flag_eq_tags]
    rfl
  have hany : ∀ (w : Tensor) (g : Int) (o : Bool), 1 ≤ w.ndimension →
      w.ndimension ≤ MAX_DIMS →
      (SpecializationKey.new E MAX_DIMS w g o).dimflags_.getD (w.ndimension - 1) 0 &&&
        STRIDE_CONTIGUOUS = 0 := by
    intro w g o hw1 hw
    rw [hslot w g o _ hw (by omega)]
    exact tag_contiguous_bit _ _ (strideTag_last_ne_contiguous _ _ _)
  have hlast : strideTag v.sizes v.strides v.ndimension (v.ndimension - 1) = StrideTag.one := by
    unfold strideTag
    rw [hrm.1, if_neg (by decide), if_pos rfl]
  have hsb : ∀ d, d < v.ndimension →
      strideBits ((SpecializationKey.new E MAX_DIMS v alias_group is_out).dimflags_.getD d 0) =
        (strideTag v.sizes v.strides v.ndimension d).bit := by
    intro d hd
    show strideBits ((init_dimflags MAX_DIMS v.sizes v.strides v.ndimension).getD d 0) = _
    rw [init_dimflags_getD_lt _ _ _ _ _ hfit hd]
    exact flag_strideBits v.sizes v.strides d
  refine ⟨?_, hany v alias_group is_out h1 hfit, hany, ?_⟩
  · rw [hsb _ (by omega), hlast]
    rfl
  · intro hext
    have hcont : ∀ d, d + 1 < v.ndimension →
        strideTag v.sizes v.strides v.ndimension d = StrideTag.contiguous := by
      intro d hd
      have h2 := (row_major_stride_ge v hrm hext (v.ndimension - 1 - d) d (by omega)).2
        (by omega)
      have h3 := hrm.2 d (by omega)
      unfold strideTag
      rw [if_neg (by omega), if_neg (by omega), if_pos ⟨hd, congrArg int64 h3⟩]
    refine ⟨fun d hd => by rw [hsb d (by omega), hcont d hd]; rfl, ?_⟩
    rw [stride_new E MAX_DIMS v alias_group is_out hfit]
    obtain ⟨n, hn⟩ : ∃ n, v.ndimension = n + 1 := ⟨v.ndimension - 1, by omega⟩
    rw [hn] at hcont hlast ⊢
    rw [Nat.add_sub_cancel] at hlast
    rw [List.range_succ, List.map_append, Nat.add_sub_cancel]
    have hA : (List.range n).map
        (fun d => (strideTag v.sizes v.strides (n + 1) d).name) =
        List.replicate n "contiguous" := by
      apply List.eq_replicate_iff.2
      refine ⟨by simp, ?_⟩
      intro b hb
      obtain ⟨d, hd, rfl⟩ := List.mem_map.1 hb
      rw [hcont d (by have := List.mem_range.1 hd; omega)]
      rfl
    have hB : [n].map (fun d => (strideTag v.sizes v.strides (n + 1) d).name) = ["one"] := by
      rw [List.map_singleton, hlast]
      rfl
    rw [hA, hB]

/-- C20 at a densely packed row-major array of shape (2, 3, 4) in the `MAX_DIMS = 4`
bucket: the stride tags are `[contiguous, contiguous, one]`. -/
theorem C20_row_major_stride_tags_witness :
    RowMajor packedCube ∧
    (SpecializationKey.new scenarioCounts 4 packedCube 0 false).stride 4 =
      .ok ["contiguous", "contiguous", "one"] ∧
    strideBits ((SpecializationKey.new scenarioCounts 4 packedCube 0 false).dimflags_.getD 2 0) =
      STRIDE_ONE :=
  have h := C20_row_major_stride_tags scenarioCounts 4 packedCube 0 false (by decide)
    (by decide) (by decide)
  ⟨by decide, (h.2.2.2 (by decide)).2, h.1⟩

/-! ## C2 -/

/-- C2: for two argument tuples of the same arity (at most 4) whose arguments all
fit the bucket `MAX_DIMS`, the keys built by `compute_cache_key` compare equal
argument by argument (`cmp == 0`) if and only if the tuples agree, argument by
argument, on dtype, layout, device type, requires_grad, is_out, alias group and on
the lists of size tags and stride tags of the populated dimensions; these tag lists
are the ones `shape()` and `stride()` report for the keys.  The option counts of the
three enumerations are parameters: the packed strides are assumed not to wrap and
the enumeration values to be below their counts. -/
theorem C2_key_injectivity (E : EnumCounts) (MAX_DIMS : Nat) (args1 args2 : List Tensor)
    (has_out1 has_out2 : Bool) (hE : E.fits) (hlen : args1.length = args2.length)
    (harity : args1.length ≤ 4)
    (h1 : ∀ v ∈ args1, v.ndimension ≤ MAX_DIMS ∧ v.enumsValid E)
    (h2 : ∀ v ∈ args2, v.ndimension ≤ MAX_DIMS ∧ v.enumsValid E) :
    ((∀ i, i < args1.length →
       ((compute_cache_key E MAX_DIMS args1 has_out1).getD i default).cmp MAX_DIMS
         ((compute_cache_key E MAX_DIMS args2 has_out2).getD i default) = 0) ↔
     (∀ i, i < args1.length → argTags args1 has_out1 i = argTags args2 has_out2 i)) ∧
    (∀ i, i < args1.length →
      ((compute_cache_key E MAX_DIMS args1 has_out1).getD i default).shape MAX_DIMS =
        (argTags args1 has_out1 i).size_tags.map SizeTag.name ∧
      ((compute_cache_key E MAX_DIMS args1 has_out1).getD i default).stride MAX_DIMS =
        .ok ((argTags args1 has_out1 i).stride_tags.map StrideTag.name)) := by
  have hiff : (∀ i, i < args1.length →
        ((compute_cache_key E MAX_DIMS args1 has_out1).getD i default).cmp MAX_DIMS
          ((compute_cache_key E MAX_DIMS args2 has_out2).getD i default) = 0) ↔
      (∀ i, i < args1.length → argTags args1 has_out1 i = argTags args2 has_out2 i) := by
    have key : ∀ i, i < args1.length →
        (((compute_cache_key E MAX_DIMS args1 has_out1).getD i default).cmp MAX_DIMS
          ((compute_cache_key E MAX_DIMS args2 has_out2).getD i default) = 0 ↔
        argTags args1 has_out1 i = argTags args2 has_out2 i) := by
      intro i hi
      have hi2 : i < args2.length := by omega
      have hm1 := h1 _ (getD_mem args1 i hi)
      have hm2 := h2 _ (getD_mem args2 i hi2)
      have hr1 := alias_group_range args1 i hi
      have hr2 := alias_group_range args2 i hi2
      rw [abs_le] at hr1 hr2
      have ha1 : ∀ (v : Tensor) (o : Bool),
          -128 ≤ (SpecializationKey.new E MAX_DIMS v
            ((compute_alias_groups Tensor.is_alias_of Tensor.is_set_to args1).getD i 0) o).alias_group_ ∧
          (SpecializationKey.new E MAX_DIMS v
            ((compute_alias_groups Tensor.is_alias_of Tensor.is_set_to args1).getD i 0) o).alias_group_ <
              128 := by
        intro v o
        simp only [SpecializationKey.new]
        omega
      have ha2 : ∀ (v : Tensor) (o : Bool),
          -128 ≤ (SpecializationKey.new E MAX_DIMS v
            ((compute_alias_groups Tensor.is_alias_of Tensor.is_set_to args2).getD i 0) o).alias_group_ ∧
          (SpecializationKey.new E MAX_DIMS v
            ((compute_alias_groups Tensor.is_alias_of Tensor.is_set_to args2).getD i 0) o).alias_group_ <
              128 := by
        intro v o
        simp only [SpecializationKey.new]
        omega
      rw [compute_cache_key_getD E MAX_DIMS args1 has_out1 i hi,
        compute_cache_key_getD E MAX_DIMS args2 has_out2 i hi2,
        cmp_eq_zero_iff MAX_DIMS _ _ (pack_flags_eq E hE _ hm1.2 _).2
          (pack_flags_eq E hE _ hm2.2 _).2
          (ha1 _ _) (ha2 _ _)
          (init_dimflags_length _ _ _ _ hm1.1) (init_dimflags_length _ _ _ _ hm2.1),
        new_eq_iff E hE MAX_DIMS _ _ hm1.2 hm2.2 hm1.1 hm2.1]
      unfold argTags
      rw [ArgTags.mk.injEq]
      constructor
      · rintro ⟨⟨ho, hg, hd, hl, hdev⟩, hal, hs, ht⟩
        exact ⟨hd, hl, hdev, hg, ho, hal, hs, ht⟩
      · rintro ⟨hd, hl, hdev, hg, ho, hal, hs, ht⟩
        exact ⟨⟨ho, hg, hd, hl, hdev⟩, hal, hs, ht⟩
    constructor
    · intro h i hi
      exact (key i hi).1 (h i hi)
    · intro h i hi
      exact (key i hi).2 (h i hi)
  refine ⟨hiff, ?_⟩
  intro i hi
  rw [compute_cache_key_getD E MAX_DIMS args1 has_out1 i hi,
    shape_new E MAX_DIMS _ _ _ (h1 _ (getD_mem args1 i hi)).1,
    stride_new E MAX_DIMS _ _ _ (h1 _ (getD_mem args1 i hi)).1]
  simp only [argTags, List.map_map]
  exact ⟨rfl, rfl⟩

/-- C2 at the broadcast scenario: the key tuple of `(a, b, out)` differs from the key
tuple of `(b, a, out)`, whose tags differ, and the key of `a` reports the tags of
`a`.  At two arrays without elements that differ in one extent, (0, 2^32 + 1) and
(0, 5) with strides (2^32, 2^32), the keys differ and so do the stride tags. -/
theorem C2_key_injectivity_witness :
    ((∀ i, i < 3 →
      ((compute_cache_key scenarioCounts 2 [broadcastA, broadcastB, broadcastOut] true).getD i
        default).cmp 2
        ((compute_cache_key scenarioCounts 2 [broadcastB, broadcastA, broadcastOut] true).getD i
          default) = 0) ↔
    (∀ i, i < 3 → argTags [broadcastA, broadcastB, broadcastOut] true i =
      argTags [broadcastB, broadcastA, broadcastOut] true i)) ∧
    argTags [broadcastA, broadcastB, broadcastOut] true 0 ≠
      argTags [broadcastB, broadcastA, broadcastOut] true 0 ∧
    ((compute_cache_key scenarioCounts 2 [broadcastA, broadcastB, broadcastOut] true).getD 0
        default).cmp 2
      ((compute_cache_key scenarioCounts 2 [broadcastB, broadcastA, broadcastOut] true).getD 0
        default) ≠ 0 ∧
    ((compute_cache_key scenarioCounts 2 [broadcastA, broadcastB, broadcastOut] true).getD 0
        default).stride 2 = .ok ["one", "zero"] ∧
    (compute_cache_key scenarioCounts 2 [wrapView] false).map SpecializationKey.dimflags_ =
      [[36, 132]] ∧
    (compute_cache_key scenarioCounts 2 [wrapView5] false).map SpecializationKey.dimflags_ =
      [[132, 132]] ∧
    (argTags [wrapView] false 0).stride_tags = [StrideTag.contiguous, StrideTag.as_arg] ∧
    (argTags [wrapView5] false 0).stride_tags = [StrideTag.as_arg, StrideTag.as_arg] ∧
    ((compute_cache_key scenarioCounts 2 [wrapView] false).getD 0 default).cmp 2
      ((compute_cache_key scenarioCounts 2 [wrapView5] false).getD 0 default) ≠ 0 :=
  ⟨(C2_key_injectivity scenarioCounts 2 [broadcastA, broadcastB, broadcastOut]
      [broadcastB, broadcastA, broadcastOut] true true (by decide) (by decide) (by decide)
      (by decide) (by decide)).1,
    by decide, by decide,
    ((C2_key_injectivity scenarioCounts 2 [broadcastA, broadcastB, broadcastOut]
      [broadcastB, broadcastA, broadcastOut] true true (by decide) (by decide) (by decide)
      (by decide) (by decide)).2 0 (by decide)).2,
    by decide, by decide, by decide, by decide, by decide⟩

end Authoring
